import Mathlib

/-!
# connect-or-cut: the rule engine

A shallow embedding of `connect-or-cut.c`: the rule entries and the rule
store (`coc_entry`, `coc_list_head`), the token scanner and entry builder
(`coc_rule_add`), the list tokenizer (`coc_rules_add`), start-up
(`coc_init`), the per-entry test (`coc_rule_match`) and the decision taken at
each connection attempt (`connect`).

Conventions.
* A C string is a `List Char` (it has no interior NUL).
* `exit` through `DIE` is the `.error` of `Except coc_error`.
* Values kept in network byte order are kept as their bytes, in memory
  order, so nothing depends on the endianness of the host.
* The C library is a parameter (`Libc`): the program only calls it.
-/

namespace ConnectOrCut

/-! ## Addresses and ports -/

/-- An octet. -/
abbrev octet := Fin 256

/-- The type `in_port_t` holding a port in network byte order: its two bytes
in memory order, most significant first. -/
structure in_port_t where
  hi : octet
  lo : octet
deriving DecidableEq, Repr

/-- Host to network conversion of a 16-bit value. -/
def htons (p : Nat) : in_port_t :=
  ⟨Fin.ofNat (p / 256), Fin.ofNat p⟩

/-- Network to host conversion of a 16-bit value. -/
def ntohs (x : in_port_t) : Nat :=
  x.hi.val * 256 + x.lo.val

/-- The C test `!e->port`: the port is the wildcard. -/
def in_port_t.isZero (x : in_port_t) : Bool :=
  x.hi.val == 0 && x.lo.val == 0

/-- The type `struct in_addr`: the four bytes of `s_addr`, in memory
(network) order. -/
structure in_addr where
  b0 : octet
  b1 : octet
  b2 : octet
  b3 : octet
deriving DecidableEq, Repr

/-- The type `struct in6_addr`: the sixteen bytes of `s6_addr`. -/
structure in6_addr where
  s6_addr : List octet
  size : s6_addr.length = 16
deriving DecidableEq

/-- Byte `i` of an IPv6 address. -/
def in6_addr.byte (a : in6_addr) (i : Nat) : octet :=
  a.s6_addr.getD i 0

/-- The system macro `IN6_ARE_ADDR_EQUAL`: equality of the sixteen bytes. -/
def IN6_ARE_ADDR_EQUAL (a b : in6_addr) : Bool :=
  decide (a = b)

/-- The system macro `IN6_IS_ADDR_V4MAPPED` (RFC 3493): the first ten bytes
are zero and the next two are `0xff`. -/
def IN6_IS_ADDR_V4MAPPED (a : in6_addr) : Bool :=
  decide (a.s6_addr.take 12 = [0, 0, 0, 0, 0, 0, 0, 0, 0, 0, 255, 255])

/-- The macro `INET4_IN_6`: the last four bytes of an IPv6 address read as an
IPv4 address (`s6_addr + 12`). -/
def INET4_IN_6 (i : in6_addr) : in_addr :=
  ⟨i.byte 12, i.byte 13, i.byte 14, i.byte 15⟩

/-- The IPv4-mapped IPv6 address `::ffff:a`. -/
def v4mapped (a : in_addr) : in6_addr :=
  ⟨[0, 0, 0, 0, 0, 0, 0, 0, 0, 0, 255, 255, a.b0, a.b1, a.b2, a.b3], rfl⟩

/-- A socket address as `connect` receives it. For a family other than
`AF_INET` and `AF_INET6` the two bytes that `sin_port` and `sin6_port`
overlay (the start of `sa_data`) are kept, since `INETX_PORT` reads them. -/
inductive sockaddr where
  | inet (sin_port : in_port_t) (sin_addr : in_addr)
  | inet6 (sin6_port : in_port_t) (sin6_addr : in6_addr)
  | other (sa_family : Nat) (sa_data : in_port_t)
deriving DecidableEq

/-- The macro `INETX_PORT`. -/
def INETX_PORT (a : sockaddr) : in_port_t :=
  match a with
  | .inet p _ => p
  | .inet6 p _ => p
  | .other _ p => p

/-- The test `sa_family == AF_INET || sa_family == AF_INET6`. -/
def sockaddr.isInet (a : sockaddr) : Bool :=
  match a with
  | .inet _ _ => true
  | .inet6 _ _ => true
  | .other _ _ => false

/-! ## Rule entries and the process state -/

/-- The enumeration `coc_rule_type_t`. -/
inductive coc_rule_type where
  | COC_ALLOW
  | COC_BLOCK
deriving DecidableEq, Repr

export coc_rule_type (COC_ALLOW COC_BLOCK)

/-- The union `addr` of `coc_entry_t` together with its discriminant
`addr_type`. -/
inductive coc_addr where
  | ipv4 (a : in_addr)
  | ipv6 (a : in6_addr)
  | glob (g : List Char)
deriving DecidableEq

/-- The structure `coc_entry_t` (without the list link). -/
structure coc_entry where
  addr : coc_addr
  port : in_port_t
  rule_type : coc_rule_type
deriving DecidableEq

/-- The test `e->addr_type == COC_GLOB_ADDR`. -/
def coc_entry.isGlob (e : coc_entry) : Bool :=
  match e.addr with
  | .glob _ => true
  | _ => false

/-- The globals of the library: the rule list, front first, and two flags. -/
structure coc_state where
  coc_list_head : List coc_entry
  needs_dns_lookup : Bool
  initialized : Bool
deriving DecidableEq

/-- The globals when the library is loaded. -/
def coc_state.initial : coc_state :=
  ⟨[], false, false⟩

/-- The macro `SLIST_INSERT_HEAD` on the rule list. -/
def SLIST_INSERT_HEAD (st : coc_state) (e : coc_entry) : coc_state :=
  { st with coc_list_head := e :: st.coc_list_head }

/-! ## The C library -/

/-- The C library functions the program calls.
* `inet_pton4 s` and `inet_pton6 s`: the address when
  `inet_pton (AF_INET, s, _)`, resp. `AF_INET6`, returns 1.
* `getservbyname s`: the field `s_port` of the entry of service `s` for
  protocol `tcp`, when there is one.
* `getaddrinfo s`: the addresses (`ai_addr`) of the result list, when the
  call returns 0.
* `fnmatch pat s`: `fnmatch (pat, s, 0)` returns 0.
* `getnameinfo k a`: the host name written by the call for `a` that comes
  after `k` earlier calls of the same connection attempt, when it returns 0.
-/
structure Libc where
  inet_pton4 : List Char → Option in_addr
  inet_pton6 : List Char → Option in6_addr
  getservbyname : List Char → Option in_port_t
  getaddrinfo : List Char → Option (List sockaddr)
  fnmatch : List Char → List Char → Bool
  getnameinfo : Nat → sockaddr → Option (List Char)

/-! ## Matching one entry: `coc_rule_match` -/

/-- The port test `!e->port || e->port == port`. -/
def port_match (e : coc_entry) (port : in_port_t) : Bool :=
  e.port.isZero || decide (e.port = port)

/-- The function `coc_rule_match`. -/
def coc_rule_match (libc : Libc) (e : coc_entry) (addr : sockaddr) (buf : List Char) : Bool :=
  match e.addr with
  | .ipv6 a =>
    match addr with
    | .inet6 port d => IN6_ARE_ADDR_EQUAL a d && port_match e port
    | .inet port d =>
      if IN6_IS_ADDR_V4MAPPED a then
        decide (INET4_IN_6 a = d) && port_match e port
      else false
    | .other _ _ => false
  | .ipv4 a =>
    match addr with
    | .inet port d => decide (a = d) && port_match e port
    | .inet6 port d =>
      if IN6_IS_ADDR_V4MAPPED d then
        decide (a = INET4_IN_6 d) && port_match e port
      else false
    | .other _ _ => false
  | .glob g =>
    (decide (g = ['*']) || libc.fnmatch g buf) && port_match e (INETX_PORT addr)

/-! ## The decision: `connect` -/

/-- What `connect` does with the attempt: `Allow` hands it to the real
`connect`, `Block` returns -1 with `EACCES`. -/
inductive Decision where
  | Allow
  | Block
deriving DecidableEq, Repr

/-- The verdict an entry gives when it matches. -/
def coc_rule_type.decision (t : coc_rule_type) : Decision :=
  match t with
  | COC_ALLOW => .Allow
  | COC_BLOCK => .Block

/-- The outcome of one call of `connect`: the decision and the number of
calls of `getnameinfo` it made. -/
structure Outcome where
  decision : Decision
  lookups : Nat
deriving DecidableEq, Repr

/-- The loop `SLIST_FOREACH` of `connect` from entry list `l` on, with the
locals `hbuf` and `dns_lookup_done` and the number of calls of `getnameinfo`
made so far. -/
def connect_loop (libc : Libc) (addr : sockaddr) :
    List coc_entry → List Char → Bool → Nat → Outcome
  | [], _, _, n => ⟨.Allow, n⟩
  | e :: l, hbuf, dns_lookup_done, n =>
    if e.isGlob && !dns_lookup_done then
      match libc.getnameinfo n addr with
      | none => connect_loop libc addr l hbuf dns_lookup_done (n + 1)
      | some h =>
        if coc_rule_match libc e addr h then ⟨e.rule_type.decision, n + 1⟩
        else connect_loop libc addr l h true (n + 1)
    else
      if coc_rule_match libc e addr hbuf then ⟨e.rule_type.decision, n⟩
      else connect_loop libc addr l hbuf dns_lookup_done n

/-- The function `connect`; `addr = none` is the null pointer. -/
def connect (libc : Libc) (st : coc_state) (addr : Option sockaddr) : Outcome :=
  if !st.initialized then ⟨.Allow, 0⟩
  else
    match addr with
    | none => ⟨.Allow, 0⟩
    | some a =>
      if a.isInet then
        connect_loop libc a st.coc_list_head ['*'] (!st.needs_dns_lookup) 0
      else ⟨.Allow, 0⟩

/-! ## Building one rule: `coc_rule_add` -/

deriving instance DecidableEq for Except

/-- The places where `coc_rule_add`, `coc_read_resolv` and `coc_init` leave
the process (`DIE`, `exit`, a failed `assert`). -/
inductive coc_error where
  | star_not_allowed
  | bracket_open_unexpected
  | bracket_close_unexpected
  | extra_colon
  | dot_not_allowed_ipv6
  | extra_dot
  | invalid_ipv4_segment
  | invalid_ipv4_address
  | char_unexpected (c : Char)
  | char_unexpected_here (c : Char)
  | bracket_close_missing
  | assertion_failed
  | no_port_specified
  | invalid_port_number
  | char_unexpected_for_port (c : Char)
  | service_not_found
  | port_zero_not_allowed
  | invalid_ipv6_literal (host : List Char)
  | invalid_ipv4_literal (host : List Char)
  | getaddrinfo_failed
  | glob_allow_without_block
  | resolv_conf_unreadable
  | nameserver_unprocessable (ns : List Char)
  | no_dns_allowed
deriving DecidableEq, Repr

def COC_IPV4_ADDR : Nat := 1
def COC_IPV6_ADDR : Nat := 2
def COC_GLOB_ADDR : Nat := 4
def COC_HOST_ADDR : Nat := 8
def UINT16_MAX : Nat := 65535

/-- The C expression `t & ~m` on `int`. -/
def and_not (t m : Nat) : Nat :=
  t &&& (0xFFFFFFFF ^^^ m)

/-- The local enumeration for the square brackets of an IPv6 literal. -/
inductive sb_state where
  | IPV6_SB_NONE
  | IPV6_SB_OPEN
  | IPV6_SB_CLOSE
deriving DecidableEq, Repr

export sb_state (IPV6_SB_NONE IPV6_SB_OPEN IPV6_SB_CLOSE)

/-- The locals of the scan of `coc_rule_add`; `service` is an index into the
token (`service - str`), `none` for `NULL`. -/
structure scan_state where
  type : Nat
  service : Option Nat
  sb : sb_state
  colon_count : Nat
  ipv4_segment : Nat
  segment : Nat
deriving DecidableEq, Repr

/-- The locals before the scan. -/
def scan_state.init : scan_state :=
  ⟨COC_IPV4_ADDR ||| COC_IPV6_ADDR ||| COC_GLOB_ADDR ||| COC_HOST_ADDR, none, IPV6_SB_NONE, 0, 1, 0⟩

/-- The function `isdigit` in the C locale. -/
def isdigit (c : Char) : Bool := c.isDigit

/-- The function `isxdigit` in the C locale. -/
def isxdigit (c : Char) : Bool :=
  c.isDigit || (decide ('a' ≤ c) && decide (c ≤ 'f')) || (decide ('A' ≤ c) && decide (c ≤ 'F'))

/-- The function `isalnum` in the C locale. -/
def isalnum (c : Char) : Bool := c.isAlphanum

/-- The value `c - 48` of a digit character. -/
def digit_value (c : Char) : Nat := c.toNat - 48

/-- One turn of the scanning loop of `coc_rule_add` on character `c` at index
`p` (`p = 0` is `p == str`). The result carries `true` when the loop is left
by `break`. -/
def scan_char (p : Nat) (c : Char) (s : scan_state) : Except coc_error (scan_state × Bool) :=
  if c = '*' then
    if and_not s.type (COC_IPV4_ADDR ||| COC_IPV6_ADDR) = 0 then .error .star_not_allowed
    else .ok ({ s with type := COC_GLOB_ADDR }, false)
  else if c = '[' then
    if p = 0 then .ok ({ s with type := COC_IPV6_ADDR, sb := IPV6_SB_OPEN }, false)
    else .error .bracket_open_unexpected
  else if c = ']' then
    if s.type = COC_IPV6_ADDR ∧ s.sb = IPV6_SB_OPEN then .ok ({ s with sb := IPV6_SB_CLOSE }, false)
    else .error .bracket_close_unexpected
  else if c = ':' then
    let s1 : scan_state := { s with colon_count := s.colon_count + 1, service := some (p + 1) }
    if s1.colon_count > 1 then
      let s2 : scan_state :=
        if s1.type &&& COC_IPV6_ADDR = COC_IPV6_ADDR then { s1 with type := COC_IPV6_ADDR } else s1
      if s2.type ≠ COC_IPV6_ADDR ∨
          ((s2.sb = IPV6_SB_OPEN ∧ s2.colon_count > 7) ∨ s2.colon_count > 8) then
        .error .extra_colon
      else if s2.colon_count = 8 ∨ s2.sb = IPV6_SB_CLOSE then .ok (s2, true)
      else .ok ({ s2 with service := none }, false)
    else
      if p ≠ 0 ∧ s1.type &&& COC_IPV4_ADDR = COC_IPV4_ADDR then
        let s2 : scan_state := { s1 with type := COC_IPV4_ADDR }
        if s2.ipv4_segment = 4 then .ok (s2, true) else .ok (s2, false)
      else .ok (s1, false)
  else if c = '.' then
    if s.type = COC_IPV6_ADDR then .error .dot_not_allowed_ipv6
    else
      let s1 : scan_state :=
        { s with type := and_not s.type COC_IPV6_ADDR, segment := 0,
                 ipv4_segment := s.ipv4_segment + 1 }
      if s1.ipv4_segment > 4 then
        if s1.type = COC_IPV4_ADDR then .error .extra_dot
        else .ok ({ s1 with type := and_not s1.type COC_IPV4_ADDR }, false)
      else .ok (s1, false)
  else if isdigit c then
    if s.type &&& COC_IPV4_ADDR = COC_IPV4_ADDR then
      if s.segment > UINT16_MAX / 10 ∨ UINT16_MAX - digit_value c < s.segment * 10 then
        .error .invalid_ipv4_segment
      else
        let s1 : scan_state := { s with segment := (s.segment * 10 + digit_value c) % 65536 }
        if s1.segment > 255 then
          if s1.type = COC_IPV4_ADDR then .error .invalid_ipv4_address
          else .ok ({ s1 with type := and_not s1.type COC_IPV4_ADDR }, false)
        else .ok (s1, false)
    else .ok (s, false)
  else if isxdigit c then
    if s.type = COC_IPV4_ADDR then .error .invalid_ipv4_address
    else .ok ({ s with type := and_not s.type COC_IPV4_ADDR }, false)
  else if isalnum c then
    if and_not s.type (COC_IPV4_ADDR ||| COC_IPV6_ADDR) = 0 then .error (.char_unexpected c)
    else .ok ({ s with type := and_not s.type (COC_IPV4_ADDR ||| COC_IPV6_ADDR) }, false)
  else if c = '-' ∨ c = '_' then
    if and_not s.type (COC_IPV4_ADDR ||| COC_IPV6_ADDR) = 0 ∨ p = 0 then .error (.char_unexpected c)
    else .ok ({ s with type := and_not s.type (COC_IPV4_ADDR ||| COC_IPV6_ADDR) }, false)
  else .error (.char_unexpected_here c)

/-- The scanning loop `while (p < str + len)` of `coc_rule_add` over the
characters from index `p` on. -/
def scan_loop : List Char → Nat → scan_state → Except coc_error scan_state
  | [], _, s => .ok s
  | c :: cs, p, s =>
    match scan_char p c s with
    | .error e => .error e
    | .ok (s1, true) => .ok s1
    | .ok (s1, false) => scan_loop cs (p + 1) s1

/-- The resolution of `type` after the loop, the test for a missing closing
bracket and the assertion. -/
def scan_finish (s : scan_state) : Except coc_error scan_state :=
  let s1 : scan_state :=
    if s.type &&& COC_IPV4_ADDR = COC_IPV4_ADDR then { s with type := COC_IPV4_ADDR }
    else if s.type &&& COC_HOST_ADDR = COC_HOST_ADDR then { s with type := COC_HOST_ADDR }
    else s
  if s1.type = COC_IPV6_ADDR ∧ s1.sb = IPV6_SB_OPEN then .error .bracket_close_missing
  else if s1.type = COC_IPV4_ADDR ∨ s1.type = COC_IPV6_ADDR ∨
      s1.type = COC_HOST_ADDR ∨ s1.type = COC_GLOB_ADDR then .ok s1
  else .error .assertion_failed

/-- The first part of `coc_rule_add`: the scan of the token `str`, up to and
including the assertion. -/
def coc_rule_scan (str : List Char) : Except coc_error scan_state :=
  match scan_loop str 0 scan_state.init with
  | .error e => .error e
  | .ok s => scan_finish s

/-- The loop `while (t < str + len)` over the port field: the locals `port`
and `getservbyname_needed` after it. -/
def port_loop : List Char → Nat → Bool → Except coc_error (Nat × Bool)
  | [], port, needed => .ok (port, needed)
  | u :: us, port, needed =>
    if isdigit u then
      if port > UINT16_MAX / 10 ∨ UINT16_MAX - digit_value u < port * 10 then
        .error .invalid_port_number
      else port_loop us ((port * 10 + digit_value u) % 65536) needed
    else if isalnum u ∨ u = '-' then port_loop us port true
    else .error (.char_unexpected_for_port u)

/-- The value of `port` computed from a port field that is not empty: the
loop, then the service lookup when a character that is not a digit was
seen. -/
def port_eval (libc : Libc) (field : List Char) : Except coc_error Nat :=
  match port_loop field 0 false with
  | .error e => .error e
  | .ok (port, false) => .ok port
  | .ok (_, true) =>
    match libc.getservbyname field with
    | some s_port => .ok (ntohs s_port)
    | none => .error .service_not_found

/-- The second part of `coc_rule_add`: the local `port` after the block
`if (service != NULL)`, for the port field `field` (the text from `service`
to the end of the token). -/
def port_parse (libc : Libc) (field : List Char) : Except coc_error Nat :=
  if field = [] then .error .no_port_specified
  else
    match port_eval libc field with
    | .error e => .error e
    | .ok port => if port = 0 then .error .port_zero_not_allowed else .ok port

/-- The local `port` of `coc_rule_add` once the scan is done. -/
def coc_rule_port (libc : Libc) (str : List Char) (s : scan_state) : Except coc_error Nat :=
  match s.service with
  | none => .ok 0
  | some i => port_parse libc (str.drop i)

/-- The local `host` of `coc_rule_add`: `strndup` of the address part, after
`str++` and `len--` when the bracket was closed. The length
`service - str - skip_last` is taken in `Nat`. -/
def coc_rule_host (str : List Char) (s : scan_state) : List Char :=
  let str1 := if s.sb = IPV6_SB_CLOSE then str.drop 1 else str
  let skip_last := if s.sb = IPV6_SB_CLOSE then 2 else 1
  let start := if s.sb = IPV6_SB_CLOSE then 1 else 0
  match s.service with
  | some i => str1.take (i - start - skip_last)
  | none => str1

/-- The loop over the result list of `getaddrinfo` in the `COC_HOST_ADDR`
case. -/
def host_entries (port : Nat) (rule_type : coc_rule_type) :
    List sockaddr → coc_state → coc_state
  | [], st => st
  | .inet _ a :: l, st =>
    host_entries port rule_type l (SLIST_INSERT_HEAD st ⟨.ipv4 a, htons port, rule_type⟩)
  | .inet6 _ a :: l, st =>
    host_entries port rule_type l (SLIST_INSERT_HEAD st ⟨.ipv6 a, htons port, rule_type⟩)
  | .other _ _ :: l, st => host_entries port rule_type l st

/-- The last part of `coc_rule_add`: the statement `switch (type)`. -/
def coc_rule_build (libc : Libc) (type : Nat) (host : List Char) (port : Nat)
    (rule_type : coc_rule_type) (st : coc_state) : Except coc_error coc_state :=
  if type = COC_IPV6_ADDR then
    match libc.inet_pton6 host with
    | some a => .ok (SLIST_INSERT_HEAD st ⟨.ipv6 a, htons port, rule_type⟩)
    | none => .error (.invalid_ipv6_literal host)
  else if type = COC_IPV4_ADDR then
    match libc.inet_pton4 host with
    | some a => .ok (SLIST_INSERT_HEAD st ⟨.ipv4 a, htons port, rule_type⟩)
    | none => .error (.invalid_ipv4_literal host)
  else if type = COC_GLOB_ADDR then
    let st1 := SLIST_INSERT_HEAD st ⟨.glob host, htons port, rule_type⟩
    if host ≠ ['*'] then .ok { st1 with needs_dns_lookup := true } else .ok st1
  else if type = COC_HOST_ADDR then
    match libc.getaddrinfo host with
    | some ailist => .ok (host_entries port rule_type ailist st)
    | none => .error .getaddrinfo_failed
  else .ok st

/-- The function `coc_rule_add` on the token `str` (the `len` characters at
`str`). -/
def coc_rule_add (libc : Libc) (str : List Char) (rule_type : coc_rule_type)
    (st : coc_state) : Except coc_error coc_state :=
  match coc_rule_scan str with
  | .error e => .error e
  | .ok s =>
    match coc_rule_port libc str s with
    | .error e => .error e
    | .ok port => coc_rule_build libc s.type (coc_rule_host str s) port rule_type st

/-! ## Building a list of rules: `coc_rules_add` -/

/-- The loop `while (p >= rules)` of `coc_rules_add`, with `n` positions left
to visit (`p = rules + n - 1`) and the locals `len` and `count`. -/
def rules_loop (libc : Libc) (rules : List Char) (rule_type : coc_rule_type) :
    Nat → Nat → Nat → coc_state → Except coc_error (Nat × Nat × coc_state)
  | 0, len, count, st => .ok (len, count, st)
  | k + 1, len, count, st =>
    if rules.getD k (Char.ofNat 0) = ';' then
      match (if len > 1 then coc_rule_add libc ((rules.drop (k + 1)).take (len - 1)) rule_type st
             else .ok st) with
      | .error e => .error e
      | .ok st1 => rules_loop libc rules rule_type k 1 (count + 1) st1
    else rules_loop libc rules rule_type k (len + 1) count st

/-- The function `coc_rules_add`: the value returned (`count`) and the
globals afterwards; `rules = none` is the null pointer. -/
def coc_rules_add (libc : Libc) (rules : Option (List Char)) (rule_type : coc_rule_type)
    (st : coc_state) : Except coc_error (Nat × coc_state) :=
  match rules with
  | none => .ok (0, st)
  | some r =>
    match rules_loop libc r rule_type (r.length + 1) 0 0 st with
    | .error e => .error e
    | .ok (len, count, st1) =>
      if len - 1 > 0 then
        match coc_rule_add libc (r.take (len - 1)) rule_type st1 with
        | .error e => .error e
        | .ok st2 => .ok (count + 1, st2)
      else .ok (count, st1)

/-! ## Start-up: `coc_read_resolv` and `coc_init` -/

/-- The structure `coc_resolver_t`: a name-server address and its family. -/
inductive coc_resolver where
  | v4 (a : in_addr)
  | v6 (a : in6_addr)
deriving DecidableEq

/-- The constant `MAXNS` of `resolv.h`. -/
def MAXNS : Nat := 3

/-- The string `NS`. -/
def NS : List Char := "nameserver ".toList

/-- The loop of `coc_read_resolv` over the lines that `fgets` returns; `out`
holds the name servers found so far, last first. -/
def read_resolv_loop (libc : Libc) :
    List (List Char) → List coc_resolver → Except coc_error (List coc_resolver)
  | [], out => .ok out
  | buffer :: rest, out =>
    if out.length < MAXNS then
      if buffer.take NS.length = NS then
        let ns0 := buffer.drop NS.length
        let ns := if ns0.getLast? = some (Char.ofNat 10) then ns0.dropLast else ns0
        match libc.inet_pton4 ns with
        | some a => read_resolv_loop libc rest (.v4 a :: out)
        | none =>
          match libc.inet_pton6 ns with
          | some a => read_resolv_loop libc rest (.v6 a :: out)
          | none => .error (.nameserver_unprocessable ns)
      else read_resolv_loop libc rest out
    else .ok out

/-- The function `coc_read_resolv`; `resolv_conf` is the content of
`/etc/resolv.conf` as the successive results of `fgets`, `none` when the
file cannot be opened. -/
def coc_read_resolv (libc : Libc) (resolv_conf : Option (List (List Char))) :
    Except coc_error (List coc_resolver) :=
  match resolv_conf with
  | none => .error .resolv_conf_unreadable
  | some lines => read_resolv_loop libc lines []

/-- The test made on entry `e` by the loop of `coc_init` that looks for an
allowed name server. -/
def dns_entry_allowed (dns : List coc_resolver) (e : coc_entry) : Bool :=
  decide (e.rule_type = COC_ALLOW) && !e.isGlob &&
    (e.port.isZero || decide (e.port = htons 53)) &&
    dns.any (fun d =>
      match e.addr, d with
      | .ipv4 a, .v4 b => decide (a = b)
      | .ipv6 a, .v6 b => IN6_ARE_ADDR_EQUAL a b
      | _, _ => false)

/-- What `coc_init` reads from outside the process: the two environment
variables (`none` when unset) and `/etc/resolv.conf`. -/
structure coc_environ where
  COC_BLOCK : Option (List Char)
  COC_ALLOW : Option (List Char)
  resolv_conf : Option (List (List Char))

/-- The function `coc_init` from `SLIST_INIT` on (the set-up of logging that
comes before is left out). -/
def coc_init (libc : Libc) (env : coc_environ) (st : coc_state) : Except coc_error coc_state :=
  let st0 : coc_state := { st with coc_list_head := [] }
  match coc_rules_add libc env.COC_BLOCK COC_BLOCK st0 with
  | .error e => .error e
  | .ok (_, st1) =>
    match coc_rules_add libc env.COC_ALLOW COC_ALLOW st1 with
    | .error e => .error e
    | .ok (_, st2) =>
      if env.COC_ALLOW ≠ none ∧ env.COC_BLOCK = none ∧ st2.needs_dns_lookup = true then
        .error .glob_allow_without_block
      else if st2.needs_dns_lookup then
        match coc_read_resolv libc env.resolv_conf with
        | .error e => .error e
        | .ok dns =>
          if st2.coc_list_head.any (dns_entry_allowed dns) then
            .ok { st2 with initialized := true }
          else .error .no_dns_allowed
      else .ok { st2 with initialized := true }

/-! ## A C library for the examples -/

/-- One step of the strict dotted-decimal conversion: `acc` holds the octets
completed so far (last first), `cur` the value of the octet being read, if
any digit of it was seen. -/
def inet_pton4_loop : List Char → List Nat → Option Nat → Option (List Nat)
  | [], acc, some v => some (v :: acc)
  | [], _, none => none
  | c :: cs, acc, cur =>
    if c.isDigit then
      match cur with
      | none => inet_pton4_loop cs acc (some (c.toNat - 48))
      | some v =>
        if v = 0 ∨ v * 10 + (c.toNat - 48) > 255 then none
        else inet_pton4_loop cs acc (some (v * 10 + (c.toNat - 48)))
    else if c = '.' then
      match cur with
      | none => none
      | some v => inet_pton4_loop cs (v :: acc) none
    else none

/-- A strict dotted-decimal conversion, as `inet_pton (AF_INET, ...)` does
it: four decimal numbers from 0 to 255, no leading zero, joined by dots. -/
def inet_pton4_ref (s : List Char) : Option in_addr :=
  match inet_pton4_loop s [] none with
  | some [d, c, b, a] => some ⟨Fin.ofNat a, Fin.ofNat b, Fin.ofNat c, Fin.ofNat d⟩
  | _ => none

/-- Matching of a pattern whose only special characters are `*` and `?`. -/
def fnmatch_ref : List Char → List Char → Bool
  | [], s => s.isEmpty
  | p :: ps, s =>
    if p = '*' then s.tails.any (fun t => fnmatch_ref ps t)
    else
      match s with
      | [] => false
      | c :: cs => (p = '?' || p = c) && fnmatch_ref ps cs

/-- The loopback address `::1`. -/
def in6_loopback : in6_addr :=
  ⟨[0, 0, 0, 0, 0, 0, 0, 0, 0, 0, 0, 0, 0, 0, 0, 1], rfl⟩

/-- A C library for the examples: strict IPv4 conversion, the IPv6 literal
`::1`, three services, one host name, and a reverse lookup that fails. -/
def libc_ref : Libc where
  inet_pton4 := inet_pton4_ref
  inet_pton6 := fun s => if s = "::1".toList then some in6_loopback else none
  getservbyname := fun s =>
    if s = "ssh".toList then some (htons 22)
    else if s = "domain".toList then some (htons 53)
    else if s = "http".toList then some (htons 80)
    else none
  getaddrinfo := fun s =>
    if s = "localhost".toList then
      some [.inet (htons 0) ⟨127, 0, 0, 1⟩, .inet6 (htons 0) in6_loopback]
    else none
  fnmatch := fnmatch_ref
  getnameinfo := fun _ _ => none

/-- The same C library with a reverse lookup that always gives `name`. -/
def libc_named (name : List Char) : Libc :=
  { libc_ref with getnameinfo := fun _ _ => some name }

end ConnectOrCut


namespace ConnectOrCut

/-! ## Specification-side notions for matching -/

/-- The address test of an entry against a destination, kind by kind:
equal addresses of the same family, an IPv4-mapped IPv6 address against the
IPv4 address it embeds, and for a glob entry the universal pattern or a
pattern that matches the host name `buf`. -/
def address_test (libc : Libc) (e : coc_entry) (addr : sockaddr) (buf : List Char) : Prop :=
  match e.addr, addr with
  | .ipv6 a, .inet6 _ d => a = d
  | .ipv6 a, .inet _ d => a = v4mapped d
  | .ipv4 a, .inet _ d => a = d
  | .ipv4 a, .inet6 _ d => d = v4mapped a
  | .glob g, _ => g = ['*'] ∨ libc.fnmatch g buf = true
  | _, _ => False

/-- The address test and the port test of entry `e` both pass against the
destination `addr`, the host name of the destination being `buf`. -/
def passes (libc : Libc) (addr : sockaddr) (buf : List Char) (e : coc_entry) : Prop :=
  address_test libc e addr buf ∧ (e.port = htons 0 ∨ e.port = INETX_PORT addr)

/-- Entry `e` is the first entry of `l`, from the front, that satisfies
`P`. -/
def first_passing (P : coc_entry → Prop) (l : List coc_entry) (e : coc_entry) : Prop :=
  ∃ l1 l2, l = l1 ++ e :: l2 ∧ P e ∧ ∀ x ∈ l1, ¬ P x

/-- The verdict of the entry found, `Allow` when there is none. -/
def verdict_of (o : Option coc_entry) : Decision :=
  match o with
  | some e => e.rule_type.decision
  | none => .Allow

/-- The entry built from the token `*`. -/
def star_entry (r : coc_rule_type) : coc_entry :=
  ⟨.glob ['*'], htons 0, r⟩

/-- The globals after start-up with `COC_BLOCK="*;*.evil.com"` and
`COC_ALLOW="8.8.8.8"`. -/
def st_block_star : coc_state :=
  ⟨[⟨.ipv4 ⟨8, 8, 8, 8⟩, htons 0, COC_ALLOW⟩, star_entry COC_BLOCK,
    ⟨.glob "*.evil.com".toList, htons 0, COC_BLOCK⟩], true, true⟩

/-- The file `/etc/resolv.conf` with the one line `nameserver 8.8.8.8`. -/
def resolv_8888 : Option (List (List Char)) :=
  some ["nameserver 8.8.8.8".toList ++ [Char.ofNat 10]]

/-- The environment `COC_BLOCK="*;*.evil.com"`, `COC_ALLOW="8.8.8.8"`. -/
def env_block_star : coc_environ :=
  ⟨some "*;*.evil.com".toList, some "8.8.8.8".toList, resolv_8888⟩

/-- The environment `COC_BLOCK="*"`, `COC_ALLOW="*.example.com:443;8.8.8.8"`. -/
def env_glob : coc_environ :=
  ⟨some "*".toList, some "*.example.com:443;8.8.8.8".toList, resolv_8888⟩

/-- The globals after start-up in the environment `env_glob`. -/
def st_glob : coc_state :=
  ⟨[⟨.glob "*.example.com".toList, htons 443, COC_ALLOW⟩,
    ⟨.ipv4 ⟨8, 8, 8, 8⟩, htons 0, COC_ALLOW⟩, star_entry COC_BLOCK], true, true⟩

/-! ## Specification-side notions for rule lists -/

/-- The function `coc_rule_add` applied to each token of a list in turn. -/
def add_all (libc : Libc) (r : coc_rule_type) :
    List (List Char) → coc_state → Except coc_error coc_state
  | [], st => .ok st
  | t :: ts, st =>
    match coc_rule_add libc t r st with
    | .error e => .error e
    | .ok st1 => add_all libc r ts st1

/-- The loop of `coc_rules_add` told on the characters still to visit,
nearest first, with the token read so far in place of `len`. -/
def rev_loop (libc : Libc) (r : coc_rule_type) :
    List Char → List Char → coc_state → Except coc_error (List Char × coc_state)
  | [], tok, st => .ok (tok, st)
  | c :: cs, tok, st =>
    if c = ';' then
      match (if tok ≠ [] then coc_rule_add libc tok r st else .ok st) with
      | .error e => .error e
      | .ok st1 => rev_loop libc r cs [] st1
    else rev_loop libc r cs (c :: tok) st

/-- What `coc_rules_add` does after its loop, on the result of `rev_loop`. -/
def rev_post (libc : Libc) (r : coc_rule_type)
    (x : Except coc_error (List Char × coc_state)) : Except coc_error coc_state :=
  match x with
  | .error e => .error e
  | .ok (tok, st) => if tok ≠ [] then coc_rule_add libc tok r st else .ok st

/-- What `coc_rules_add` does after its loop, on the result of `rules_loop`:
the globals only. -/
def rules_post (libc : Libc) (rules : List Char) (r : coc_rule_type)
    (x : Except coc_error (Nat × Nat × coc_state)) : Except coc_error coc_state :=
  match x with
  | .error e => .error e
  | .ok (len, _, st) =>
    if len - 1 > 0 then coc_rule_add libc (rules.take (len - 1)) r st else .ok st

/-- The globals after `coc_rules_add`, without the count. -/
def rules_state (x : Except coc_error (Nat × coc_state)) : Except coc_error coc_state :=
  match x with
  | .error e => .error e
  | .ok (_, st) => .ok st

/-- The IPv4 entry with the wildcard port. -/
def ipv4_entry (a : in_addr) (r : coc_rule_type) : coc_entry :=
  ⟨.ipv4 a, htons 0, r⟩

/-- The environment `COC_BLOCK="1.2.3.4;5.6.7.8"`, `COC_ALLOW="9.9.9.9"`. -/
def env_order : coc_environ :=
  ⟨some "1.2.3.4;5.6.7.8".toList, some "9.9.9.9".toList, none⟩

/-- The entry that `libc_ref` builds from a token that is an IPv4 literal
without port. -/
def ipv4_token_entry (r : coc_rule_type) (t : List Char) : coc_entry :=
  match inet_pton4_ref t with
  | some a => ipv4_entry a r
  | none => ipv4_entry ⟨0, 0, 0, 0⟩ r

/-- The environment with `COC_ALLOW="10.0.0.1:22"` and no `COC_BLOCK`. -/
def env_ssh : coc_environ :=
  ⟨none, some "10.0.0.1:22".toList, none⟩

/-- The globals after start-up in the environment `env_ssh`. -/
def st_ssh : coc_state :=
  ⟨[⟨.ipv4 ⟨10, 0, 0, 1⟩, htons 22, COC_ALLOW⟩], false, true⟩

/-- The number written in decimal by a string of digits. -/
def decimal_value (field : List Char) : Nat :=
  field.foldl (fun n c => 10 * n + (c.toNat - '0'.toNat)) 0

/-- The fields of a rule list: the texts between the separators `;`. -/
def fields : List Char → List (List Char)
  | [] => [[]]
  | c :: cs =>
    if c = ';' then [] :: fields cs
    else
      match fields cs with
      | [] => [[c]]
      | f :: fs => (c :: f) :: fs

/-- The tokens of a rule list: its fields that are not empty, from left to
right. -/
def tokens (rules : List Char) : List (List Char) :=
  (fields rules).filter (fun t => decide (t ≠ []))

/-- Entry `e` is an Allow entry of kind IPv4 or IPv6 whose port is the
wildcard or 53 and whose address is one of the name-server addresses `dns`,
of the same family. -/
def ns_allowed (dns : List coc_resolver) (e : coc_entry) : Prop :=
  e.rule_type = COC_ALLOW ∧ (e.port = htons 0 ∨ e.port = htons 53) ∧
    ((∃ a, e.addr = .ipv4 a ∧ coc_resolver.v4 a ∈ dns) ∨
     (∃ a, e.addr = .ipv6 a ∧ coc_resolver.v6 a ∈ dns))

/-- The environment with `COC_ALLOW="*.example.com;8.8.8.8"`, no `COC_BLOCK`,
and the name server 8.8.8.8. -/
def env_allow_only : coc_environ :=
  ⟨none, some "*.example.com;8.8.8.8".toList, resolv_8888⟩

/-- The environment with `COC_ALLOW="*.example.com"`, an empty `COC_BLOCK`,
and the name server 8.8.8.8. -/
def env_glob_only : coc_environ :=
  ⟨some [], some "*.example.com".toList, resolv_8888⟩

/-- The entry built from the token `*.example.com`. -/
def example_glob_entry (r : coc_rule_type) : coc_entry :=
  ⟨.glob "*.example.com".toList, htons 0, r⟩

/-! ## The branches of the scanning loop, one by one -/

/-- The branch of `scan_char` for `*`. -/
def scan_star (s : scan_state) : Except coc_error (scan_state × Bool) :=
  if and_not s.type (COC_IPV4_ADDR ||| COC_IPV6_ADDR) = 0 then .error .star_not_allowed
  else .ok ({ s with type := COC_GLOB_ADDR }, false)

/-- The branch of `scan_char` for `[`. -/
def scan_open (p : Nat) (s : scan_state) : Except coc_error (scan_state × Bool) :=
  if p = 0 then .ok ({ s with type := COC_IPV6_ADDR, sb := IPV6_SB_OPEN }, false)
  else .error .bracket_open_unexpected

/-- The branch of `scan_char` for `]`. -/
def scan_close (s : scan_state) : Except coc_error (scan_state × Bool) :=
  if s.type = COC_IPV6_ADDR ∧ s.sb = IPV6_SB_OPEN then .ok ({ s with sb := IPV6_SB_CLOSE }, false)
  else .error .bracket_close_unexpected

/-- The branch of `scan_char` for `:`. -/
def scan_colon (p : Nat) (s : scan_state) : Except coc_error (scan_state × Bool) :=
  let s1 : scan_state := { s with colon_count := s.colon_count + 1, service := some (p + 1) }
  if s1.colon_count > 1 then
    let s2 : scan_state :=
      if s1.type &&& COC_IPV6_ADDR = COC_IPV6_ADDR then { s1 with type := COC_IPV6_ADDR } else s1
    if s2.type ≠ COC_IPV6_ADDR ∨
        ((s2.sb = IPV6_SB_OPEN ∧ s2.colon_count > 7) ∨ s2.colon_count > 8) then
      .error .extra_colon
    else if s2.colon_count = 8 ∨ s2.sb = IPV6_SB_CLOSE then .ok (s2, true)
    else .ok ({ s2 with service := none }, false)
  else
    if p ≠ 0 ∧ s1.type &&& COC_IPV4_ADDR = COC_IPV4_ADDR then
      let s2 : scan_state := { s1 with type := COC_IPV4_ADDR }
      if s2.ipv4_segment = 4 then .ok (s2, true) else .ok (s2, false)
    else .ok (s1, false)

/-- The branch of `scan_char` for `.`. -/
def scan_dot (s : scan_state) : Except coc_error (scan_state × Bool) :=
  if s.type = COC_IPV6_ADDR then .error .dot_not_allowed_ipv6
  else
    let s1 : scan_state :=
      { s with type := and_not s.type COC_IPV6_ADDR, segment := 0,
               ipv4_segment := s.ipv4_segment + 1 }
    if s1.ipv4_segment > 4 then
      if s1.type = COC_IPV4_ADDR then .error .extra_dot
      else .ok ({ s1 with type := and_not s1.type COC_IPV4_ADDR }, false)
    else .ok (s1, false)

/-- The branch of `scan_char` for a decimal digit. -/
def scan_digit (c : Char) (s : scan_state) : Except coc_error (scan_state × Bool) :=
  if s.type &&& COC_IPV4_ADDR = COC_IPV4_ADDR then
    if s.segment > UINT16_MAX / 10 ∨ UINT16_MAX - digit_value c < s.segment * 10 then
      .error .invalid_ipv4_segment
    else
      let s1 : scan_state := { s with segment := (s.segment * 10 + digit_value c) % 65536 }
      if s1.segment > 255 then
        if s1.type = COC_IPV4_ADDR then .error .invalid_ipv4_address
        else .ok ({ s1 with type := and_not s1.type COC_IPV4_ADDR }, false)
      else .ok (s1, false)
  else .ok (s, false)

/-- The branch of `scan_char` for a hexadecimal digit that is not decimal. -/
def scan_xdigit (s : scan_state) : Except coc_error (scan_state × Bool) :=
  if s.type = COC_IPV4_ADDR then .error .invalid_ipv4_address
  else .ok ({ s with type := and_not s.type COC_IPV4_ADDR }, false)

/-- The branch of `scan_char` for another letter. -/
def scan_alnum (c : Char) (s : scan_state) : Except coc_error (scan_state × Bool) :=
  if and_not s.type (COC_IPV4_ADDR ||| COC_IPV6_ADDR) = 0 then .error (.char_unexpected c)
  else .ok ({ s with type := and_not s.type (COC_IPV4_ADDR ||| COC_IPV6_ADDR) }, false)

/-- The branch of `scan_char` for `-` and `_`. -/
def scan_dash (p : Nat) (c : Char) (s : scan_state) : Except coc_error (scan_state × Bool) :=
  if and_not s.type (COC_IPV4_ADDR ||| COC_IPV6_ADDR) = 0 ∨ p = 0 then .error (.char_unexpected c)
  else .ok ({ s with type := and_not s.type (COC_IPV4_ADDR ||| COC_IPV6_ADDR) }, false)

/-! ## Dotted-decimal text of an IPv4 address -/

/-- The character of the decimal digit `d`. -/
def digit_char (d : Nat) : Char := Char.ofNat (48 + d)

/-- The decimal text of a byte, without leading zero. -/
def render_octet (n : Nat) : List Char :=
  if n < 10 then [digit_char n]
  else if n < 100 then [digit_char (n / 10), digit_char (n % 10)]
  else [digit_char (n / 100), digit_char (n / 10 % 10), digit_char (n % 10)]

/-- The dotted-decimal text of an IPv4 address, as `inet_ntop (AF_INET, ...)`
writes it: the four bytes in decimal, joined by dots. -/
def dotted_decimal (a : in_addr) : List Char :=
  render_octet a.b0.val ++ '.' :: (render_octet a.b1.val ++ '.' ::
    (render_octet a.b2.val ++ '.' :: render_octet a.b3.val))

/-- The text read by `inet_pton4_loop` when it has completed the octets `acc`
(last first): each octet followed by a dot. -/
def render_acc : List Nat → List Char
  | [] => []
  | v :: acc => render_acc acc ++ (render_octet v ++ ['.'])

/-- The address part of a token: the text before the first colon. -/
def address_part (str : List Char) : List Char := str.takeWhile (fun c => c ≠ ':')

/-! ## Specification-side notions for the reverse lookup -/

/-- The globals with all Glob entries removed from the rule list. -/
def drop_globs (st : coc_state) : coc_state :=
  { st with coc_list_head := st.coc_list_head.filter (fun e => !e.isGlob) }

/-- The C library `libc` with the reverse lookup `g` in place of its own. -/
def with_getnameinfo (libc : Libc) (g : Nat → sockaddr → Option (List Char)) : Libc :=
  { libc with getnameinfo := g }

/-- The destination 1.2.3.4, port 80. -/
def dest_1234_80 : sockaddr := .inet (htons 80) ⟨1, 2, 3, 4⟩

/-! ## Specification-side notions for the candidate set -/

/-- The candidate set `type` is one the scan can hold: a single kind among
IPv4, IPv6 and Glob, or a set that still has Hostname in it. -/
def candidates_ok (t : Nat) : Bool :=
  t == COC_IPV4_ADDR || t == COC_IPV6_ADDR || t == COC_GLOB_ADDR ||
    (t &&& COC_HOST_ADDR == COC_HOST_ADDR && decide (t < 16))

/-- The end-of-scan resolution of the candidate set: IPv4 if it is still a
candidate, otherwise Hostname if it is still a candidate. -/
def resolved_type (t : Nat) : Nat :=
  if t &&& COC_IPV4_ADDR = COC_IPV4_ADDR then COC_IPV4_ADDR
  else if t &&& COC_HOST_ADDR = COC_HOST_ADDR then COC_HOST_ADDR
  else t

/-! ## Specification-side notions for glob patterns -/

/-- The characters of a glob pattern: ASCII letters, digits, `.`, `*`, `-`
and `_`. -/
def glob_char (c : Char) : Bool :=
  c.isAlpha || c.isDigit || c == '.' || c == '*' || c == '-' || c == '_'

/-- The pattern `g` is not empty, holds a `*`, is made of the characters of
`glob_char`, all of them printable, and does not begin with `-` or `_`. -/
def glob_pattern_ok (g : List Char) : Prop :=
  g ≠ [] ∧ '*' ∈ g ∧ (∀ c ∈ g, glob_char c = true) ∧
    (∀ c ∈ g, 32 < c.toNat ∧ c.toNat < 127) ∧ g.head? ≠ some '-' ∧ g.head? ≠ some '_'

/-- Every Glob entry of the list `l` has a pattern that satisfies
`glob_pattern_ok`. -/
def glob_entries_ok (l : List coc_entry) : Prop :=
  ∀ e ∈ l, ∀ g, e.addr = .glob g → glob_pattern_ok g

/-- The Glob entries of the list `l` that the loop of `connect` comes to
while every reverse lookup fails: those that precede the first entry of kind
IPv4 or IPv6 that matches the destination. -/
def globs_reached (libc : Libc) (addr : sockaddr) (l : List coc_entry) : List coc_entry :=
  (l.takeWhile (fun e => e.isGlob || !coc_rule_match libc e addr ['*'])).filter coc_entry.isGlob

/-! ## Lemmas on addresses and ports -/

theorem v4mapped_is_mapped (a : in_addr) : IN6_IS_ADDR_V4MAPPED (v4mapped a) = true := by
  simp [IN6_IS_ADDR_V4MAPPED, v4mapped]

theorem INET4_IN_6_v4mapped (a : in_addr) : INET4_IN_6 (v4mapped a) = a := rfl

theorem v4mapped_injective {a b : in_addr} (h : v4mapped a = v4mapped b) : a = b := by
  have := congrArg INET4_IN_6 h
  simpa [INET4_IN_6_v4mapped] using this

theorem eq_v4mapped_of_is_mapped (x : in6_addr) (h : IN6_IS_ADDR_V4MAPPED x = true) :
    x = v4mapped (INET4_IN_6 x) := by
  obtain ⟨l, hl⟩ := x
  match l, hl with
  | [x0, x1, x2, x3, x4, x5, x6, x7, x8, x9, x10, x11, x12, x13, x14, x15], _ =>
    simp [IN6_IS_ADDR_V4MAPPED] at h
    simp [v4mapped, INET4_IN_6, in6_addr.byte, h]

theorem is_mapped_iff (x : in6_addr) :
    IN6_IS_ADDR_V4MAPPED x = true ↔ ∃ a, x = v4mapped a := by
  constructor
  · intro h
    exact ⟨_, eq_v4mapped_of_is_mapped x h⟩
  · rintro ⟨a, rfl⟩
    exact v4mapped_is_mapped a

theorem isZero_iff (x : in_port_t) : x.isZero = true ↔ x = htons 0 := by
  obtain ⟨hi, lo⟩ := x
  simp [in_port_t.isZero, htons, Fin.ext_iff, Fin.ofNat]

theorem port_match_iff (e : coc_entry) (q : in_port_t) :
    port_match e q = true ↔ (e.port = htons 0 ∨ e.port = q) := by
  simp [port_match, isZero_iff]

theorem ntohs_htons (p : Nat) : ntohs (htons p) = p % 65536 := by
  simp [ntohs, htons, Fin.ofNat]
  omega

theorem htons_eq_zero_iff (p : Nat) : htons p = htons 0 ↔ p % 65536 = 0 := by
  constructor
  · intro h
    have := congrArg ntohs h
    simpa [ntohs_htons] using this
  · intro h
    simp [htons, Fin.ofNat, Fin.ext_iff]
    omega

/-! ## Matching one entry -/

theorem coc_rule_match_eq (libc : Libc) (e : coc_entry) (addr : sockaddr) (buf : List Char) :
    coc_rule_match libc e addr buf = true ↔
      address_test libc e addr buf ∧ (e.port = htons 0 ∨ e.port = INETX_PORT addr) := by
  obtain ⟨ea, ep, er⟩ := e
  cases ea with
  | ipv4 a =>
    cases addr with
    | inet q d => simp [coc_rule_match, address_test, port_match_iff, INETX_PORT]
    | inet6 q d =>
      by_cases hm : IN6_IS_ADDR_V4MAPPED d = true
      · obtain ⟨b, rfl⟩ := (is_mapped_iff d).1 hm
        simp only [coc_rule_match, address_test, hm, INET4_IN_6_v4mapped, INETX_PORT,
          if_true, Bool.and_eq_true, decide_eq_true_eq, port_match_iff]
        constructor
        · rintro ⟨rfl, h⟩
          exact ⟨rfl, h⟩
        · rintro ⟨h, h2⟩
          exact ⟨(v4mapped_injective h).symm, h2⟩
      · have hne : d ≠ v4mapped a := fun h => hm (h ▸ v4mapped_is_mapped a)
        simp [coc_rule_match, address_test, hm, hne]
    | other f q => simp [coc_rule_match, address_test]
  | ipv6 a =>
    cases addr with
    | inet6 q d =>
      simp [coc_rule_match, address_test, port_match_iff, INETX_PORT, IN6_ARE_ADDR_EQUAL]
    | inet q d =>
      by_cases hm : IN6_IS_ADDR_V4MAPPED a = true
      · obtain ⟨b, rfl⟩ := (is_mapped_iff a).1 hm
        simp only [coc_rule_match, address_test, hm, INET4_IN_6_v4mapped, INETX_PORT,
          if_true, Bool.and_eq_true, decide_eq_true_eq, port_match_iff]
        constructor
        · rintro ⟨rfl, h⟩
          exact ⟨rfl, h⟩
        · rintro ⟨h, h2⟩
          exact ⟨v4mapped_injective h, h2⟩
      · have hne : a ≠ v4mapped d := fun h => hm (h ▸ v4mapped_is_mapped d)
        simp [coc_rule_match, address_test, hm, hne]
    | other f q => simp [coc_rule_match, address_test]
  | glob g =>
    simp [coc_rule_match, address_test, port_match_iff]

/-- C7. An IPv4 entry `(a, p)` matches the IPv6 destination `::ffff:a` with
port `q` exactly when it matches the IPv4 destination `a` with port `q`, and
an IPv6 entry `(::ffff:a, p)` matches the IPv4 destination `a` with port `q`
exactly when it matches the IPv6 destination `::ffff:a` with port `q`: in all
four cases exactly when `p` is the wildcard or `p = q`. An IPv4 entry never
matches an IPv6 destination that is not IPv4-mapped, and an IPv6 entry that
is not IPv4-mapped never matches an IPv4 destination. -/
theorem coc_rule_match_v4mapped (libc : Libc) (a : in_addr) (p q : in_port_t)
    (r : coc_rule_type) (buf : List Char) :
    (coc_rule_match libc ⟨.ipv4 a, p, r⟩ (.inet6 q (v4mapped a)) buf = true ↔
      coc_rule_match libc ⟨.ipv4 a, p, r⟩ (.inet q a) buf = true) ∧
    (coc_rule_match libc ⟨.ipv4 a, p, r⟩ (.inet q a) buf = true ↔ (p = htons 0 ∨ p = q)) ∧
    (coc_rule_match libc ⟨.ipv6 (v4mapped a), p, r⟩ (.inet q a) buf = true ↔
      coc_rule_match libc ⟨.ipv6 (v4mapped a), p, r⟩ (.inet6 q (v4mapped a)) buf = true) ∧
    (coc_rule_match libc ⟨.ipv6 (v4mapped a), p, r⟩ (.inet6 q (v4mapped a)) buf = true ↔
      (p = htons 0 ∨ p = q)) ∧
    (∀ d : in6_addr, (∀ b, d ≠ v4mapped b) →
      coc_rule_match libc ⟨.ipv4 a, p, r⟩ (.inet6 q d) buf = false) ∧
    (∀ x : in6_addr, (∀ b, x ≠ v4mapped b) →
      coc_rule_match libc ⟨.ipv6 x, p, r⟩ (.inet q a) buf = false) := by
  refine ⟨?_, ?_, ?_, ?_, ?_, ?_⟩
  · simp [coc_rule_match_eq, address_test, INETX_PORT]
  · simp [coc_rule_match_eq, address_test, INETX_PORT]
  · simp [coc_rule_match_eq, address_test, INETX_PORT]
  · simp [coc_rule_match_eq, address_test, INETX_PORT]
  · intro d hd
    have h := coc_rule_match_eq libc ⟨.ipv4 a, p, r⟩ (.inet6 q d) buf
    cases hc : coc_rule_match libc ⟨.ipv4 a, p, r⟩ (.inet6 q d) buf with
    | false => rfl
    | true => exact absurd (h.1 hc).1 (hd a)
  · intro x hx
    have h := coc_rule_match_eq libc ⟨.ipv6 x, p, r⟩ (.inet q a) buf
    cases hc : coc_rule_match libc ⟨.ipv6 x, p, r⟩ (.inet q a) buf with
    | false => rfl
    | true => exact absurd (h.1 hc).1 (hx a)

theorem in6_loopback_not_mapped (b : in_addr) : in6_loopback ≠ v4mapped b := by
  intro h
  have := v4mapped_is_mapped b
  rw [← h] at this
  exact absurd this (by decide)

/-- Witness for C7: the entry 10.0.0.1 port 22, the destination port 22, and
the address `::1` that is not IPv4-mapped. -/
theorem coc_rule_match_v4mapped_witness :
    (∀ b, in6_loopback ≠ v4mapped b) ∧
    coc_rule_match libc_ref ⟨.ipv4 ⟨10, 0, 0, 1⟩, htons 22, COC_ALLOW⟩
      (.inet6 (htons 22) in6_loopback) [] = false ∧
    coc_rule_match libc_ref ⟨.ipv6 in6_loopback, htons 22, COC_ALLOW⟩
      (.inet (htons 22) ⟨10, 0, 0, 1⟩) [] = false :=
  ⟨in6_loopback_not_mapped,
   (coc_rule_match_v4mapped libc_ref ⟨10, 0, 0, 1⟩ (htons 22) (htons 22) COC_ALLOW []).2.2.2.2.1
     in6_loopback in6_loopback_not_mapped,
   (coc_rule_match_v4mapped libc_ref ⟨10, 0, 0, 1⟩ (htons 22) (htons 22) COC_ALLOW []).2.2.2.2.2
     in6_loopback in6_loopback_not_mapped⟩

/-- C8. For every kind of entry and every destination, `coc_rule_match`
returns true if and only if the address test of that kind passes and the
port of the entry is the wildcard or equal to the destination port; an entry
whose port is not the wildcard never matches a destination with another
port. -/
theorem coc_rule_match_iff (libc : Libc) (e : coc_entry) (addr : sockaddr) (buf : List Char) :
    (coc_rule_match libc e addr buf = true ↔
      address_test libc e addr buf ∧ (e.port = htons 0 ∨ e.port = INETX_PORT addr)) ∧
    (e.port ≠ htons 0 → e.port ≠ INETX_PORT addr → coc_rule_match libc e addr buf = false) := by
  refine ⟨coc_rule_match_eq libc e addr buf, ?_⟩
  intro h0 h1
  cases hc : coc_rule_match libc e addr buf with
  | false => rfl
  | true =>
    rcases ((coc_rule_match_eq libc e addr buf).1 hc).2 with h | h
    · exact absurd h h0
    · exact absurd h h1

/-- Witness for C8: the entry 10.0.0.1 port 22 against 10.0.0.1 port 23. -/
theorem coc_rule_match_iff_witness :
    htons 22 ≠ htons 0 ∧ htons 22 ≠ htons 23 ∧
    coc_rule_match libc_ref ⟨.ipv4 ⟨10, 0, 0, 1⟩, htons 22, COC_ALLOW⟩
      (.inet (htons 23) ⟨10, 0, 0, 1⟩) [] = false :=
  ⟨by decide, by decide,
   (coc_rule_match_iff libc_ref ⟨.ipv4 ⟨10, 0, 0, 1⟩, htons 22, COC_ALLOW⟩
      (.inet (htons 23) ⟨10, 0, 0, 1⟩) []).2 (by decide) (by decide)⟩

/-! ## The decision -/

theorem coc_rule_match_buf (libc : Libc) (e : coc_entry) (addr : sockaddr) (b1 b2 : List Char)
    (h : e.isGlob = false) : coc_rule_match libc e addr b1 = coc_rule_match libc e addr b2 := by
  obtain ⟨ea, ep, er⟩ := e
  cases ea with
  | ipv4 a => rfl
  | ipv6 a => rfl
  | glob g => simp [coc_entry.isGlob] at h

theorem connect_loop_done (libc : Libc) (addr : sockaddr) (l : List coc_entry)
    (hbuf : List Char) (n : Nat) :
    connect_loop libc addr l hbuf true n =
      ⟨verdict_of (l.find? (fun e => coc_rule_match libc e addr hbuf)), n⟩ := by
  induction l with
  | nil => rfl
  | cons e l ih =>
    by_cases hm : coc_rule_match libc e addr hbuf = true
    · simp [connect_loop, hm, verdict_of]
    · simp [connect_loop, hm, ih]

theorem connect_loop_resolved (libc : Libc) (addr : sockaddr) (l : List coc_entry)
    (hbuf h : List Char) (n : Nat) (hres : libc.getnameinfo n addr = some h) :
    (connect_loop libc addr l hbuf false n).decision =
      verdict_of (l.find? (fun e => coc_rule_match libc e addr h)) := by
  induction l with
  | nil => rfl
  | cons e l ih =>
    by_cases hg : e.isGlob = true
    · by_cases hm : coc_rule_match libc e addr h = true
      · simp [connect_loop, hg, hres, hm, verdict_of]
      · simp [connect_loop, hg, hres, hm, connect_loop_done]
    · have hg2 : e.isGlob = false := by simpa using hg
      have hb := coc_rule_match_buf libc e addr hbuf h hg2
      by_cases hm : coc_rule_match libc e addr h = true
      · simp [connect_loop, hg2, hb, hm, verdict_of]
      · simp [connect_loop, hg2, hb, hm, ih]

theorem connect_decision (libc : Libc) (st : coc_state) (addr : sockaddr) (h : List Char)
    (hinit : st.initialized = true) (hinet : addr.isInet = true)
    (hres : st.needs_dns_lookup = true → libc.getnameinfo 0 addr = some h)
    (hbuf : st.needs_dns_lookup = false → h = ['*']) :
    (connect libc st (some addr)).decision =
      verdict_of (st.coc_list_head.find? (fun e => coc_rule_match libc e addr h)) := by
  cases hn : st.needs_dns_lookup with
  | true =>
    simp [connect, hinit, hinet, hn, connect_loop_resolved libc addr _ _ h 0 (hres hn)]
  | false =>
    simp [connect, hinit, hinet, hn, connect_loop_done, hbuf hn]

theorem verdict_of_find (f : coc_entry → Bool) (l : List coc_entry) :
    (∀ e, first_passing (fun x => f x = true) l e →
      verdict_of (l.find? f) = e.rule_type.decision) ∧
    ((∀ e ∈ l, ¬ f e = true) → verdict_of (l.find? f) = .Allow) := by
  constructor
  · rintro e ⟨l1, l2, rfl, he, hl1⟩
    have h1 : l1.find? f = none := by
      rw [List.find?_eq_none]
      exact hl1
    simp [List.find?_append, h1, he, verdict_of]
  · intro hall
    have h1 : l.find? f = none := by
      rw [List.find?_eq_none]
      exact hall
    simp [h1, verdict_of]

theorem passes_iff (libc : Libc) (addr : sockaddr) (buf : List Char) (e : coc_entry) :
    passes libc addr buf e ↔ coc_rule_match libc e addr buf = true :=
  (coc_rule_match_eq libc e addr buf).symm

/-- C1, amended. For every rule store of an initialized library and every
IPv4 or IPv6 destination for which the reverse lookup is either not required
(`needs_dns_lookup` is false, the host name is then the placeholder `*`) or
succeeds at its first call with the name `h`, the decision of `connect` is
the verdict of the first entry, from the front, whose address test and port
test both pass, and it is `Allow` when no entry passes both tests. -/
theorem connect_first_match (libc : Libc) (st : coc_state) (addr : sockaddr) (h : List Char)
    (hinit : st.initialized = true) (hinet : addr.isInet = true)
    (hres : st.needs_dns_lookup = true → libc.getnameinfo 0 addr = some h)
    (hbuf : st.needs_dns_lookup = false → h = ['*']) :
    (∀ e, first_passing (passes libc addr h) st.coc_list_head e →
      (connect libc st (some addr)).decision = e.rule_type.decision) ∧
    ((∀ e ∈ st.coc_list_head, ¬ passes libc addr h e) →
      (connect libc st (some addr)).decision = .Allow) := by
  rw [connect_decision libc st addr h hinit hinet hres hbuf]
  have hp : passes libc addr h = fun x => coc_rule_match libc x addr h = true := by
    funext x
    exact propext (passes_iff libc addr h x)
  rw [hp]
  exact verdict_of_find _ _

/-- Counterexample to C1 as stated: in the store that start-up builds from
`COC_BLOCK="*;*.evil.com"` and `COC_ALLOW="8.8.8.8"`, whatever the host name, the first entry whose
address test and port test pass against 1.2.3.4 port 80 is the blocking
entry `*`; yet when the reverse lookup fails `connect` allows the
connection. -/
theorem connect_first_match_counterexample :
    coc_init libc_ref env_block_star coc_state.initial = .ok st_block_star ∧
    (∀ buf, first_passing (passes libc_ref (.inet (htons 80) ⟨1, 2, 3, 4⟩) buf)
      st_block_star.coc_list_head (star_entry COC_BLOCK)) ∧
    (star_entry COC_BLOCK).rule_type.decision = .Block ∧
    (connect libc_ref st_block_star (some (.inet (htons 80) ⟨1, 2, 3, 4⟩))).decision = .Allow := by
  refine ⟨by decide, ?_, rfl, by decide⟩
  intro buf
  refine ⟨[⟨.ipv4 ⟨8, 8, 8, 8⟩, htons 0, COC_ALLOW⟩],
    [⟨.glob "*.evil.com".toList, htons 0, COC_BLOCK⟩], rfl, ?_, ?_⟩
  · simp [passes, address_test, star_entry]
  · intro x hx
    simp only [List.mem_singleton] at hx
    subst hx
    simp [passes, address_test]

theorem star_first_passing (libc : Libc) (buf : List Char) :
    first_passing (passes libc (.inet (htons 80) ⟨1, 2, 3, 4⟩) buf)
      st_block_star.coc_list_head (star_entry COC_BLOCK) := by
  refine ⟨[⟨.ipv4 ⟨8, 8, 8, 8⟩, htons 0, COC_ALLOW⟩],
    [⟨.glob "*.evil.com".toList, htons 0, COC_BLOCK⟩], rfl, ?_, ?_⟩
  · simp [passes, address_test, star_entry]
  · intro x hx
    simp only [List.mem_singleton] at hx
    subst hx
    simp [passes, address_test]

/-- Witness for C1, amended: the same store and destination with a reverse
lookup that gives `www.example.com`; the decision is that of the entry `*`,
`Block`. -/
theorem connect_first_match_witness :
    st_block_star.initialized = true ∧
    (sockaddr.inet (htons 80) ⟨1, 2, 3, 4⟩).isInet = true ∧
    (libc_named "www.example.com".toList).getnameinfo 0 (.inet (htons 80) ⟨1, 2, 3, 4⟩) =
      some "www.example.com".toList ∧
    (connect (libc_named "www.example.com".toList) st_block_star
      (some (.inet (htons 80) ⟨1, 2, 3, 4⟩))).decision = .Block :=
  ⟨rfl, rfl, rfl,
   (connect_first_match (libc_named "www.example.com".toList) st_block_star
      (.inet (htons 80) ⟨1, 2, 3, 4⟩) "www.example.com".toList rfl rfl (fun _ => rfl)
      (fun h => absurd h (by decide))).1 (star_entry COC_BLOCK) (star_first_passing _ _)⟩

/-! ## What `coc_rule_add` and `coc_rules_add` do to the rule list -/

theorem host_entries_spec (port : Nat) (r : coc_rule_type) (l : List sockaddr) (st : coc_state) :
    ∃ new, (host_entries port r l st).coc_list_head = new ++ st.coc_list_head ∧
      (∀ e ∈ new, e.rule_type = r ∧ e.port = htons port) := by
  induction l generalizing st with
  | nil => exact ⟨[], rfl, by simp⟩
  | cons a l ih =>
    cases a with
    | inet q a =>
      obtain ⟨new, h1, h2⟩ := ih (SLIST_INSERT_HEAD st ⟨.ipv4 a, htons port, r⟩)
      refine ⟨new ++ [⟨.ipv4 a, htons port, r⟩], ?_, ?_⟩
      · rw [host_entries, h1]
        simp [SLIST_INSERT_HEAD]
      · intro e he
        rcases List.mem_append.1 he with he | he
        · exact h2 e he
        · simp only [List.mem_singleton] at he
          subst he
          exact ⟨rfl, rfl⟩
    | inet6 q a =>
      obtain ⟨new, h1, h2⟩ := ih (SLIST_INSERT_HEAD st ⟨.ipv6 a, htons port, r⟩)
      refine ⟨new ++ [⟨.ipv6 a, htons port, r⟩], ?_, ?_⟩
      · rw [host_entries, h1]
        simp [SLIST_INSERT_HEAD]
      · intro e he
        rcases List.mem_append.1 he with he | he
        · exact h2 e he
        · simp only [List.mem_singleton] at he
          subst he
          exact ⟨rfl, rfl⟩
    | other f q =>
      obtain ⟨new, h1, h2⟩ := ih st
      exact ⟨new, by simp [host_entries, h1], h2⟩

theorem coc_rule_build_spec (libc : Libc) (type : Nat) (host : List Char) (port : Nat)
    (r : coc_rule_type) (st st1 : coc_state)
    (h : coc_rule_build libc type host port r st = .ok st1) :
    ∃ new, st1.coc_list_head = new ++ st.coc_list_head ∧
      (∀ e ∈ new, e.rule_type = r ∧ e.port = htons port) := by
  unfold coc_rule_build at h
  split at h
  · split at h
    · injection h with h
      subst h
      exact ⟨[_], rfl, by simp⟩
    · exact absurd h (by simp)
  · split at h
    · split at h
      · injection h with h
        subst h
        exact ⟨[_], rfl, by simp⟩
      · exact absurd h (by simp)
    · split at h
      · split at h
        · injection h with h
          subst h
          exact ⟨[_], rfl, by simp⟩
        · injection h with h
          subst h
          exact ⟨[_], rfl, by simp⟩
      · split at h
        · split at h
          · injection h with h
            subst h
            exact host_entries_spec port r _ st
          · exact absurd h (by simp)
        · injection h with h
          subst h
          exact ⟨[], rfl, by simp⟩

theorem coc_rule_add_spec (libc : Libc) (str : List Char) (r : coc_rule_type)
    (st st1 : coc_state) (h : coc_rule_add libc str r st = .ok st1) :
    ∃ s port new, coc_rule_scan str = .ok s ∧ coc_rule_port libc str s = .ok port ∧
      st1.coc_list_head = new ++ st.coc_list_head ∧
      (∀ e ∈ new, e.rule_type = r ∧ e.port = htons port) := by
  unfold coc_rule_add at h
  split at h
  · exact absurd h (by simp)
  · rename_i s hs
    split at h
    · exact absurd h (by simp)
    · rename_i port hp
      obtain ⟨new, h1, h2⟩ := coc_rule_build_spec libc _ _ _ r st st1 h
      exact ⟨s, port, new, hs, hp, h1, h2⟩

theorem rules_loop_spec (libc : Libc) (rules : List Char) (r : coc_rule_type) (n : Nat) :
    ∀ (len count : Nat) (st : coc_state) (len1 count1 : Nat) (st1 : coc_state),
      rules_loop libc rules r n len count st = .ok (len1, count1, st1) →
      ∃ new, st1.coc_list_head = new ++ st.coc_list_head ∧ (∀ e ∈ new, e.rule_type = r) := by
  induction n with
  | zero =>
    intro len count st len1 count1 st1 h
    simp only [rules_loop, Except.ok.injEq, Prod.mk.injEq] at h
    obtain ⟨-, -, rfl⟩ := h
    exact ⟨[], rfl, by simp⟩
  | succ k ih =>
    intro len count st len1 count1 st1 h
    unfold rules_loop at h
    split at h
    · split at h
      · exact absurd h (by simp)
      · rename_i st2 hst2
        obtain ⟨new, h1, h2⟩ := ih _ _ _ _ _ _ h
        split at hst2
        · obtain ⟨s, port, new2, -, -, h3, h4⟩ := coc_rule_add_spec libc _ r st st2 hst2
          refine ⟨new ++ new2, by simp [h1, h3], ?_⟩
          intro e he
          rcases List.mem_append.1 he with he | he
          · exact h2 e he
          · exact (h4 e he).1
        · injection hst2 with hst2
          subst hst2
          exact ⟨new, h1, h2⟩
    · exact ih _ _ _ _ _ _ h

theorem coc_rules_add_spec (libc : Libc) (rules : Option (List Char)) (r : coc_rule_type)
    (st st1 : coc_state) (n : Nat) (h : coc_rules_add libc rules r st = .ok (n, st1)) :
    ∃ new, st1.coc_list_head = new ++ st.coc_list_head ∧ (∀ e ∈ new, e.rule_type = r) := by
  unfold coc_rules_add at h
  split at h
  · simp only [Except.ok.injEq, Prod.mk.injEq] at h
    obtain ⟨-, rfl⟩ := h
    exact ⟨[], rfl, by simp⟩
  · split at h
    · exact absurd h (by simp)
    · rename_i len count st2 hl
      obtain ⟨new, h1, h2⟩ := rules_loop_spec libc _ r _ _ _ _ _ _ _ hl
      split at h
      · split at h
        · exact absurd h (by simp)
        · rename_i st3 hst3
          simp only [Except.ok.injEq, Prod.mk.injEq] at h
          obtain ⟨-, rfl⟩ := h
          obtain ⟨s, port, new2, -, -, h3, h4⟩ := coc_rule_add_spec libc _ r st2 st3 hst3
          refine ⟨new2 ++ new, by simp [h1, h3], ?_⟩
          intro e he
          rcases List.mem_append.1 he with he | he
          · exact (h4 e he).1
          · exact h2 e he
      · simp only [Except.ok.injEq, Prod.mk.injEq] at h
        obtain ⟨-, rfl⟩ := h
        exact ⟨new, h1, h2⟩

/-! ## Allow entries come before Block entries -/

theorem verdict_allow_block (f : coc_entry → Bool) (A B : List coc_entry)
    (hA : ∀ e ∈ A, e.rule_type = COC_ALLOW) (hB : ∀ e ∈ B, e.rule_type = COC_BLOCK) :
    verdict_of ((A ++ B).find? f) = .Block ↔
      (∀ e ∈ A, ¬ f e = true) ∧ ∃ e ∈ B, f e = true := by
  rw [List.find?_append]
  cases hfa : A.find? f with
  | none =>
    have hna := List.find?_eq_none.1 hfa
    cases hfb : B.find? f with
    | none =>
      have hnb := List.find?_eq_none.1 hfb
      simp only [Option.or, verdict_of]
      constructor
      · intro h
        exact absurd h (by decide)
      · rintro ⟨-, e, he, hfe⟩
        exact absurd hfe (hnb e he)
    | some e =>
      have heB := List.mem_of_find?_eq_some hfb
      have hfe := List.find?_some hfb
      simp only [Option.or, verdict_of, hB e heB, coc_rule_type.decision, true_iff]
      exact ⟨hna, e, heB, hfe⟩
  | some e =>
    have heA := List.mem_of_find?_eq_some hfa
    have hfe := List.find?_some hfa
    simp only [Option.or, verdict_of, hA e heA, coc_rule_type.decision]
    constructor
    · intro h
      exact absurd h (by decide)
    · rintro ⟨h, -⟩
      exact absurd hfe (h e heA)

theorem decision_block_iff (libc : Libc) (st : coc_state) (A B : List coc_entry)
    (addr : sockaddr) (h : List Char)
    (hl : st.coc_list_head = A ++ B)
    (hA : ∀ e ∈ A, e.rule_type = COC_ALLOW) (hB : ∀ e ∈ B, e.rule_type = COC_BLOCK)
    (hinet : addr.isInet = true)
    (hres : st.needs_dns_lookup = true → libc.getnameinfo 0 addr = some h)
    (hbuf : st.needs_dns_lookup = false → h = ['*']) :
    (connect libc { st with initialized := true } (some addr)).decision = .Block ↔
      (¬ ∃ e ∈ st.coc_list_head, e.rule_type = COC_ALLOW ∧ passes libc addr h e) ∧
      (∃ e ∈ st.coc_list_head, e.rule_type = COC_BLOCK ∧ passes libc addr h e) := by
  rw [connect_decision libc { st with initialized := true } addr h rfl hinet hres hbuf]
  simp only [hl]
  rw [verdict_allow_block _ A B hA hB]
  constructor
  · rintro ⟨h1, e, he, hfe⟩
    refine ⟨?_, e, List.mem_append_right A he, hB e he, (passes_iff libc addr h e).2 hfe⟩
    rintro ⟨x, hx, hxa, hxp⟩
    rcases List.mem_append.1 hx with hx | hx
    · exact h1 x hx ((passes_iff libc addr h x).1 hxp)
    · rw [hB x hx] at hxa
      exact absurd hxa (by decide)
  · rintro ⟨h1, e, he, heb, hep⟩
    constructor
    · intro x hx hfx
      exact h1 ⟨x, List.mem_append_left B hx, hA x hx, (passes_iff libc addr h x).2 hfx⟩
    · rcases List.mem_append.1 he with he | he
      · rw [hA e he] at heb
        exact absurd heb (by decide)
      · exact ⟨e, he, (passes_iff libc addr h e).1 hep⟩

theorem block_then_allow (libc : Libc) (block allow : Option (List Char))
    (st0 st1 st2 : coc_state) (n1 n2 : Nat) (h0 : st0.coc_list_head = [])
    (hb : coc_rules_add libc block COC_BLOCK st0 = .ok (n1, st1))
    (ha : coc_rules_add libc allow COC_ALLOW st1 = .ok (n2, st2)) :
    ∃ A B, st1.coc_list_head = B ∧ st2.coc_list_head = A ++ B ∧
      (∀ e ∈ A, e.rule_type = COC_ALLOW) ∧ (∀ e ∈ B, e.rule_type = COC_BLOCK) := by
  obtain ⟨B, hB1, hB2⟩ := coc_rules_add_spec libc block COC_BLOCK st0 st1 n1 hb
  obtain ⟨A, hA1, hA2⟩ := coc_rules_add_spec libc allow COC_ALLOW st1 st2 n2 ha
  refine ⟨A, B, ?_, ?_, hA2, hB2⟩
  · simp [hB1, h0]
  · simp [hA1, hB1, h0]

/-- C2, amended. For every BLOCK list and ALLOW list that build without
error, BLOCK first and then ALLOW as `coc_init` does, and every IPv4 or IPv6
destination for which the reverse lookup is either not required or succeeds
at its first call with the name `h`: the decision is `Block` if and only if
no Allow entry passes the address and port tests and at least one Block entry
passes them; in particular a destination for which an Allow entry passes is
allowed whatever the BLOCK list contains. -/
theorem allow_outranks_block (libc : Libc) (block allow : Option (List Char))
    (st0 st1 st2 : coc_state) (n1 n2 : Nat) (addr : sockaddr) (h : List Char)
    (h0 : st0.coc_list_head = [])
    (hb : coc_rules_add libc block COC_BLOCK st0 = .ok (n1, st1))
    (ha : coc_rules_add libc allow COC_ALLOW st1 = .ok (n2, st2))
    (hinet : addr.isInet = true)
    (hres : st2.needs_dns_lookup = true → libc.getnameinfo 0 addr = some h)
    (hbuf : st2.needs_dns_lookup = false → h = ['*']) :
    ((connect libc { st2 with initialized := true } (some addr)).decision = .Block ↔
      (¬ ∃ e ∈ st2.coc_list_head, e.rule_type = COC_ALLOW ∧ passes libc addr h e) ∧
      (∃ e ∈ st2.coc_list_head, e.rule_type = COC_BLOCK ∧ passes libc addr h e)) ∧
    ((∃ e ∈ st2.coc_list_head, e.rule_type = COC_ALLOW ∧ passes libc addr h e) →
      (connect libc { st2 with initialized := true } (some addr)).decision = .Allow) := by
  obtain ⟨A, B, -, hl, hA, hB⟩ := block_then_allow libc block allow st0 st1 st2 n1 n2 h0 hb ha
  have hiff := decision_block_iff libc st2 A B addr h hl hA hB hinet hres hbuf
  refine ⟨hiff, ?_⟩
  intro hex
  cases hd : (connect libc { st2 with initialized := true } (some addr)).decision with
  | Allow => rfl
  | Block => exact absurd hex (hiff.1 hd).1

theorem star_rules_add (libc : Libc) (st0 : coc_state) :
    coc_rules_add libc (some ['*']) COC_BLOCK st0 =
      .ok (1, SLIST_INSERT_HEAD st0 (star_entry COC_BLOCK)) := by
  rfl

theorem st_glob_no_allow (libc : Libc) (q : Nat) (a : in_addr) (buf : List Char)
    (hq : htons q ≠ htons 443) (ha : a ≠ ⟨8, 8, 8, 8⟩) :
    ¬ ∃ e ∈ st_glob.coc_list_head,
      e.rule_type = COC_ALLOW ∧ passes libc (.inet (htons q) a) buf e := by
  rintro ⟨e, he, hea, hep⟩
  simp only [st_glob, List.mem_cons, List.mem_singleton, List.not_mem_nil, or_false] at he
  rcases he with rfl | rfl | rfl
  · simp only [passes, INETX_PORT] at hep
    rcases hep.2 with h | h
    · exact absurd h (by decide)
    · exact hq h.symm
  · simp only [passes, address_test] at hep
    exact ha hep.1.symm
  · simp [star_entry] at hea

theorem st_glob_star_block (libc : Libc) (addr : sockaddr) (buf : List Char) :
    ∃ e ∈ st_glob.coc_list_head, e.rule_type = COC_BLOCK ∧ passes libc addr buf e := by
  refine ⟨star_entry COC_BLOCK, by simp [st_glob], rfl, ?_⟩
  simp [passes, address_test, star_entry]

/-- Counterexample to C2 as stated: start-up with `COC_BLOCK="*"` and
`COC_ALLOW="*.example.com:443;8.8.8.8"` succeeds; against 5.6.7.8 port 25 no
Allow entry passes and the Block entry `*` passes, whatever the host name;
yet when the reverse lookup fails the decision is `Allow`, not `Block`. -/
theorem allow_outranks_block_counterexample :
    coc_init libc_ref env_glob coc_state.initial = .ok st_glob ∧
    (∀ buf, ¬ ∃ e ∈ st_glob.coc_list_head,
      e.rule_type = COC_ALLOW ∧ passes libc_ref (.inet (htons 25) ⟨5, 6, 7, 8⟩) buf e) ∧
    (∀ buf, ∃ e ∈ st_glob.coc_list_head,
      e.rule_type = COC_BLOCK ∧ passes libc_ref (.inet (htons 25) ⟨5, 6, 7, 8⟩) buf e) ∧
    (connect libc_ref st_glob (some (.inet (htons 25) ⟨5, 6, 7, 8⟩))).decision = .Allow :=
  ⟨by decide,
   fun buf => st_glob_no_allow libc_ref 25 ⟨5, 6, 7, 8⟩ buf (by decide) (by decide),
   fun buf => st_glob_star_block libc_ref _ buf,
   by decide⟩

/-- Witness for C2, amended: the same lists with a reverse lookup that gives
`www.example.com`; 1.2.3.4 port 443 passes the Allow entry `*.example.com:443`
and is allowed although `COC_BLOCK` is `*`. -/
theorem allow_outranks_block_witness :
    coc_rules_add (libc_named "www.example.com".toList) env_glob.COC_BLOCK COC_BLOCK
      coc_state.initial = .ok (1, SLIST_INSERT_HEAD coc_state.initial (star_entry COC_BLOCK)) ∧
    coc_rules_add (libc_named "www.example.com".toList) env_glob.COC_ALLOW COC_ALLOW
      (SLIST_INSERT_HEAD coc_state.initial (star_entry COC_BLOCK)) =
        .ok (2, { st_glob with initialized := false }) ∧
    (connect (libc_named "www.example.com".toList) st_glob
      (some (.inet (htons 443) ⟨1, 2, 3, 4⟩))).decision = .Allow :=
  ⟨by decide, by decide,
   (allow_outranks_block (libc_named "www.example.com".toList) env_glob.COC_BLOCK
      env_glob.COC_ALLOW coc_state.initial
      (SLIST_INSERT_HEAD coc_state.initial (star_entry COC_BLOCK))
      { st_glob with initialized := false } 1 2 (.inet (htons 443) ⟨1, 2, 3, 4⟩)
      "www.example.com".toList rfl (by decide) (by decide) rfl (fun _ => rfl)
      (fun h => absurd h (by decide))).2
     ⟨⟨.glob "*.example.com".toList, htons 443, COC_ALLOW⟩, by simp [st_glob], rfl,
      by
        refine ⟨Or.inr ?_, Or.inr rfl⟩
        decide⟩⟩

/-- C6, amended. A Glob entry whose pattern is exactly `*` and whose port is
the wildcard passes `coc_rule_match` against every destination, whatever the
host name. With `COC_BLOCK="*"`, every ALLOW list that builds and every IPv4
or IPv6 destination for which the reverse lookup is either not required or
succeeds at its first call: a destination for which no Allow entry passes is
blocked. -/
theorem universal_glob_blocks (libc : Libc) (allow : Option (List Char))
    (st0 st1 st2 : coc_state) (n1 n2 : Nat) (addr : sockaddr) (h : List Char)
    (h0 : st0.coc_list_head = [])
    (hb : coc_rules_add libc (some ['*']) COC_BLOCK st0 = .ok (n1, st1))
    (ha : coc_rules_add libc allow COC_ALLOW st1 = .ok (n2, st2))
    (hinet : addr.isInet = true)
    (hres : st2.needs_dns_lookup = true → libc.getnameinfo 0 addr = some h)
    (hbuf : st2.needs_dns_lookup = false → h = ['*'])
    (hno : ∀ e ∈ st2.coc_list_head, e.rule_type = COC_ALLOW → ¬ passes libc addr h e) :
    (∀ (r : coc_rule_type) (a : sockaddr) (buf : List Char),
      coc_rule_match libc ⟨.glob ['*'], htons 0, r⟩ a buf = true) ∧
    (connect libc { st2 with initialized := true } (some addr)).decision = .Block := by
  constructor
  · intro r a buf
    simp [coc_rule_match_eq, address_test]
  · obtain ⟨A, B, hB, hl, hA, hBt⟩ :=
      block_then_allow libc (some ['*']) allow st0 st1 st2 n1 n2 h0 hb ha
    rw [decision_block_iff libc st2 A B addr h hl hA hBt hinet hres hbuf]
    constructor
    · rintro ⟨e, he, hea, hep⟩
      exact hno e he hea hep
    · rw [star_rules_add] at hb
      simp only [Except.ok.injEq, Prod.mk.injEq] at hb
      obtain ⟨-, rfl⟩ := hb
      refine ⟨star_entry COC_BLOCK, ?_, rfl, ?_⟩
      · rw [hl, ← hB]
        simp [SLIST_INSERT_HEAD]
      · simp [passes, address_test, star_entry]

/-- Counterexample to C6 as stated: start-up with `COC_BLOCK="*"` and
`COC_ALLOW="*.example.com:443;8.8.8.8"` succeeds; no Allow entry passes against
1.2.3.4 port 80, whatever the host name; yet when the reverse lookup fails
the connection is allowed: the entry `*` is skipped without being tested. -/
theorem universal_glob_blocks_counterexample :
    env_glob.COC_BLOCK = some ['*'] ∧
    coc_init libc_ref env_glob coc_state.initial = .ok st_glob ∧
    (∀ buf, ¬ ∃ e ∈ st_glob.coc_list_head,
      e.rule_type = COC_ALLOW ∧ passes libc_ref (.inet (htons 80) ⟨1, 2, 3, 4⟩) buf e) ∧
    (connect libc_ref st_glob (some (.inet (htons 80) ⟨1, 2, 3, 4⟩))).decision = .Allow :=
  ⟨rfl, by decide,
   fun buf => st_glob_no_allow libc_ref 80 ⟨1, 2, 3, 4⟩ buf (by decide) (by decide),
   by decide⟩

/-- Witness for C6, amended: the same lists with a reverse lookup that gives
`host.invalid`; 1.2.3.4 port 80 is blocked. -/
theorem universal_glob_blocks_witness :
    coc_rules_add (libc_named "host.invalid".toList) (some ['*']) COC_BLOCK
      coc_state.initial = .ok (1, SLIST_INSERT_HEAD coc_state.initial (star_entry COC_BLOCK)) ∧
    coc_rules_add (libc_named "host.invalid".toList) env_glob.COC_ALLOW COC_ALLOW
      (SLIST_INSERT_HEAD coc_state.initial (star_entry COC_BLOCK)) =
        .ok (2, { st_glob with initialized := false }) ∧
    (connect (libc_named "host.invalid".toList) st_glob
      (some (.inet (htons 80) ⟨1, 2, 3, 4⟩))).decision = .Block :=
  ⟨by decide, by decide,
   (universal_glob_blocks (libc_named "host.invalid".toList) env_glob.COC_ALLOW
      coc_state.initial (SLIST_INSERT_HEAD coc_state.initial (star_entry COC_BLOCK))
      { st_glob with initialized := false } 1 2 (.inet (htons 80) ⟨1, 2, 3, 4⟩)
      "host.invalid".toList rfl (by decide) (by decide) rfl (fun _ => rfl)
      (fun h => absurd h (by decide))
      (fun e he hea hep =>
        st_glob_no_allow (libc_named "host.invalid".toList) 80 ⟨1, 2, 3, 4⟩ _ (by decide)
          (by decide) ⟨e, he, hea, hep⟩)).2⟩

/-! ## The order in which `coc_rules_add` builds the tokens -/

theorem rules_state_eq (libc : Libc) (rules : List Char) (r : coc_rule_type) (st : coc_state) :
    rules_state (coc_rules_add libc (some rules) r st) =
      rules_post libc rules r (rules_loop libc rules r (rules.length + 1) 0 0 st) := by
  simp only [coc_rules_add]
  cases hl : rules_loop libc rules r (rules.length + 1) 0 0 st with
  | error e => rfl
  | ok x =>
    obtain ⟨len, count, st1⟩ := x
    simp only [rules_post]
    by_cases hc : len - 1 > 0
    · rw [if_pos hc, if_pos hc]
      cases coc_rule_add libc (List.take (len - 1) rules) r st1 <;> rfl
    · rw [if_neg hc, if_neg hc]
      rfl

theorem rules_loop_rev (libc : Libc) (rules : List Char) (r : coc_rule_type) (n : Nat) :
    ∀ (len count : Nat) (st : coc_state), n + (len - 1) ≤ rules.length → 1 ≤ len →
      rules_post libc rules r (rules_loop libc rules r n len count st) =
        rev_post libc r
          (rev_loop libc r (rules.take n).reverse ((rules.drop n).take (len - 1)) st) := by
  induction n with
  | zero =>
    intro len count st hlen h1
    simp only [rules_loop, rules_post, List.take_zero, List.reverse_nil, rev_loop, rev_post,
      List.drop_zero]
    have hcond : (len - 1 > 0) ↔ (List.take (len - 1) rules ≠ []) := by
      rw [Ne, List.take_eq_nil_iff]
      constructor
      · intro h
        rintro (h2 | h2)
        · omega
        · subst h2
          simp at hlen
          omega
      · intro h
        by_contra hc
        exact h (Or.inl (by omega))
    by_cases hc : len - 1 > 0
    · rw [if_pos hc, if_pos (hcond.1 hc)]
    · rw [if_neg hc, if_neg (fun h => hc (hcond.2 h))]
  | succ k ih =>
    intro len count st hlen h1
    have hk : k < rules.length := by omega
    have htake : (rules.take (k + 1)).reverse = rules[k] :: (rules.take k).reverse := by
      rw [List.take_succ, List.getElem?_eq_getElem hk]
      simp
    have hget : rules.getD k (Char.ofNat 0) = rules[k] := by
      simp [List.getD, List.getElem?_eq_getElem hk]
    rw [htake]
    unfold rules_loop
    rw [hget]
    by_cases hc : rules[k] = ';'
    · rw [if_pos hc, rev_loop, if_pos hc]
      have htok : (List.take (len - 1) (List.drop (k + 1) rules) ≠ []) ↔ len > 1 := by
        rw [Ne, List.take_eq_nil_iff]
        constructor
        · intro h
          by_contra hc2
          exact h (Or.inl (by omega))
        · intro h
          rintro (h2 | h2)
          · omega
          · have := congrArg List.length h2
            simp at this
            omega
      have hih : ∀ st1, rules_post libc rules r (rules_loop libc rules r k 1 (count + 1) st1) =
          rev_post libc r (rev_loop libc r (List.take k rules).reverse [] st1) := by
        intro st1
        have := ih 1 (count + 1) st1 (by omega) (by omega)
        simpa using this
      by_cases hl : len > 1
      · rw [if_pos hl, if_pos (htok.2 hl)]
        cases hadd : coc_rule_add libc (List.take (len - 1) (List.drop (k + 1) rules)) r st with
        | error e => rfl
        | ok st1 => exact hih st1
      · rw [if_neg hl, if_neg (fun h => hl (htok.1 h))]
        exact hih st
    · rw [if_neg hc, rev_loop, if_neg hc]
      have := ih (len + 1) count st (by omega) (by omega)
      rw [this]
      have hd : List.take (len + 1 - 1) (List.drop k rules) =
          rules[k] :: List.take (len - 1) (List.drop (k + 1) rules) := by
        rw [List.drop_eq_getElem_cons hk]
        have : len + 1 - 1 = (len - 1) + 1 := by omega
        rw [this, List.take_succ_cons]
      rw [hd]

theorem rules_state_rev (libc : Libc) (rules : List Char) (r : coc_rule_type) (st : coc_state) :
    rules_state (coc_rules_add libc (some rules) r st) =
      rev_post libc r (rev_loop libc r rules.reverse [] st) := by
  rw [rules_state_eq]
  have hnul : rules.getD rules.length (Char.ofNat 0) ≠ ';' := by
    simp [List.getD]
  have h1 : rules_loop libc rules r (rules.length + 1) 0 0 st =
      rules_loop libc rules r rules.length 1 0 st := by
    rw [rules_loop, if_neg hnul]
  rw [h1, rules_loop_rev libc rules r rules.length 1 0 st (by simp) (by omega)]
  simp

theorem rev_loop_append (libc : Libc) (r : coc_rule_type) (a b : List Char) :
    ∀ (tok : List Char) (st : coc_state),
      rev_loop libc r (a ++ b) tok st =
        match rev_loop libc r a tok st with
        | .error e => .error e
        | .ok (tok1, st1) => rev_loop libc r b tok1 st1 := by
  induction a with
  | nil =>
    intro tok st
    rfl
  | cons c a ih =>
    intro tok st
    by_cases hc : c = ';'
    · simp only [List.cons_append, rev_loop, if_pos hc]
      cases (if tok ≠ [] then coc_rule_add libc tok r st else Except.ok st) with
      | error e => rfl
      | ok st1 => exact ih [] st1
    · simp only [List.cons_append, rev_loop, if_neg hc]
      exact ih (c :: tok) st

theorem rev_loop_segment (libc : Libc) (r : coc_rule_type) (g : List Char)
    (hg : ';' ∉ g) :
    ∀ (tok : List Char) (st : coc_state),
      rev_loop libc r g tok st = .ok (g.reverse ++ tok, st) := by
  induction g with
  | nil =>
    intro tok st
    rfl
  | cons c g ih =>
    intro tok st
    have hc : c ≠ ';' := fun h => hg (h ▸ List.mem_cons_self _ _)
    have hg2 : ';' ∉ g := fun h => hg (List.mem_cons_of_mem _ h)
    rw [rev_loop, if_neg hc, ih hg2]
    simp

theorem add_all_append (libc : Libc) (r : coc_rule_type) (a b : List (List Char)) :
    ∀ st : coc_state,
      add_all libc r (a ++ b) st =
        match add_all libc r a st with
        | .error e => .error e
        | .ok st1 => add_all libc r b st1 := by
  induction a with
  | nil =>
    intro st
    rfl
  | cons t a ih =>
    intro st
    simp only [List.cons_append, add_all]
    cases coc_rule_add libc t r st with
    | error e => rfl
    | ok st1 => exact ih st1

theorem intercalate_cons_cons (f g : List Char) (rest : List (List Char)) :
    [';'].intercalate (f :: g :: rest) = f ++ ';' :: [';'].intercalate (g :: rest) := by
  simp [List.intercalate, List.intersperse]

theorem rev_post_segment (libc : Libc) (r : coc_rule_type) (f : List Char) (st : coc_state) :
    rev_post libc r (.ok (f, st)) =
      add_all libc r (List.filter (fun t => decide (t ≠ [])) [f]).reverse st := by
  by_cases hf : f = []
  · subst hf
    rfl
  · have : List.filter (fun t => decide (t ≠ [])) [f] = [f] := by simp [hf]
    rw [this]
    simp only [rev_post, if_pos hf, List.reverse_cons, List.reverse_nil, List.nil_append, add_all]
    cases coc_rule_add libc f r st <;> rfl

theorem rev_post_segment_rev (libc : Libc) (r : coc_rule_type) (f : List Char)
    (hf : ';' ∉ f) (st : coc_state) :
    rev_post libc r (rev_loop libc r f.reverse [] st) =
      add_all libc r (List.filter (fun t => decide (t ≠ [])) [f]).reverse st := by
  have hfr : ';' ∉ f.reverse := by simpa using hf
  rw [rev_loop_segment libc r f.reverse hfr, List.reverse_reverse, List.append_nil]
  exact rev_post_segment libc r f st

theorem rev_post_sep (libc : Libc) (r : coc_rule_type) (f tok : List Char)
    (hf : ';' ∉ f) (st : coc_state) :
    rev_post libc r (rev_loop libc r (';' :: f.reverse) tok st) =
      match rev_post libc r (.ok (tok, st)) with
      | .error e => .error e
      | .ok st1 => add_all libc r (List.filter (fun t => decide (t ≠ [])) [f]).reverse st1 := by
  rw [rev_loop, if_pos rfl]
  by_cases ht : tok = []
  · subst ht
    have h1 : rev_post libc r (.ok ([], st)) = .ok st := rfl
    rw [h1, if_neg (fun h => h rfl)]
    exact rev_post_segment_rev libc r f hf st
  · have h1 : rev_post libc r (.ok (tok, st)) = coc_rule_add libc tok r st := by
      simp only [rev_post]
      rw [if_pos ht]
    rw [h1, if_pos ht]
    cases coc_rule_add libc tok r st with
    | error e => rfl
    | ok st2 => exact rev_post_segment_rev libc r f hf st2

theorem rev_post_intercalate (libc : Libc) (r : coc_rule_type) (fs : List (List Char))
    (hfs : ∀ f ∈ fs, ';' ∉ f) :
    ∀ st : coc_state,
      rev_post libc r (rev_loop libc r ([';'].intercalate fs).reverse [] st) =
        add_all libc r (fs.filter (fun t => decide (t ≠ []))).reverse st := by
  induction fs with
  | nil =>
    intro st
    rfl
  | cons f fs ih =>
    intro st
    have hf : ';' ∉ f := hfs f (List.mem_cons_self _ _)
    have hfs2 : ∀ g ∈ fs, ';' ∉ g := fun g hg => hfs g (List.mem_cons_of_mem _ hg)
    cases fs with
    | nil =>
      have h1 : [';'].intercalate [f] = f := by simp [List.intercalate, List.intersperse]
      rw [h1]
      exact rev_post_segment_rev libc r f hf st
    | cons g rest =>
      have hrev : ([';'].intercalate (f :: g :: rest)).reverse =
          ([';'].intercalate (g :: rest)).reverse ++ ';' :: f.reverse := by
        rw [intercalate_cons_cons]
        simp
      rw [hrev, rev_loop_append]
      have ih2 := ih hfs2 st
      have hfilter : (List.filter (fun t => decide (t ≠ [])) (f :: g :: rest)).reverse =
          (List.filter (fun t => decide (t ≠ [])) (g :: rest)).reverse ++
            (List.filter (fun t => decide (t ≠ [])) [f]).reverse := by
        rw [← List.reverse_append, ← List.filter_append]
        rfl
      rw [hfilter, add_all_append, ← ih2]
      cases hl : rev_loop libc r ([';'].intercalate (g :: rest)).reverse [] st with
      | error e => rfl
      | ok x =>
        obtain ⟨tok, st1⟩ := x
        exact rev_post_sep libc r f tok hf st1

/-- The globals after `coc_rules_add` on the fields `fs` joined by `;`: the
fields that are not empty are built from the last to the first. -/
theorem rules_state_intercalate (libc : Libc) (r : coc_rule_type) (fs : List (List Char))
    (hfs : ∀ f ∈ fs, ';' ∉ f) (st : coc_state) :
    rules_state (coc_rules_add libc (some ([';'].intercalate fs)) r st) =
      add_all libc r (fs.filter (fun t => decide (t ≠ []))).reverse st := by
  rw [rules_state_rev, rev_post_intercalate libc r fs hfs]

theorem rules_state_ok (x : Except coc_error (Nat × coc_state)) (st : coc_state)
    (h : rules_state x = .ok st) : ∃ n, x = .ok (n, st) := by
  cases x with
  | error e => simp [rules_state] at h
  | ok y =>
    obtain ⟨n, st1⟩ := y
    simp only [rules_state, Except.ok.injEq] at h
    exact ⟨n, by rw [h]⟩

theorem add_all_one_each (libc : Libc) (r : coc_rule_type) (ent : List Char → coc_entry)
    (ts : List (List Char)) :
    (∀ t ∈ ts, ∀ s, coc_rule_add libc t r s = .ok (SLIST_INSERT_HEAD s (ent t))) →
    ∀ st : coc_state, add_all libc r ts st =
      .ok { st with coc_list_head := ts.reverse.map ent ++ st.coc_list_head } := by
  induction ts with
  | nil =>
    intro _ st
    rfl
  | cons t ts ih =>
    intro h st
    rw [add_all, h t (List.mem_cons_self _ _) st]
    simp only
    rw [ih (fun u hu => h u (List.mem_cons_of_mem _ hu))]
    simp [SLIST_INSERT_HEAD]

theorem filter_nonempty (ts : List (List Char)) (h : ∀ t ∈ ts, t ≠ []) :
    ts.filter (fun t => decide (t ≠ [])) = ts := by
  rw [List.filter_eq_self]
  intro t ht
  simpa using h t ht

theorem rules_add_one_each (libc : Libc) (r : coc_rule_type) (ent : List Char → coc_entry)
    (ts : List (List Char)) (st : coc_state)
    (h : ∀ t ∈ ts, t ≠ [] ∧ ';' ∉ t ∧
      ∀ s, coc_rule_add libc t r s = .ok (SLIST_INSERT_HEAD s (ent t))) :
    ∃ n, coc_rules_add libc (some ([';'].intercalate ts)) r st =
      .ok (n, { st with coc_list_head := ts.map ent ++ st.coc_list_head }) := by
  apply rules_state_ok
  rw [rules_state_intercalate libc r ts (fun t ht => (h t ht).2.1),
    filter_nonempty ts (fun t ht => (h t ht).1),
    add_all_one_each libc r ent ts.reverse
      (fun t ht => (h t (List.mem_reverse.1 ht)).2.2)]
  simp

/-- C3. For every BLOCK list and ALLOW list made of tokens that each build
exactly one entry (as a literal address does), the store after
`coc_rules_add` of the BLOCK list followed by `coc_rules_add` of the ALLOW
list is, front to back, the entries of the ALLOW tokens in left-to-right
order followed by the entries of the BLOCK tokens in left-to-right order
(followed by what the store held before). -/
theorem rules_precedence_order (libc : Libc) (blocks allows : List (List Char))
    (entB entA : List Char → coc_entry) (st : coc_state)
    (hB : ∀ t ∈ blocks, t ≠ [] ∧ ';' ∉ t ∧
      ∀ s, coc_rule_add libc t COC_BLOCK s = .ok (SLIST_INSERT_HEAD s (entB t)))
    (hA : ∀ t ∈ allows, t ≠ [] ∧ ';' ∉ t ∧
      ∀ s, coc_rule_add libc t COC_ALLOW s = .ok (SLIST_INSERT_HEAD s (entA t))) :
    ∃ n1 n2 st1,
      coc_rules_add libc (some ([';'].intercalate blocks)) COC_BLOCK st = .ok (n1, st1) ∧
      coc_rules_add libc (some ([';'].intercalate allows)) COC_ALLOW st1 =
        .ok (n2,
          { st with coc_list_head := allows.map entA ++ (blocks.map entB ++ st.coc_list_head) }) := by
  obtain ⟨n1, h1⟩ := rules_add_one_each libc COC_BLOCK entB blocks st hB
  obtain ⟨n2, h2⟩ := rules_add_one_each libc COC_ALLOW entA allows
    { st with coc_list_head := blocks.map entB ++ st.coc_list_head } hA
  exact ⟨n1, n2, _, h1, h2⟩

theorem coc_rule_add_ipv4 (libc : Libc) (t : List Char) (s : scan_state) (a : in_addr)
    (r : coc_rule_type) (st : coc_state)
    (hs : coc_rule_scan t = .ok s) (hty : s.type = COC_IPV4_ADDR) (hsv : s.service = none)
    (hsb : s.sb = IPV6_SB_NONE) (hp : libc.inet_pton4 t = some a) :
    coc_rule_add libc t r st = .ok (SLIST_INSERT_HEAD st (ipv4_entry a r)) := by
  unfold coc_rule_add
  rw [hs]
  simp only [coc_rule_port, hsv, coc_rule_host, hsb, coc_rule_build, hty]
  simp [COC_IPV4_ADDR, COC_IPV6_ADDR, hp, ipv4_entry]

theorem ref_token_1234 (r : coc_rule_type) (s : coc_state) :
    coc_rule_add libc_ref "1.2.3.4".toList r s =
      .ok (SLIST_INSERT_HEAD s (ipv4_token_entry r "1.2.3.4".toList)) :=
  coc_rule_add_ipv4 libc_ref _ ⟨1, none, IPV6_SB_NONE, 0, 4, 4⟩ ⟨1, 2, 3, 4⟩ r s
    (by decide) rfl rfl rfl (by decide)

theorem ref_token_5678 (r : coc_rule_type) (s : coc_state) :
    coc_rule_add libc_ref "5.6.7.8".toList r s =
      .ok (SLIST_INSERT_HEAD s (ipv4_token_entry r "5.6.7.8".toList)) :=
  coc_rule_add_ipv4 libc_ref _ ⟨1, none, IPV6_SB_NONE, 0, 4, 8⟩ ⟨5, 6, 7, 8⟩ r s
    (by decide) rfl rfl rfl (by decide)

theorem ref_token_9999 (r : coc_rule_type) (s : coc_state) :
    coc_rule_add libc_ref "9.9.9.9".toList r s =
      .ok (SLIST_INSERT_HEAD s (ipv4_token_entry r "9.9.9.9".toList)) :=
  coc_rule_add_ipv4 libc_ref _ ⟨1, none, IPV6_SB_NONE, 0, 4, 9⟩ ⟨9, 9, 9, 9⟩ r s
    (by decide) rfl rfl rfl (by decide)

/-- Witness for C3: the BLOCK list `1.2.3.4;5.6.7.8` and the ALLOW list
`9.9.9.9` on the empty store. -/
theorem rules_precedence_order_witness :
    ∃ n1 n2 st1,
      coc_rules_add libc_ref (some "1.2.3.4;5.6.7.8".toList) COC_BLOCK coc_state.initial =
        .ok (n1, st1) ∧
      coc_rules_add libc_ref (some "9.9.9.9".toList) COC_ALLOW st1 =
        .ok (n2, ⟨[ipv4_entry ⟨9, 9, 9, 9⟩ COC_ALLOW, ipv4_entry ⟨1, 2, 3, 4⟩ COC_BLOCK,
          ipv4_entry ⟨5, 6, 7, 8⟩ COC_BLOCK], false, false⟩) :=
  rules_precedence_order libc_ref ["1.2.3.4".toList, "5.6.7.8".toList] ["9.9.9.9".toList]
    (ipv4_token_entry COC_BLOCK) (ipv4_token_entry COC_ALLOW) coc_state.initial
    (by
      intro t ht
      simp only [List.mem_cons, List.mem_singleton, List.not_mem_nil, or_false] at ht
      rcases ht with rfl | rfl
      · exact ⟨by decide, by decide, ref_token_1234 COC_BLOCK⟩
      · exact ⟨by decide, by decide, ref_token_5678 COC_BLOCK⟩)
    (by
      intro t ht
      simp only [List.mem_singleton] at ht
      subst ht
      exact ⟨by decide, by decide, ref_token_9999 COC_ALLOW⟩)

theorem env_order_block (libc : Libc)
    (h1 : libc.inet_pton4 "1.2.3.4".toList = some ⟨1, 2, 3, 4⟩)
    (h2 : libc.inet_pton4 "5.6.7.8".toList = some ⟨5, 6, 7, 8⟩) (st : coc_state) :
    ∃ n, coc_rules_add libc env_order.COC_BLOCK COC_BLOCK st =
      .ok (n, ⟨ipv4_entry ⟨1, 2, 3, 4⟩ COC_BLOCK :: ipv4_entry ⟨5, 6, 7, 8⟩ COC_BLOCK ::
        st.coc_list_head, st.needs_dns_lookup, st.initialized⟩) := by
  apply rules_state_ok
  have he : env_order.COC_BLOCK =
      some ([';'].intercalate ["1.2.3.4".toList, "5.6.7.8".toList]) := by decide
  rw [he, rules_state_intercalate libc COC_BLOCK _ (by decide)]
  show add_all libc COC_BLOCK ["5.6.7.8".toList, "1.2.3.4".toList] st = _
  rw [add_all, coc_rule_add_ipv4 libc _ ⟨1, none, IPV6_SB_NONE, 0, 4, 8⟩ ⟨5, 6, 7, 8⟩
    COC_BLOCK st (by decide) rfl rfl rfl h2]
  simp only
  rw [add_all, coc_rule_add_ipv4 libc _ ⟨1, none, IPV6_SB_NONE, 0, 4, 4⟩ ⟨1, 2, 3, 4⟩
    COC_BLOCK _ (by decide) rfl rfl rfl h1]
  rfl

theorem env_order_allow (libc : Libc)
    (h3 : libc.inet_pton4 "9.9.9.9".toList = some ⟨9, 9, 9, 9⟩) (st : coc_state) :
    ∃ n, coc_rules_add libc env_order.COC_ALLOW COC_ALLOW st =
      .ok (n, ⟨ipv4_entry ⟨9, 9, 9, 9⟩ COC_ALLOW :: st.coc_list_head,
        st.needs_dns_lookup, st.initialized⟩) := by
  apply rules_state_ok
  have he : env_order.COC_ALLOW = some ([';'].intercalate ["9.9.9.9".toList]) := by decide
  rw [he, rules_state_intercalate libc COC_ALLOW _ (by decide)]
  show add_all libc COC_ALLOW ["9.9.9.9".toList] st = _
  rw [add_all, coc_rule_add_ipv4 libc _ ⟨1, none, IPV6_SB_NONE, 0, 4, 9⟩ ⟨9, 9, 9, 9⟩
    COC_ALLOW st (by decide) rfl rfl rfl h3]
  rfl

theorem coc_init_no_dns (libc : Libc) (env : coc_environ) (st st1 st2 : coc_state)
    (n1 n2 : Nat)
    (hb : coc_rules_add libc env.COC_BLOCK COC_BLOCK { st with coc_list_head := [] } =
      .ok (n1, st1))
    (ha : coc_rules_add libc env.COC_ALLOW COC_ALLOW st1 = .ok (n2, st2))
    (hn : st2.needs_dns_lookup = false) :
    coc_init libc env st = .ok { st2 with initialized := true } := by
  unfold coc_init
  simp only [hb, ha, hn]
  simp

/-- C4, amended. With a C library that converts the three literals to their
addresses, start-up with `COC_BLOCK="1.2.3.4;5.6.7.8"` and
`COC_ALLOW="9.9.9.9"` yields the precedence order, front to back,
9.9.9.9 (Allow), 1.2.3.4 (Block), 5.6.7.8 (Block): the ALLOW entry first,
then the BLOCK entries in their left-to-right order. -/
theorem example_precedence (libc : Libc)
    (h1 : libc.inet_pton4 "1.2.3.4".toList = some ⟨1, 2, 3, 4⟩)
    (h2 : libc.inet_pton4 "5.6.7.8".toList = some ⟨5, 6, 7, 8⟩)
    (h3 : libc.inet_pton4 "9.9.9.9".toList = some ⟨9, 9, 9, 9⟩) :
    coc_init libc env_order coc_state.initial =
      .ok ⟨[ipv4_entry ⟨9, 9, 9, 9⟩ COC_ALLOW, ipv4_entry ⟨1, 2, 3, 4⟩ COC_BLOCK,
        ipv4_entry ⟨5, 6, 7, 8⟩ COC_BLOCK], false, true⟩ := by
  obtain ⟨n1, hb⟩ := env_order_block libc h1 h2 ⟨[], false, false⟩
  obtain ⟨n2, ha⟩ := env_order_allow libc h3
    ⟨[ipv4_entry ⟨1, 2, 3, 4⟩ COC_BLOCK, ipv4_entry ⟨5, 6, 7, 8⟩ COC_BLOCK], false, false⟩
  exact coc_init_no_dns libc env_order coc_state.initial _ _ n1 n2 hb ha rfl

/-- Witness for C4, amended: the C library of the examples. -/
theorem example_precedence_witness :
    libc_ref.inet_pton4 "1.2.3.4".toList = some ⟨1, 2, 3, 4⟩ ∧
    libc_ref.inet_pton4 "5.6.7.8".toList = some ⟨5, 6, 7, 8⟩ ∧
    libc_ref.inet_pton4 "9.9.9.9".toList = some ⟨9, 9, 9, 9⟩ ∧
    coc_init libc_ref env_order coc_state.initial =
      .ok ⟨[ipv4_entry ⟨9, 9, 9, 9⟩ COC_ALLOW, ipv4_entry ⟨1, 2, 3, 4⟩ COC_BLOCK,
        ipv4_entry ⟨5, 6, 7, 8⟩ COC_BLOCK], false, true⟩ :=
  ⟨by decide, by decide, by decide,
   example_precedence libc_ref (by decide) (by decide) (by decide)⟩

/-- Counterexample to C4 as stated: the store built from
`COC_BLOCK="1.2.3.4;5.6.7.8"` and `COC_ALLOW="9.9.9.9"` is, front to back,
9.9.9.9 (Allow), 1.2.3.4 (Block), 5.6.7.8 (Block), which is not the order
9.9.9.9, 5.6.7.8, 1.2.3.4 of the claim. -/
theorem example_precedence_counterexample :
    coc_init libc_ref env_order coc_state.initial =
      .ok ⟨[ipv4_entry ⟨9, 9, 9, 9⟩ COC_ALLOW, ipv4_entry ⟨1, 2, 3, 4⟩ COC_BLOCK,
        ipv4_entry ⟨5, 6, 7, 8⟩ COC_BLOCK], false, true⟩ ∧
    [ipv4_entry ⟨9, 9, 9, 9⟩ COC_ALLOW, ipv4_entry ⟨1, 2, 3, 4⟩ COC_BLOCK,
        ipv4_entry ⟨5, 6, 7, 8⟩ COC_BLOCK] ≠
      [ipv4_entry ⟨9, 9, 9, 9⟩ COC_ALLOW, ipv4_entry ⟨5, 6, 7, 8⟩ COC_BLOCK,
        ipv4_entry ⟨1, 2, 3, 4⟩ COC_BLOCK] :=
  ⟨by decide, by decide⟩

/-! ## The example `COC_ALLOW="10.0.0.1:22"` -/

theorem env_ssh_allow (libc : Libc)
    (h1 : libc.inet_pton4 "10.0.0.1".toList = some ⟨10, 0, 0, 1⟩) (st : coc_state) :
    ∃ n, coc_rules_add libc env_ssh.COC_ALLOW COC_ALLOW st =
      .ok (n, ⟨⟨.ipv4 ⟨10, 0, 0, 1⟩, htons 22, COC_ALLOW⟩ :: st.coc_list_head,
        st.needs_dns_lookup, st.initialized⟩) := by
  apply rules_state_ok
  have he : env_ssh.COC_ALLOW = some ([';'].intercalate ["10.0.0.1:22".toList]) := by decide
  rw [he, rules_state_intercalate libc COC_ALLOW _ (by decide)]
  show add_all libc COC_ALLOW ["10.0.0.1:22".toList] st = _
  have hs : coc_rule_scan "10.0.0.1:22".toList = .ok ⟨1, some 9, IPV6_SB_NONE, 1, 4, 1⟩ := by
    decide
  have hp : port_parse libc (List.drop 9 "10.0.0.1:22".toList) = .ok 22 := by
    have hl : port_loop (List.drop 9 "10.0.0.1:22".toList) 0 false = .ok (22, false) := by
      decide
    have hne : List.drop 9 "10.0.0.1:22".toList ≠ [] := by decide
    simp only [port_parse, port_eval, hl, if_neg hne]
    rfl
  have hh : coc_rule_host "10.0.0.1:22".toList ⟨1, some 9, IPV6_SB_NONE, 1, 4, 1⟩ =
      "10.0.0.1".toList := by decide
  rw [add_all, coc_rule_add, hs]
  simp only [coc_rule_port, hp, hh, coc_rule_build]
  rw [if_neg (by decide), if_pos (by decide), h1]
  rfl

/-- C5, amended. With `COC_ALLOW="10.0.0.1:22"` as the only rule (no
`COC_BLOCK`) and a C library that converts the literal `10.0.0.1`, start-up
succeeds, the decision for a connection to 10.0.0.1 port 22 is `Allow`, and
the decision for a connection to 10.0.0.1 port 23 is `Allow` as well: no
entry matches and the default is `Allow`. -/
theorem example_ssh (libc : Libc)
    (h1 : libc.inet_pton4 "10.0.0.1".toList = some ⟨10, 0, 0, 1⟩) :
    coc_init libc env_ssh coc_state.initial = .ok st_ssh ∧
    (connect libc st_ssh (some (.inet (htons 22) ⟨10, 0, 0, 1⟩))).decision = .Allow ∧
    (connect libc st_ssh (some (.inet (htons 23) ⟨10, 0, 0, 1⟩))).decision = .Allow := by
  obtain ⟨n2, ha⟩ := env_ssh_allow libc h1 ⟨[], false, false⟩
  exact ⟨coc_init_no_dns libc env_ssh coc_state.initial ⟨[], false, false⟩ _ 0 n2 rfl ha rfl,
    rfl, rfl⟩

/-- Witness for C5, amended: the C library of the examples. -/
theorem example_ssh_witness :
    libc_ref.inet_pton4 "10.0.0.1".toList = some ⟨10, 0, 0, 1⟩ ∧
    coc_init libc_ref env_ssh coc_state.initial = .ok st_ssh ∧
    (connect libc_ref st_ssh (some (.inet (htons 23) ⟨10, 0, 0, 1⟩))).decision = .Allow :=
  ⟨by decide, (example_ssh libc_ref (by decide)).1, (example_ssh libc_ref (by decide)).2.2⟩

/-- Counterexample to C5 as stated: with `COC_ALLOW="10.0.0.1:22"` as the only
rule, the decision for a connection to 10.0.0.1 port 23 is not `Block`. -/
theorem example_ssh_counterexample :
    coc_init libc_ref env_ssh coc_state.initial = .ok st_ssh ∧
    (connect libc_ref st_ssh (some (.inet (htons 23) ⟨10, 0, 0, 1⟩))).decision ≠ .Block :=
  ⟨by decide, by decide⟩

/-! ## The port field -/

theorem digit_value_le (c : Char) (h : c.isDigit = true) : digit_value c ≤ 9 := by
  simp only [Char.isDigit, Bool.and_eq_true, decide_eq_true_eq] at h
  have h2 : c.val.toNat ≤ 57 := h.2
  simp only [digit_value, Char.toNat]
  omega

theorem digit_value_eq (c : Char) : digit_value c = c.toNat - '0'.toNat := rfl

theorem fold_ge (field : List Char) :
    ∀ p : Nat, p ≤ field.foldl (fun n c => 10 * n + (c.toNat - '0'.toNat)) p := by
  induction field with
  | nil =>
    intro p
    exact Nat.le_refl p
  | cons c cs ih =>
    intro p
    simp only [List.foldl_cons]
    exact Nat.le_trans (by omega) (ih _)

theorem port_loop_digits (field : List Char) (hd : ∀ c ∈ field, c.isDigit = true) :
    ∀ p : Nat, p ≤ 65535 →
      port_loop field p false =
        if field.foldl (fun n c => 10 * n + (c.toNat - '0'.toNat)) p ≤ 65535 then
          .ok (field.foldl (fun n c => 10 * n + (c.toNat - '0'.toNat)) p, false)
        else .error .invalid_port_number := by
  induction field with
  | nil =>
    intro p hp
    simp [port_loop, hp]
  | cons c cs ih =>
    intro p hp
    have hc : c.isDigit = true := hd c (List.mem_cons_self _ _)
    have hcs : ∀ x ∈ cs, x.isDigit = true := fun x hx => hd x (List.mem_cons_of_mem _ hx)
    have hdv := digit_value_le c hc
    rw [digit_value_eq] at hdv
    simp only [List.foldl_cons]
    have hge := fold_ge cs (10 * p + (c.toNat - '0'.toNat))
    rw [port_loop, isdigit, if_pos hc, digit_value_eq, UINT16_MAX]
    by_cases hov : p > 65535 / 10 ∨ 65535 - (c.toNat - '0'.toNat) < p * 10
    · rw [if_pos hov, if_neg]
      omega
    · rw [if_neg hov]
      have hle : p * 10 + (c.toNat - '0'.toNat) ≤ 65535 := by omega
      have hmod : (p * 10 + (c.toNat - '0'.toNat)) % 65536 = 10 * p + (c.toNat - '0'.toNat) := by
        omega
      rw [hmod]
      exact ih hcs _ (by omega)

theorem port_parse_digits_eq (libc : Libc) (field : List Char)
    (hd : ∀ c ∈ field, c.isDigit = true) :
    port_parse libc field =
      if field = [] then .error .no_port_specified
      else if 65535 < decimal_value field then .error .invalid_port_number
      else if decimal_value field = 0 then .error .port_zero_not_allowed
      else .ok (decimal_value field) := by
  unfold port_parse
  by_cases he : field = []
  · rw [if_pos he, if_pos he]
  · rw [if_neg he, if_neg he]
    unfold port_eval
    rw [port_loop_digits field hd 0 (by omega)]
    show _ = if 65535 < decimal_value field then _ else _
    have hdv : field.foldl (fun n c => 10 * n + (c.toNat - '0'.toNat)) 0 =
        decimal_value field := rfl
    rw [hdv]
    by_cases hv : decimal_value field ≤ 65535
    · rw [if_pos hv, if_neg (by omega)]
    · rw [if_neg hv, if_pos (by omega)]

theorem port_loop_bound (field : List Char) :
    ∀ (p : Nat) (b : Bool) (q : Nat) (b1 : Bool), p ≤ 65535 →
      port_loop field p b = .ok (q, b1) → q ≤ 65535 := by
  induction field with
  | nil =>
    intro p b q b1 hp h
    simp only [port_loop, Except.ok.injEq, Prod.mk.injEq] at h
    omega
  | cons c cs ih =>
    intro p b q b1 hp h
    rw [port_loop] at h
    split at h
    · split at h
      · exact absurd h (by simp)
      · exact ih _ _ _ _ (by omega) h
    · split at h
      · exact ih _ _ _ _ hp h
      · exact absurd h (by simp)

theorem ntohs_bound (x : in_port_t) : ntohs x ≤ 65535 := by
  have h1 := x.hi.isLt
  have h2 := x.lo.isLt
  simp only [ntohs]
  omega

theorem port_eval_bound (libc : Libc) (field : List Char) (q : Nat)
    (h : port_eval libc field = .ok q) : q ≤ 65535 := by
  unfold port_eval at h
  split at h
  · exact absurd h (by simp)
  · rename_i port hl
    injection h with h
    subst h
    exact port_loop_bound field 0 false _ _ (by omega) hl
  · split at h
    · injection h with h
      subst h
      exact ntohs_bound _
    · exact absurd h (by simp)

theorem port_parse_bound (libc : Libc) (field : List Char) (q : Nat)
    (h : port_parse libc field = .ok q) : 1 ≤ q ∧ q ≤ 65535 := by
  unfold port_parse at h
  split at h
  · exact absurd h (by simp)
  · split at h
    · exact absurd h (by simp)
    · rename_i port hp
      split at h
      · exact absurd h (by simp)
      · injection h with h
        subst h
        exact ⟨by omega, port_eval_bound libc field _ hp⟩

/-- C10. For every port field consisting only of decimal digits (leading
zeros allowed), the port parse succeeds if and only if the numeric value of
the field lies in 1..65535, on success the value returned is that value and
every entry built from a token with that port field holds it as its port
(in network byte order), and a value above 65535 is the error
`invalid_port_number`, never a value reduced modulo 65536. -/
theorem port_parse_numeric (libc : Libc) (field : List Char)
    (hd : ∀ c ∈ field, c.isDigit = true) :
    ((∃ p, port_parse libc field = .ok p) ↔
      (1 ≤ decimal_value field ∧ decimal_value field ≤ 65535)) ∧
    (∀ p, port_parse libc field = .ok p → p = decimal_value field) ∧
    (65535 < decimal_value field → port_parse libc field = .error .invalid_port_number) ∧
    (∀ (str : List Char) (s : scan_state) (i : Nat) (r : coc_rule_type) (st st1 : coc_state),
      coc_rule_scan str = .ok s → s.service = some i → str.drop i = field →
      coc_rule_add libc str r st = .ok st1 →
      ∃ new, st1.coc_list_head = new ++ st.coc_list_head ∧
        ∀ e ∈ new, e.port = htons (decimal_value field) ∧
          ntohs e.port = decimal_value field) := by
  have heq := port_parse_digits_eq libc field hd
  have hval : ∀ p, port_parse libc field = .ok p → p = decimal_value field := by
    intro p hp
    rw [heq] at hp
    split at hp
    · exact absurd hp (by simp)
    · split at hp
      · exact absurd hp (by simp)
      · split at hp
        · exact absurd hp (by simp)
        · injection hp with hp
          exact hp.symm
  refine ⟨?_, hval, ?_, ?_⟩
  · constructor
    · rintro ⟨p, hp⟩
      have := port_parse_bound libc field p hp
      rw [← hval p hp]
      exact this
    · rintro ⟨h1, h2⟩
      refine ⟨decimal_value field, ?_⟩
      rw [heq]
      have hne : field ≠ [] := by
        rintro rfl
        simp [decimal_value] at h1
      rw [if_neg hne, if_neg (by omega), if_neg (by omega)]
  · intro h
    rw [heq]
    have hne : field ≠ [] := by
      rintro rfl
      simp [decimal_value] at h
    rw [if_neg hne, if_pos h]
  · intro str s i r st st1 hs hi hf hadd
    obtain ⟨s1, port, new, hs1, hp, hl, hnew⟩ := coc_rule_add_spec libc str r st st1 hadd
    rw [hs] at hs1
    injection hs1 with hs1
    subst hs1
    simp only [coc_rule_port, hi, hf] at hp
    have hpv := hval port hp
    have hb := port_parse_bound libc field port hp
    refine ⟨new, hl, ?_⟩
    intro e he
    rw [(hnew e he).2, ntohs_htons, hpv]
    refine ⟨rfl, ?_⟩
    rw [← hpv]
    omega

/-- Witness for C10: the fields `00080`, `65535` and `65536`. -/
theorem port_parse_numeric_witness :
    (∀ c ∈ "65536".toList, c.isDigit = true) ∧
    port_parse libc_ref "65536".toList = .error .invalid_port_number ∧
    (∃ p, port_parse libc_ref "65535".toList = .ok p) ∧
    (∀ p, port_parse libc_ref "00080".toList = .ok p → p = 80) :=
  ⟨by decide,
   (port_parse_numeric libc_ref "65536".toList (by decide)).2.2.1 (by decide),
   (port_parse_numeric libc_ref "65535".toList (by decide)).1.2 (by decide),
   (port_parse_numeric libc_ref "00080".toList (by decide)).2.1⟩

theorem scan_finish_service (s s1 : scan_state) (h : scan_finish s = .ok s1) :
    s1.service = s.service := by
  have key : ∀ s2 : scan_state, s2.service = s.service →
      (if s2.type = COC_IPV6_ADDR ∧ s2.sb = IPV6_SB_OPEN then
        (Except.error coc_error.bracket_close_missing : Except coc_error scan_state)
      else if s2.type = COC_IPV4_ADDR ∨ s2.type = COC_IPV6_ADDR ∨
          s2.type = COC_HOST_ADDR ∨ s2.type = COC_GLOB_ADDR then .ok s2
      else .error .assertion_failed) = .ok s1 → s1.service = s.service := by
    intro s2 h2 hk
    split at hk
    · exact absurd hk (by simp)
    · split at hk
      · injection hk with hk
        subst hk
        exact h2
      · exact absurd hk (by simp)
  refine key _ ?_ h
  split
  · rfl
  · split <;> rfl

/-- C9. For every token in which the scan locates a port field (the
scanning loop ends with `service` not null), rule building fails when that
field is empty and when it evaluates to port 0, numerically or through the
service lookup; consequently, when rule building succeeds, an entry it
stores with the wildcard port comes from a token in which the scan located
no port field. -/
theorem port_field_checked (libc : Libc) (str : List Char) (r : coc_rule_type)
    (st : coc_state) (s : scan_state) (hs : scan_loop str 0 scan_state.init = .ok s) :
    (∀ i, s.service = some i →
      (str.drop i = [] ∨ port_eval libc (str.drop i) = .ok 0) →
      ∃ e, coc_rule_add libc str r st = .error e) ∧
    (∀ st1, coc_rule_add libc str r st = .ok st1 →
      ∃ new, st1.coc_list_head = new ++ st.coc_list_head ∧
        ((∃ e ∈ new, e.port = htons 0) → s.service = none)) := by
  constructor
  · intro i hi hz
    cases hf : scan_finish s with
    | error e =>
      exact ⟨e, by simp only [coc_rule_add, coc_rule_scan, hs, hf]⟩
    | ok s1 =>
      have hsv : s1.service = some i := by rw [scan_finish_service s s1 hf, hi]
      by_cases he : str.drop i = []
      · exact ⟨.no_port_specified, by
          simp only [coc_rule_add, coc_rule_scan, hs, hf, coc_rule_port, hsv, port_parse, he,
            if_true]⟩
      · rcases hz with hz | hz
        · exact absurd hz he
        · exact ⟨.port_zero_not_allowed, by
            simp only [coc_rule_add, coc_rule_scan, hs, hf, coc_rule_port, hsv, port_parse,
              if_neg he, hz, if_true]⟩
  · intro st1 hadd
    obtain ⟨s1, port, new, hs1, hp, hl, hnew⟩ := coc_rule_add_spec libc str r st st1 hadd
    simp only [coc_rule_scan, hs] at hs1
    have hsv1 := scan_finish_service s s1 hs1
    refine ⟨new, hl, ?_⟩
    rintro ⟨e, he, hez⟩
    cases hsv : s.service with
    | none => rfl
    | some i =>
      rw [hsv] at hsv1
      simp only [coc_rule_port, hsv1] at hp
      have hb := port_parse_bound libc _ port hp
      rw [(hnew e he).2, htons_eq_zero_iff] at hez
      omega

/-- Witness for C9: the tokens `10.0.0.1:` and `10.0.0.1:0`, in which the
scan locates a port field that is empty, resp. evaluates to 0, and the token
`10.0.0.1`, whose entry has the wildcard port. -/
theorem port_field_checked_witness :
    scan_loop "10.0.0.1:".toList 0 scan_state.init =
      .ok ⟨1, some 9, IPV6_SB_NONE, 1, 4, 1⟩ ∧
    (∃ e, coc_rule_add libc_ref "10.0.0.1:".toList COC_ALLOW coc_state.initial = .error e) ∧
    scan_loop "10.0.0.1:0".toList 0 scan_state.init =
      .ok ⟨1, some 9, IPV6_SB_NONE, 1, 4, 1⟩ ∧
    port_eval libc_ref (List.drop 9 "10.0.0.1:0".toList) = .ok 0 ∧
    (∃ e, coc_rule_add libc_ref "10.0.0.1:0".toList COC_ALLOW coc_state.initial = .error e) :=
  ⟨by decide,
   (port_field_checked libc_ref "10.0.0.1:".toList COC_ALLOW coc_state.initial
      ⟨1, some 9, IPV6_SB_NONE, 1, 4, 1⟩ (by decide)).1 9 rfl (Or.inl (by decide)),
   by decide, by decide,
   (port_field_checked libc_ref "10.0.0.1:0".toList COC_ALLOW coc_state.initial
      ⟨1, some 9, IPV6_SB_NONE, 1, 4, 1⟩ (by decide)).1 9 rfl (Or.inr (by decide))⟩

/-! ## Families other than IPv4 and IPv6, and the number of lookups -/

/-- C19. For every store, a connection attempt whose destination address is
absent (null) or whose family is neither IPv4 nor IPv6 is never blocked: the
decision is `Allow`, whatever the store and the flags, and no lookup is
made. -/
theorem connect_not_inet (libc : Libc) (st : coc_state) :
    connect libc st none = ⟨.Allow, 0⟩ ∧
    ∀ (sa_family : Nat) (sa_data : in_port_t),
      connect libc st (some (.other sa_family sa_data)) = ⟨.Allow, 0⟩ := by
  constructor
  · unfold connect
    cases st.initialized <;> rfl
  · intro f d
    unfold connect
    cases st.initialized <;> rfl

theorem connect_loop_lookups_le (libc : Libc) (addr : sockaddr) (l : List coc_entry) :
    ∀ (hbuf : List Char) (done : Bool) (n : Nat),
      (connect_loop libc addr l hbuf done n).lookups ≤
        n + (l.filter coc_entry.isGlob).length := by
  induction l with
  | nil =>
    intro hbuf done n
    simp [connect_loop]
  | cons e l ih =>
    intro hbuf done n
    unfold connect_loop
    by_cases hg : e.isGlob = true
    · have hlen : ((e :: l).filter coc_entry.isGlob).length =
          (l.filter coc_entry.isGlob).length + 1 := by simp [List.filter, hg]
      rw [hlen]
      cases done with
      | true =>
        simp only [hg, Bool.not_true, Bool.and_false, Bool.false_eq_true, if_false]
        split
        · simp only
          omega
        · have := ih hbuf true n
          omega
      | false =>
        simp only [hg, Bool.not_false, Bool.and_self, if_true]
        split
        · have := ih hbuf false (n + 1)
          omega
        · split
          · simp only
            omega
          · rename_i h _ _
            have := ih h true (n + 1)
            omega
    · have hg2 : e.isGlob = false := by simpa using hg
      have hlen : ((e :: l).filter coc_entry.isGlob).length =
          (l.filter coc_entry.isGlob).length := by simp [List.filter, hg2]
      rw [hlen]
      simp only [hg2, Bool.false_and, Bool.false_eq_true, if_false]
      split
      · simp only
        omega
      · exact ih hbuf done n

theorem connect_loop_lookups_first (libc : Libc) (addr : sockaddr) (l : List coc_entry)
    (h : List Char) (n : Nat) (hres : libc.getnameinfo n addr = some h) :
    ∀ hbuf : List Char, (connect_loop libc addr l hbuf false n).lookups ≤ n + 1 := by
  induction l with
  | nil =>
    intro hbuf
    simp [connect_loop]
  | cons e l ih =>
    intro hbuf
    unfold connect_loop
    by_cases hg : e.isGlob = true
    · simp only [hg, Bool.not_false, Bool.and_self, if_true, hres]
      split
      · simp
      · rw [connect_loop_done]
    · have hg2 : e.isGlob = false := by simpa using hg
      simp only [hg2, Bool.false_and, Bool.false_eq_true, if_false]
      split
      · simp only
        omega
      · exact ih hbuf

theorem globs_reached_glob (libc : Libc) (addr : sockaddr) (e : coc_entry)
    (l : List coc_entry) (hg : e.isGlob = true) :
    (globs_reached libc addr (e :: l)).length = (globs_reached libc addr l).length + 1 := by
  simp [globs_reached, List.takeWhile, List.filter, hg]

theorem globs_reached_match (libc : Libc) (addr : sockaddr) (e : coc_entry)
    (l : List coc_entry) (hg : e.isGlob = false)
    (hm : coc_rule_match libc e addr ['*'] = true) :
    (globs_reached libc addr (e :: l)).length = 0 := by
  simp [globs_reached, List.takeWhile, hg, hm]

theorem globs_reached_skip (libc : Libc) (addr : sockaddr) (e : coc_entry)
    (l : List coc_entry) (hg : e.isGlob = false)
    (hm : coc_rule_match libc e addr ['*'] = false) :
    (globs_reached libc addr (e :: l)).length = (globs_reached libc addr l).length := by
  simp [globs_reached, List.takeWhile, List.filter, hg, hm]

/-- The number of lookups is at most the number of Glob entries the loop comes
to. -/
theorem connect_loop_lookups_reached (libc : Libc) (addr : sockaddr) (l : List coc_entry) :
    ∀ n : Nat, (connect_loop libc addr l ['*'] false n).lookups ≤
      n + (globs_reached libc addr l).length := by
  induction l with
  | nil =>
    intro n
    simp [connect_loop]
  | cons e l ih =>
    intro n
    by_cases hg : e.isGlob = true
    · rw [globs_reached_glob libc addr e l hg, connect_loop]
      simp only [hg, Bool.not_false, Bool.and_self, if_true]
      cases hres : libc.getnameinfo n addr with
      | none =>
        have := ih (n + 1)
        simp only
        omega
      | some h =>
        simp only
        split
        · simp only
          omega
        · rw [connect_loop_done]
          simp only
          omega
    · have hg2 : e.isGlob = false := by simpa using hg
      rw [connect_loop]
      simp only [hg2, Bool.false_and, Bool.false_eq_true, if_false]
      by_cases hm : coc_rule_match libc e addr ['*'] = true
      · simp [hm]
      · have hm2 : coc_rule_match libc e addr ['*'] = false := by simpa using hm
        rw [globs_reached_skip libc addr e l hg2 hm2]
        simp only [hm2, Bool.false_eq_true, if_false]
        exact ih n

/-- A failed lookup is made again at the next Glob entry: when the calls
`n`, ..., `n + m - 1` fail, the loop makes at least `m + 1` calls, or one for
each Glob entry it comes to. -/
theorem connect_loop_lookups_retry (libc : Libc) (addr : sockaddr) (l : List coc_entry) :
    ∀ (n m : Nat), (∀ k, n ≤ k → k < n + m → libc.getnameinfo k addr = none) →
      n + min (m + 1) (globs_reached libc addr l).length ≤
        (connect_loop libc addr l ['*'] false n).lookups := by
  induction l with
  | nil =>
    intro n m _
    simp [connect_loop, globs_reached]
  | cons e l ih =>
    intro n m hfail
    by_cases hg : e.isGlob = true
    · rw [globs_reached_glob libc addr e l hg, connect_loop]
      simp only [hg, Bool.not_false, Bool.and_self, if_true]
      cases hres : libc.getnameinfo n addr with
      | none =>
        simp only
        cases m with
        | zero =>
          have := ih (n + 1) 0 (fun k h1 h2 => absurd h2 (by omega))
          omega
        | succ j =>
          have := ih (n + 1) j (fun k h1 h2 => hfail k (by omega) (by omega))
          omega
      | some h =>
        have hm0 : m = 0 := by
          by_contra hne
          have := hfail n (Nat.le_refl n) (by omega)
          rw [this] at hres
          exact absurd hres (by simp)
        subst hm0
        simp only
        split
        · simp only
          omega
        · rw [connect_loop_done]
          simp only
          omega
    · have hg2 : e.isGlob = false := by simpa using hg
      rw [connect_loop]
      simp only [hg2, Bool.false_and, Bool.false_eq_true, if_false]
      by_cases hm : coc_rule_match libc e addr ['*'] = true
      · rw [globs_reached_match libc addr e l hg2 hm]
        simp [hm]
      · have hm2 : coc_rule_match libc e addr ['*'] = false := by simpa using hm
        rw [globs_reached_skip libc addr e l hg2 hm2]
        simp only [hm2, Bool.false_eq_true, if_false]
        exact ih n m hfail

theorem globs_reached_all (libc : Libc) (addr : sockaddr) (l : List coc_entry)
    (hno : ∀ e ∈ l, e.isGlob = false → coc_rule_match libc e addr ['*'] = false) :
    globs_reached libc addr l = l.filter coc_entry.isGlob := by
  unfold globs_reached
  rw [List.takeWhile_eq_self_iff.2]
  intro e he
  cases hg : e.isGlob with
  | true => simp
  | false => simp [hno e he hg]

/-- C20, amended. During one connection attempt `getnameinfo` is invoked at
most once for each Glob entry of the store; it is not invoked when
`needs_dns_lookup` is false, and it is invoked at most once when its first
call succeeds, whatever the number of Glob entries. A failed lookup is
retried at the next Glob entry: with `needs_dns_lookup` set, when the first
`m` calls fail the attempt makes at least `m + 1` calls, or one for each Glob
entry the loop comes to (those before the first matching entry of kind IPv4
or IPv6); when every call fails it makes exactly one call for each of these
entries, hence one for each Glob entry of the store when no entry of kind
IPv4 or IPv6 matches. -/
theorem lookups_bound (libc : Libc) (st : coc_state) (addr : Option sockaddr) :
    (connect libc st addr).lookups ≤ (st.coc_list_head.filter coc_entry.isGlob).length ∧
    (st.needs_dns_lookup = false → (connect libc st addr).lookups = 0) ∧
    (∀ a h, addr = some a → libc.getnameinfo 0 a = some h →
      (connect libc st addr).lookups ≤ 1) ∧
    (∀ a m, addr = some a → st.initialized = true → a.isInet = true →
      st.needs_dns_lookup = true → (∀ k, k < m → libc.getnameinfo k a = none) →
      min (m + 1) (globs_reached libc a st.coc_list_head).length ≤
        (connect libc st addr).lookups) ∧
    (∀ a, addr = some a → st.initialized = true → a.isInet = true →
      st.needs_dns_lookup = true → (∀ k, libc.getnameinfo k a = none) →
      (connect libc st addr).lookups = (globs_reached libc a st.coc_list_head).length ∧
      ((∀ e ∈ st.coc_list_head, e.isGlob = false →
          coc_rule_match libc e a ['*'] = false) →
        (connect libc st addr).lookups =
          (st.coc_list_head.filter coc_entry.isGlob).length)) := by
  have hconn : ∀ a, addr = some a → st.initialized = true → a.isInet = true →
      st.needs_dns_lookup = true →
      connect libc st addr = connect_loop libc a st.coc_list_head ['*'] false 0 := by
    intro a ha hi hin hn
    subst ha
    simp [connect, hi, hin, hn]
  have hlow : ∀ a m, addr = some a → st.initialized = true → a.isInet = true →
      st.needs_dns_lookup = true → (∀ k, k < m → libc.getnameinfo k a = none) →
      min (m + 1) (globs_reached libc a st.coc_list_head).length ≤
        (connect libc st addr).lookups := by
    intro a m ha hi hin hn hfail
    rw [hconn a ha hi hin hn]
    have := connect_loop_lookups_retry libc a st.coc_list_head 0 m
      (fun k _ h2 => hfail k (by omega))
    omega
  refine ⟨?_, ?_, ?_, hlow, ?_⟩
  · cases addr with
    | none => simp [connect]
    | some a =>
      by_cases hi : st.initialized = true
      · by_cases hin : a.isInet = true
        · have := connect_loop_lookups_le libc a st.coc_list_head ['*']
            (!st.needs_dns_lookup) 0
          simpa [connect, hi, hin] using this
        · simp [connect, hin]
      · simp [connect, hi]
  · intro hn
    cases addr with
    | none => simp [connect]
    | some a =>
      by_cases hi : st.initialized = true
      · by_cases hin : a.isInet = true
        · simp [connect, hi, hin, hn, connect_loop_done]
        · simp [connect, hin]
      · simp [connect, hi]
  · intro a h ha hres
    subst ha
    by_cases hi : st.initialized = true
    · by_cases hin : a.isInet = true
      · cases hn : st.needs_dns_lookup with
        | true =>
          have := connect_loop_lookups_first libc a st.coc_list_head h 0 hres ['*']
          simpa [connect, hi, hin, hn] using this
        | false => simp [connect, hi, hin, hn, connect_loop_done]
      · simp [connect, hin]
    · simp [connect, hi]
  · intro a ha hi hin hn hfail
    have heq : (connect libc st addr).lookups =
        (globs_reached libc a st.coc_list_head).length := by
      have h1 := hlow a (globs_reached libc a st.coc_list_head).length ha hi hin hn
        (fun k _ => hfail k)
      have h2 := connect_loop_lookups_reached libc a st.coc_list_head 0
      rw [← hconn a ha hi hin hn] at h2
      omega
    refine ⟨heq, ?_⟩
    intro hno
    rw [heq, globs_reached_all libc a st.coc_list_head hno]

/-- Witness for C20, amended: the store of `COC_BLOCK="*;*.evil.com"`,
`COC_ALLOW="8.8.8.8"` with a reverse lookup that succeeds: one call; with a
reverse lookup that fails: one call for each of its two Glob entries. -/
theorem lookups_bound_witness :
    (libc_named "www.example.com".toList).getnameinfo 0 (.inet (htons 80) ⟨1, 2, 3, 4⟩) =
      some "www.example.com".toList ∧
    (connect (libc_named "www.example.com".toList) st_block_star
      (some (.inet (htons 80) ⟨1, 2, 3, 4⟩))).lookups ≤ 1 ∧
    (∀ k, libc_ref.getnameinfo k dest_1234_80 = none) ∧
    (globs_reached libc_ref dest_1234_80 st_block_star.coc_list_head).length = 2 ∧
    (connect libc_ref st_block_star (some dest_1234_80)).lookups =
      (globs_reached libc_ref dest_1234_80 st_block_star.coc_list_head).length :=
  ⟨rfl, (lookups_bound (libc_named "www.example.com".toList) st_block_star
      (some (.inet (htons 80) ⟨1, 2, 3, 4⟩))).2.2.1 _ _ rfl rfl,
   fun _ => rfl, by decide,
   ((lookups_bound libc_ref st_block_star (some dest_1234_80)).2.2.2.2 dest_1234_80
      rfl rfl rfl rfl (fun _ => rfl)).1⟩

/-- Counterexample to C20 as stated: in the store that start-up builds from
`COC_BLOCK="*;*.evil.com"` and `COC_ALLOW="8.8.8.8"`, with a reverse lookup
that fails, one connection attempt to 1.2.3.4 port 80 invokes `getnameinfo`
twice: the failed lookup is made again at the second Glob entry. -/
theorem lookups_bound_counterexample :
    coc_init libc_ref env_block_star coc_state.initial = .ok st_block_star ∧
    (∀ k a, libc_ref.getnameinfo k a = none) ∧
    (connect libc_ref st_block_star (some (.inet (htons 80) ⟨1, 2, 3, 4⟩))).lookups = 2 :=
  ⟨by decide, fun _ _ => rfl, by decide⟩

/-! ## Empty tokens -/

theorem fields_ne_nil (rules : List Char) : fields rules ≠ [] := by
  cases rules with
  | nil => simp [fields]
  | cons c cs =>
    unfold fields
    split
    · simp
    · split <;> simp

theorem intercalate_fields (rules : List Char) : [';'].intercalate (fields rules) = rules := by
  induction rules with
  | nil => simp [fields, List.intercalate, List.intersperse]
  | cons c cs ih =>
    unfold fields
    by_cases hc : c = ';'
    · rw [if_pos hc]
      cases hf : fields cs with
      | nil => exact absurd hf (fields_ne_nil cs)
      | cons g rest =>
        rw [intercalate_cons_cons, ← hf, ih, hc]
        rfl
    · rw [if_neg hc]
      cases hf : fields cs with
      | nil => exact absurd hf (fields_ne_nil cs)
      | cons f fs =>
        rw [hf] at ih
        simp only
        cases fs with
        | nil =>
          have h1 : [';'].intercalate [f] = f := by simp [List.intercalate, List.intersperse]
          have h2 : [';'].intercalate [c :: f] = c :: f := by
            simp [List.intercalate, List.intersperse]
          rw [h1] at ih
          rw [h2, ih]
        | cons g rest =>
          rw [intercalate_cons_cons] at ih
          rw [intercalate_cons_cons, List.cons_append, ih]

theorem fields_no_sep (rules : List Char) : ∀ f ∈ fields rules, ';' ∉ f := by
  induction rules with
  | nil =>
    intro f hf
    simp only [fields, List.mem_singleton] at hf
    subst hf
    simp
  | cons c cs ih =>
    intro f hf
    unfold fields at hf
    by_cases hc : c = ';'
    · rw [if_pos hc] at hf
      rcases List.mem_cons.1 hf with h | h
      · subst h
        simp
      · exact ih f h
    · rw [if_neg hc] at hf
      cases hcs : fields cs with
      | nil => exact absurd hcs (fields_ne_nil cs)
      | cons g gs =>
        rw [hcs] at hf ih
        simp only [List.mem_cons] at hf
        rcases hf with h | h
        · subst h
          intro hmem
          rcases List.mem_cons.1 hmem with h2 | h2
          · exact hc h2.symm
          · exact ih g (List.mem_cons_self _ _) h2
        · exact ih f (List.mem_cons_of_mem _ h)

theorem tokens_no_sep (rules : List Char) : ∀ t ∈ tokens rules, ';' ∉ t := by
  intro t ht
  exact fields_no_sep rules t (List.mem_of_mem_filter ht)

theorem tokens_filter (rules : List Char) :
    (tokens rules).filter (fun t => decide (t ≠ [])) = tokens rules := by
  unfold tokens
  rw [List.filter_filter]
  simp

/-- C18. For every rule-list string, empty tokens (a leading `;`, a trailing
`;`, consecutive `;;`) are never passed to the rule builder: `coc_rules_add`
applies `coc_rule_add` to the tokens that are not empty, from the last to
the first, and so leaves the same globals as on the list with all empty
tokens removed; an absent list and an empty list add no entry. -/
theorem empty_tokens_skipped (libc : Libc) (r : coc_rule_type) (rules : List Char)
    (st : coc_state) :
    rules_state (coc_rules_add libc (some rules) r st) =
      add_all libc r (tokens rules).reverse st ∧
    rules_state (coc_rules_add libc (some rules) r st) =
      rules_state (coc_rules_add libc (some ([';'].intercalate (tokens rules))) r st) ∧
    (∀ t ∈ tokens rules, t ≠ []) ∧
    coc_rules_add libc none r st = .ok (0, st) ∧
    coc_rules_add libc (some []) r st = .ok (0, st) := by
  have h1 : rules_state (coc_rules_add libc (some rules) r st) =
      add_all libc r (tokens rules).reverse st := by
    have := rules_state_intercalate libc r (fields rules) (fields_no_sep rules) st
    rw [intercalate_fields] at this
    exact this
  refine ⟨h1, ?_, ?_, rfl, rfl⟩
  · rw [h1, rules_state_intercalate libc r (tokens rules) (tokens_no_sep rules) st,
      tokens_filter]
  · intro t ht
    have := (List.mem_filter.1 ht).2
    simpa using this

theorem tokens_example :
    tokens ";1.2.3.4;;5.6.7.8;".toList = ["1.2.3.4".toList, "5.6.7.8".toList] := by
  decide

/-! ## The consistency check of `coc_init` -/

theorem dns_entry_allowed_iff (dns : List coc_resolver) (e : coc_entry) :
    dns_entry_allowed dns e = true ↔ ns_allowed dns e := by
  obtain ⟨ea, ep, er⟩ := e
  cases ea with
  | ipv4 a =>
    simp only [dns_entry_allowed, ns_allowed, coc_entry.isGlob, Bool.and_eq_true,
      decide_eq_true_eq, Bool.not_false, Bool.or_eq_true, isZero_iff, List.any_eq_true,
      and_true, coc_addr.ipv4.injEq, exists_eq_left', false_and, exists_false, or_false,
      and_assoc]
    constructor
    · rintro ⟨h1, h2, d, hd, hm⟩
      refine ⟨h1, h2, ?_⟩
      cases d with
      | v4 b =>
        simp only [decide_eq_true_eq] at hm
        subst hm
        exact Or.inl hd
      | v6 b => simp at hm
    · rintro ⟨h1, h2, hd | ⟨b, hb, -⟩⟩
      · exact ⟨h1, h2, .v4 a, hd, by simp⟩
      · exact absurd hb (by simp)
  | ipv6 a =>
    simp only [dns_entry_allowed, ns_allowed, coc_entry.isGlob, Bool.and_eq_true,
      decide_eq_true_eq, Bool.not_false, Bool.or_eq_true, isZero_iff, List.any_eq_true,
      and_true, coc_addr.ipv6.injEq, exists_eq_left', false_and, exists_false, false_or,
      and_assoc]
    constructor
    · rintro ⟨h1, h2, d, hd, hm⟩
      refine ⟨h1, h2, ?_⟩
      cases d with
      | v4 b => simp at hm
      | v6 b =>
        simp only [IN6_ARE_ADDR_EQUAL, decide_eq_true_eq] at hm
        subst hm
        exact Or.inr hd
    · rintro ⟨h1, h2, ⟨b, hb, -⟩ | hd⟩
      · exact absurd hb (by simp)
      · exact ⟨h1, h2, .v6 a, hd, by simp [IN6_ARE_ADDR_EQUAL]⟩
  | glob g =>
    simp [dns_entry_allowed, ns_allowed, coc_entry.isGlob]

theorem any_dns_entry_allowed (dns : List coc_resolver) (l : List coc_entry) :
    l.any (dns_entry_allowed dns) = true ↔ ∃ e ∈ l, ns_allowed dns e := by
  simp only [List.any_eq_true, dns_entry_allowed_iff]

theorem coc_init_needs_dns (libc : Libc) (env : coc_environ) (st st1 st2 : coc_state)
    (n1 n2 : Nat)
    (hb : coc_rules_add libc env.COC_BLOCK COC_BLOCK { st with coc_list_head := [] } =
      .ok (n1, st1))
    (ha : coc_rules_add libc env.COC_ALLOW COC_ALLOW st1 = .ok (n2, st2))
    (hn : st2.needs_dns_lookup = true) :
    coc_init libc env st =
      if env.COC_ALLOW ≠ none ∧ env.COC_BLOCK = none then .error .glob_allow_without_block
      else
        match coc_read_resolv libc env.resolv_conf with
        | .error e => .error e
        | .ok dns =>
          if st2.coc_list_head.any (dns_entry_allowed dns) then
            .ok { st2 with initialized := true }
          else .error .no_dns_allowed := by
  unfold coc_init
  simp only [hb, ha, hn, and_true, if_true]

theorem glob_rules_add (libc : Libc) (st : coc_state) :
    coc_rules_add libc (some "*.example.com".toList) COC_ALLOW st =
      .ok (1, ⟨example_glob_entry COC_ALLOW :: st.coc_list_head, true, st.initialized⟩) := by
  rfl

theorem glob_not_ns_allowed (dns : List coc_resolver) (g : List Char) (p : in_port_t)
    (r : coc_rule_type) : ¬ ns_allowed dns ⟨.glob g, p, r⟩ := by
  rintro ⟨-, -, ⟨a, ha, -⟩ | ⟨a, ha, -⟩⟩ <;> exact absurd ha (by simp)

/-- C16. Whenever a glob rule other than the universal `*` has been
registered (both lists build and `needs_dns_lookup` is set) and no Allow
entry of kind IPv4 or IPv6 with port wildcard or 53 has an address equal to
one of the name-server addresses read from the resolver configuration,
`coc_init` fails; in particular it fails when `COC_BLOCK` is empty or absent
and `COC_ALLOW` is `*.example.com`, whatever the resolver configuration. -/
theorem init_fails_without_dns (libc : Libc) (env : coc_environ) (st : coc_state) :
    (∀ (n1 n2 : Nat) (st1 st2 : coc_state),
      coc_rules_add libc env.COC_BLOCK COC_BLOCK { st with coc_list_head := [] } =
        .ok (n1, st1) →
      coc_rules_add libc env.COC_ALLOW COC_ALLOW st1 = .ok (n2, st2) →
      st2.needs_dns_lookup = true →
      (∀ dns, coc_read_resolv libc env.resolv_conf = .ok dns →
        ∀ e ∈ st2.coc_list_head, ¬ ns_allowed dns e) →
      ∃ err, coc_init libc env st = .error err) ∧
    ((env.COC_BLOCK = none ∨ env.COC_BLOCK = some []) →
      env.COC_ALLOW = some "*.example.com".toList →
      ∃ err, coc_init libc env st = .error err) := by
  have part1 : ∀ (n1 n2 : Nat) (st1 st2 : coc_state),
      coc_rules_add libc env.COC_BLOCK COC_BLOCK { st with coc_list_head := [] } =
        .ok (n1, st1) →
      coc_rules_add libc env.COC_ALLOW COC_ALLOW st1 = .ok (n2, st2) →
      st2.needs_dns_lookup = true →
      (∀ dns, coc_read_resolv libc env.resolv_conf = .ok dns →
        ∀ e ∈ st2.coc_list_head, ¬ ns_allowed dns e) →
      ∃ err, coc_init libc env st = .error err := by
    intro n1 n2 st1 st2 hb ha hn hno
    rw [coc_init_needs_dns libc env st st1 st2 n1 n2 hb ha hn]
    by_cases hg : env.COC_ALLOW ≠ none ∧ env.COC_BLOCK = none
    · rw [if_pos hg]
      exact ⟨_, rfl⟩
    · rw [if_neg hg]
      cases hr : coc_read_resolv libc env.resolv_conf with
      | error e => exact ⟨e, rfl⟩
      | ok dns =>
        have hany : ¬ (st2.coc_list_head.any (dns_entry_allowed dns) = true) := by
          rw [any_dns_entry_allowed]
          rintro ⟨e, he, hal⟩
          exact hno dns hr e he hal
        simp only [if_neg hany]
        exact ⟨_, rfl⟩
  refine ⟨part1, ?_⟩
  intro hblock hallow
  have hb : coc_rules_add libc env.COC_BLOCK COC_BLOCK { st with coc_list_head := [] } =
      .ok (0, { st with coc_list_head := [] }) := by
    rcases hblock with h | h <;> rw [h] <;> rfl
  have ha : coc_rules_add libc env.COC_ALLOW COC_ALLOW { st with coc_list_head := [] } =
      .ok (1, ⟨[example_glob_entry COC_ALLOW], true, st.initialized⟩) := by
    rw [hallow]
    exact glob_rules_add libc _
  refine part1 0 1 _ _ hb ha rfl ?_
  intro dns _ e he
  simp only [List.mem_singleton] at he
  subst he
  exact glob_not_ns_allowed dns _ _ _

/-- Witness for C16: `COC_ALLOW="*.example.com"` with `COC_BLOCK` empty, and
with `COC_BLOCK` absent. -/
theorem init_fails_without_dns_witness :
    env_glob_only.COC_BLOCK = some [] ∧
    env_glob_only.COC_ALLOW = some "*.example.com".toList ∧
    (∃ err, coc_init libc_ref env_glob_only coc_state.initial = .error err) ∧
    coc_init libc_ref env_glob_only coc_state.initial = .error .no_dns_allowed :=
  ⟨rfl, rfl,
   (init_fails_without_dns libc_ref env_glob_only coc_state.initial).2 (Or.inr rfl) rfl,
   by decide⟩

/-- C17, amended. Whenever a glob rule other than the universal `*` has been
registered (both lists build and `needs_dns_lookup` is set) and the resolver
configuration is read, `coc_init` succeeds if and only if it is not the case
that `COC_ALLOW` is set while `COC_BLOCK` is unset, and at least one Allow
entry of kind IPv4 or IPv6 has an address equal to a name-server address of
the same family and a port that is the wildcard or 53; it then leaves the
globals built, with `initialized` set. -/
theorem init_succeeds_with_dns (libc : Libc) (env : coc_environ) (st st1 st2 : coc_state)
    (n1 n2 : Nat) (dns : List coc_resolver)
    (hb : coc_rules_add libc env.COC_BLOCK COC_BLOCK { st with coc_list_head := [] } =
      .ok (n1, st1))
    (ha : coc_rules_add libc env.COC_ALLOW COC_ALLOW st1 = .ok (n2, st2))
    (hn : st2.needs_dns_lookup = true)
    (hdns : coc_read_resolv libc env.resolv_conf = .ok dns) :
    ((∃ st3, coc_init libc env st = .ok st3) ↔
      (¬ (env.COC_ALLOW ≠ none ∧ env.COC_BLOCK = none) ∧
        ∃ e ∈ st2.coc_list_head, ns_allowed dns e)) ∧
    (¬ (env.COC_ALLOW ≠ none ∧ env.COC_BLOCK = none) →
      (∃ e ∈ st2.coc_list_head, ns_allowed dns e) →
      coc_init libc env st = .ok { st2 with initialized := true }) := by
  have hinit := coc_init_needs_dns libc env st st1 st2 n1 n2 hb ha hn
  rw [hdns] at hinit
  simp only at hinit
  have hok : ¬ (env.COC_ALLOW ≠ none ∧ env.COC_BLOCK = none) →
      (∃ e ∈ st2.coc_list_head, ns_allowed dns e) →
      coc_init libc env st = .ok { st2 with initialized := true } := by
    intro hg hex
    rw [hinit, if_neg hg, if_pos ((any_dns_entry_allowed dns _).2 hex)]
  refine ⟨⟨?_, fun h => ⟨_, hok h.1 h.2⟩⟩, hok⟩
  rintro ⟨st3, h3⟩
  rw [hinit] at h3
  by_cases hg : env.COC_ALLOW ≠ none ∧ env.COC_BLOCK = none
  · rw [if_pos hg] at h3
    exact absurd h3 (by simp)
  · rw [if_neg hg] at h3
    by_cases hany : st2.coc_list_head.any (dns_entry_allowed dns) = true
    · exact ⟨hg, (any_dns_entry_allowed dns _).1 hany⟩
    · rw [if_neg hany] at h3
      exact absurd h3 (by simp)

/-- Witness for C17, amended: `COC_BLOCK="*"` and
`COC_ALLOW="*.example.com:443;8.8.8.8"` with the name server 8.8.8.8. -/
theorem init_succeeds_with_dns_witness :
    coc_read_resolv libc_ref env_glob.resolv_conf = .ok [.v4 ⟨8, 8, 8, 8⟩] ∧
    ns_allowed [.v4 ⟨8, 8, 8, 8⟩] (ipv4_entry ⟨8, 8, 8, 8⟩ COC_ALLOW) ∧
    coc_init libc_ref env_glob coc_state.initial = .ok st_glob :=
  ⟨by decide, ⟨rfl, Or.inl rfl, Or.inl ⟨_, rfl, by simp⟩⟩,
   (init_succeeds_with_dns libc_ref env_glob coc_state.initial
      (SLIST_INSERT_HEAD coc_state.initial (star_entry COC_BLOCK))
      { st_glob with initialized := false } 1 2 [.v4 ⟨8, 8, 8, 8⟩]
      (by decide) (by decide) rfl (by decide)).2
     (by decide)
     ⟨ipv4_entry ⟨8, 8, 8, 8⟩ COC_ALLOW, by simp [st_glob, ipv4_entry],
      ⟨rfl, Or.inl rfl, Or.inl ⟨_, rfl, by simp⟩⟩⟩⟩

/-- Counterexample to C17 as stated: with `COC_ALLOW="*.example.com;8.8.8.8"`,
`COC_BLOCK` unset and the name server 8.8.8.8, both lists build, a glob rule
other than `*` is registered and the Allow entry 8.8.8.8 with the wildcard
port is the configured name server; yet `coc_init` fails. -/
theorem init_succeeds_with_dns_counterexample :
    coc_rules_add libc_ref env_allow_only.COC_BLOCK COC_BLOCK coc_state.initial =
      .ok (0, coc_state.initial) ∧
    coc_rules_add libc_ref env_allow_only.COC_ALLOW COC_ALLOW coc_state.initial =
      .ok (2, ⟨[example_glob_entry COC_ALLOW, ipv4_entry ⟨8, 8, 8, 8⟩ COC_ALLOW],
        true, false⟩) ∧
    coc_read_resolv libc_ref env_allow_only.resolv_conf = .ok [.v4 ⟨8, 8, 8, 8⟩] ∧
    ns_allowed [.v4 ⟨8, 8, 8, 8⟩] (ipv4_entry ⟨8, 8, 8, 8⟩ COC_ALLOW) ∧
    coc_init libc_ref env_allow_only coc_state.initial = .error .glob_allow_without_block :=
  ⟨by decide, by decide, by decide, ⟨rfl, Or.inl rfl, Or.inl ⟨_, rfl, by simp⟩⟩, by decide⟩

/-! ## Invariants of the scan -/

theorem scan_char_eq (p : Nat) (c : Char) (s : scan_state) :
    scan_char p c s =
      if c = '*' then scan_star s
      else if c = '[' then scan_open p s
      else if c = ']' then scan_close s
      else if c = ':' then scan_colon p s
      else if c = '.' then scan_dot s
      else if isdigit c then scan_digit c s
      else if isxdigit c then scan_xdigit s
      else if isalnum c then scan_alnum c s
      else if c = '-' ∨ c = '_' then scan_dash p c s
      else .error (.char_unexpected_here c) := by
  rfl

/-- The branch for `:` without its local definitions. -/
theorem scan_colon_eq (p : Nat) (s : scan_state) :
    scan_colon p s =
      if s.colon_count + 1 > 1 then
        if s.type &&& COC_IPV6_ADDR = COC_IPV6_ADDR then
          if (s.sb = IPV6_SB_OPEN ∧ s.colon_count + 1 > 7) ∨ s.colon_count + 1 > 8 then
            .error .extra_colon
          else if s.colon_count + 1 = 8 ∨ s.sb = IPV6_SB_CLOSE then
            .ok (⟨COC_IPV6_ADDR, some (p + 1), s.sb, s.colon_count + 1, s.ipv4_segment,
              s.segment⟩, true)
          else
            .ok (⟨COC_IPV6_ADDR, none, s.sb, s.colon_count + 1, s.ipv4_segment,
              s.segment⟩, false)
        else .error .extra_colon
      else if p ≠ 0 ∧ s.type &&& COC_IPV4_ADDR = COC_IPV4_ADDR then
        .ok (⟨COC_IPV4_ADDR, some (p + 1), s.sb, s.colon_count + 1, s.ipv4_segment,
          s.segment⟩, decide (s.ipv4_segment = 4))
      else
        .ok (⟨s.type, some (p + 1), s.sb, s.colon_count + 1, s.ipv4_segment, s.segment⟩,
          false) := by
  unfold scan_colon
  dsimp only
  by_cases h1 : s.colon_count + 1 > 1
  · rw [if_pos h1, if_pos h1]
    by_cases h2 : s.type &&& COC_IPV6_ADDR = COC_IPV6_ADDR
    · rw [if_pos h2, if_pos h2]
      dsimp only
      simp only [ne_eq, not_true_eq_false, false_or]
    · rw [if_neg h2, if_neg h2]
      dsimp only
      have h3 : s.type ≠ COC_IPV6_ADDR := by
        intro h
        rw [h] at h2
        exact h2 (by decide)
      rw [if_pos (Or.inl h3)]
  · rw [if_neg h1, if_neg h1]
    by_cases h2 : p ≠ 0 ∧ s.type &&& COC_IPV4_ADDR = COC_IPV4_ADDR
    · rw [if_pos h2, if_pos h2]
      by_cases h3 : s.ipv4_segment = 4
      · rw [if_pos h3]
        simp [h3]
      · rw [if_neg h3]
        simp [h3]
    · rw [if_neg h2, if_neg h2]

theorem scan_star_spec (s s1 : scan_state) (b : Bool) (h : scan_star s = .ok (s1, b)) :
    b = false ∧ s1.service = s.service ∧ s1.sb = s.sb ∧ s1.colon_count = s.colon_count ∧
      s1.type = COC_GLOB_ADDR ∧ s.type ≠ COC_IPV6_ADDR := by
  unfold scan_star at h
  split_ifs at h with h1
  simp only [Except.ok.injEq, Prod.mk.injEq] at h
  obtain ⟨rfl, rfl⟩ := h
  refine ⟨rfl, rfl, rfl, rfl, rfl, ?_⟩
  intro hs
  rw [hs] at h1
  exact h1 (by decide)

theorem scan_open_spec (p : Nat) (s s1 : scan_state) (b : Bool)
    (h : scan_open p s = .ok (s1, b)) :
    b = false ∧ p = 0 ∧ s1.service = s.service ∧ s1.sb = IPV6_SB_OPEN ∧
      s1.colon_count = s.colon_count ∧ s1.type = COC_IPV6_ADDR := by
  unfold scan_open at h
  split_ifs at h with h1
  simp only [Except.ok.injEq, Prod.mk.injEq] at h
  obtain ⟨rfl, rfl⟩ := h
  exact ⟨rfl, h1, rfl, rfl, rfl, rfl⟩

theorem scan_close_spec (s s1 : scan_state) (b : Bool) (h : scan_close s = .ok (s1, b)) :
    b = false ∧ s.type = COC_IPV6_ADDR ∧ s.sb = IPV6_SB_OPEN ∧ s1.service = s.service ∧
      s1.sb = IPV6_SB_CLOSE ∧ s1.colon_count = s.colon_count ∧ s1.type = COC_IPV6_ADDR := by
  unfold scan_close at h
  split_ifs at h with h1
  simp only [Except.ok.injEq, Prod.mk.injEq] at h
  obtain ⟨rfl, rfl⟩ := h
  exact ⟨rfl, h1.1, h1.2, rfl, rfl, rfl, h1.1⟩

theorem scan_dot_spec (s s1 : scan_state) (b : Bool) (h : scan_dot s = .ok (s1, b)) :
    b = false ∧ s1.service = s.service ∧ s1.sb = s.sb ∧ s1.colon_count = s.colon_count ∧
      s.type ≠ COC_IPV6_ADDR ∧ (s.type = COC_GLOB_ADDR → s1.type = COC_GLOB_ADDR) := by
  unfold scan_dot at h
  dsimp only at h
  split_ifs at h with h1 h2 h3
  · simp only [Except.ok.injEq, Prod.mk.injEq] at h
    obtain ⟨rfl, rfl⟩ := h
    refine ⟨rfl, rfl, rfl, rfl, h1, ?_⟩
    intro hs
    simp only [hs]
    decide
  · simp only [Except.ok.injEq, Prod.mk.injEq] at h
    obtain ⟨rfl, rfl⟩ := h
    refine ⟨rfl, rfl, rfl, rfl, h1, ?_⟩
    intro hs
    simp only [hs]
    decide

theorem scan_digit_spec (c : Char) (s s1 : scan_state) (b : Bool)
    (h : scan_digit c s = .ok (s1, b)) :
    b = false ∧ s1.service = s.service ∧ s1.sb = s.sb ∧ s1.colon_count = s.colon_count ∧
      (s.type = COC_IPV6_ADDR → s1.type = COC_IPV6_ADDR) ∧
      (s.type = COC_GLOB_ADDR → s1.type = COC_GLOB_ADDR) := by
  unfold scan_digit at h
  dsimp only at h
  split_ifs at h with h1 h2 h3 h4
  · simp only [Except.ok.injEq, Prod.mk.injEq] at h
    obtain ⟨rfl, rfl⟩ := h
    refine ⟨rfl, rfl, rfl, rfl, ?_, ?_⟩ <;> intro hs <;> rw [hs] at h1 <;>
      exact absurd h1 (by decide)
  · simp only [Except.ok.injEq, Prod.mk.injEq] at h
    obtain ⟨rfl, rfl⟩ := h
    exact ⟨rfl, rfl, rfl, rfl, fun hs => hs, fun hs => hs⟩
  · simp only [Except.ok.injEq, Prod.mk.injEq] at h
    obtain ⟨rfl, rfl⟩ := h
    exact ⟨rfl, rfl, rfl, rfl, fun hs => hs, fun hs => hs⟩

theorem scan_xdigit_spec (s s1 : scan_state) (b : Bool) (h : scan_xdigit s = .ok (s1, b)) :
    b = false ∧ s1.service = s.service ∧ s1.sb = s.sb ∧ s1.colon_count = s.colon_count ∧
      (s.type = COC_IPV6_ADDR → s1.type = COC_IPV6_ADDR) ∧
      (s.type = COC_GLOB_ADDR → s1.type = COC_GLOB_ADDR) := by
  unfold scan_xdigit at h
  split_ifs at h with h1
  simp only [Except.ok.injEq, Prod.mk.injEq] at h
  obtain ⟨rfl, rfl⟩ := h
  refine ⟨rfl, rfl, rfl, rfl, ?_, ?_⟩ <;> intro hs <;> simp only [hs] <;> decide

theorem scan_alnum_spec (c : Char) (s s1 : scan_state) (b : Bool)
    (h : scan_alnum c s = .ok (s1, b)) :
    b = false ∧ s1.service = s.service ∧ s1.sb = s.sb ∧ s1.colon_count = s.colon_count ∧
      s.type ≠ COC_IPV6_ADDR ∧ (s.type = COC_GLOB_ADDR → s1.type = COC_GLOB_ADDR) := by
  unfold scan_alnum at h
  split_ifs at h with h1
  simp only [Except.ok.injEq, Prod.mk.injEq] at h
  obtain ⟨rfl, rfl⟩ := h
  refine ⟨rfl, rfl, rfl, rfl, ?_, ?_⟩
  · intro hs
    rw [hs] at h1
    exact h1 (by decide)
  · intro hs
    simp only [hs]
    decide

theorem scan_dash_spec (p : Nat) (c : Char) (s s1 : scan_state) (b : Bool)
    (h : scan_dash p c s = .ok (s1, b)) :
    b = false ∧ s1.service = s.service ∧ s1.sb = s.sb ∧ s1.colon_count = s.colon_count ∧
      s.type ≠ COC_IPV6_ADDR ∧ (s.type = COC_GLOB_ADDR → s1.type = COC_GLOB_ADDR) := by
  unfold scan_dash at h
  split_ifs at h with h1
  simp only [Except.ok.injEq, Prod.mk.injEq] at h
  obtain ⟨rfl, rfl⟩ := h
  refine ⟨rfl, rfl, rfl, rfl, ?_, ?_⟩
  · intro hs
    rw [hs] at h1
    exact h1 (Or.inl (by decide))
  · intro hs
    simp only [hs]
    decide

theorem scan_colon_spec (p : Nat) (s s1 : scan_state) (b : Bool)
    (h : scan_colon p s = .ok (s1, b)) :
    s1.sb = s.sb ∧ s1.colon_count = s.colon_count + 1 ∧
      (s.type = COC_IPV6_ADDR → s1.type = COC_IPV6_ADDR) ∧
      (s.type = COC_GLOB_ADDR → s1.type = COC_GLOB_ADDR) ∧
      (s1.service = some (p + 1) ∨ (s1.service = none ∧ b = false)) ∧
      (b = true → s1.service = some (p + 1)) := by
  rw [scan_colon_eq] at h
  split_ifs at h with h1 h2 h3 h4 h5
  · simp only [Except.ok.injEq, Prod.mk.injEq] at h
    obtain ⟨rfl, rfl⟩ := h
    refine ⟨rfl, rfl, fun _ => rfl, ?_, Or.inl rfl, fun _ => rfl⟩
    intro hs
    rw [hs] at h2
    exact absurd h2 (by decide)
  · simp only [Except.ok.injEq, Prod.mk.injEq] at h
    obtain ⟨rfl, rfl⟩ := h
    refine ⟨rfl, rfl, fun _ => rfl, ?_, Or.inr ⟨rfl, rfl⟩, fun hb => absurd hb (by decide)⟩
    intro hs
    rw [hs] at h2
    exact absurd h2 (by decide)
  · simp only [Except.ok.injEq, Prod.mk.injEq] at h
    obtain ⟨rfl, rfl⟩ := h
    refine ⟨rfl, rfl, ?_, ?_, Or.inl rfl, fun _ => rfl⟩ <;> intro hs <;> rw [hs] at h5 <;>
      exact absurd h5.2 (by decide)
  · simp only [Except.ok.injEq, Prod.mk.injEq] at h
    obtain ⟨rfl, rfl⟩ := h
    exact ⟨rfl, rfl, fun hs => hs, fun hs => hs, Or.inl rfl, fun hb => absurd hb (by decide)⟩

/-- What one turn of the scanning loop does to the candidate kinds, the
bracket state and `service`. -/
theorem scan_char_step (p : Nat) (c : Char) (s s1 : scan_state) (b : Bool)
    (h : scan_char p c s = .ok (s1, b)) :
    (s.type = COC_IPV6_ADDR → s1.type = COC_IPV6_ADDR) ∧
    (1 ≤ p → s.type = COC_GLOB_ADDR → s1.type = COC_GLOB_ADDR) ∧
    (c = '*' → s1.type = COC_GLOB_ADDR) ∧
    ((s.sb ≠ IPV6_SB_NONE → s.type = COC_IPV6_ADDR) →
      (s1.sb ≠ IPV6_SB_NONE → s1.type = COC_IPV6_ADDR)) ∧
    (s1.service = s.service ∨ s1.service = none ∨ (s1.service = some (p + 1) ∧ c = ':')) ∧
    (b = true → s1.service = some (p + 1) ∧ c = ':') := by
  rw [scan_char_eq] at h
  split_ifs at h with c1 c2 c3 c4 c5 c6 c7 c8 c9
  · obtain ⟨hb, hsv, hsb, -, hty, hne⟩ := scan_star_spec s s1 b h
    refine ⟨fun hs => absurd hs hne, fun _ _ => hty, fun _ => hty, ?_, Or.inl hsv, ?_⟩
    · intro hJ h1
      rw [hsb] at h1
      exact absurd (hJ h1) hne
    · intro hb2
      rw [hb] at hb2
      exact absurd hb2 (by decide)
  · obtain ⟨hb, hp, hsv, hsb, -, hty⟩ := scan_open_spec p s s1 b h
    refine ⟨fun _ => hty, fun h1 => by omega, fun hc => absurd hc c1, fun _ _ => hty,
      Or.inl hsv, ?_⟩
    intro hb2
    rw [hb] at hb2
    exact absurd hb2 (by decide)
  · obtain ⟨hb, -, -, hsv, -, -, hty⟩ := scan_close_spec s s1 b h
    refine ⟨fun _ => hty, ?_, fun hc => absurd hc c1, fun _ _ => hty, Or.inl hsv, ?_⟩
    · intro _ hs
      rw [hty]
      obtain ⟨-, h2, -⟩ := scan_close_spec s s1 b h
      rw [h2] at hs
      exact absurd hs (by decide)
    · intro hb2
      rw [hb] at hb2
      exact absurd hb2 (by decide)
  · obtain ⟨hsb, -, h6, h4, hsv, hbrk⟩ := scan_colon_spec p s s1 b h
    refine ⟨h6, fun _ => h4, fun hc => absurd hc c1, ?_, ?_, fun hb => ⟨hbrk hb, c4⟩⟩
    · intro hJ h1
      rw [hsb] at h1
      exact h6 (hJ h1)
    · rcases hsv with hsv | ⟨hsv, -⟩
      · exact Or.inr (Or.inr ⟨hsv, c4⟩)
      · exact Or.inr (Or.inl hsv)
  · obtain ⟨hb, hsv, hsb, -, hne, h4⟩ := scan_dot_spec s s1 b h
    refine ⟨fun hs => absurd hs hne, fun _ => h4, fun hc => absurd hc c1, ?_, Or.inl hsv, ?_⟩
    · intro hJ h1
      rw [hsb] at h1
      exact absurd (hJ h1) hne
    · intro hb2
      rw [hb] at hb2
      exact absurd hb2 (by decide)
  · obtain ⟨hb, hsv, hsb, -, h6, h4⟩ := scan_digit_spec c s s1 b h
    refine ⟨h6, fun _ => h4, fun hc => absurd hc c1, ?_, Or.inl hsv, ?_⟩
    · intro hJ h1
      rw [hsb] at h1
      exact h6 (hJ h1)
    · intro hb2
      rw [hb] at hb2
      exact absurd hb2 (by decide)
  · obtain ⟨hb, hsv, hsb, -, h6, h4⟩ := scan_xdigit_spec s s1 b h
    refine ⟨h6, fun _ => h4, fun hc => absurd hc c1, ?_, Or.inl hsv, ?_⟩
    · intro hJ h1
      rw [hsb] at h1
      exact h6 (hJ h1)
    · intro hb2
      rw [hb] at hb2
      exact absurd hb2 (by decide)
  · obtain ⟨hb, hsv, hsb, -, hne, h4⟩ := scan_alnum_spec c s s1 b h
    refine ⟨fun hs => absurd hs hne, fun _ => h4, fun hc => absurd hc c1, ?_, Or.inl hsv, ?_⟩
    · intro hJ h1
      rw [hsb] at h1
      exact absurd (hJ h1) hne
    · intro hb2
      rw [hb] at hb2
      exact absurd hb2 (by decide)
  · obtain ⟨hb, hsv, hsb, -, hne, h4⟩ := scan_dash_spec p c s s1 b h
    refine ⟨fun hs => absurd hs hne, fun _ => h4, fun hc => absurd hc c1, ?_, Or.inl hsv, ?_⟩
    · intro hJ h1
      rw [hsb] at h1
      exact absurd (hJ h1) hne
    · intro hb2
      rw [hb] at hb2
      exact absurd hb2 (by decide)

theorem scan_loop_cons (c : Char) (cs : List Char) (p : Nat) (s s2 : scan_state)
    (h : scan_loop (c :: cs) p s = .ok s2) :
    ∃ s1 b, scan_char p c s = .ok (s1, b) ∧
      ((b = true ∧ s2 = s1) ∨ (b = false ∧ scan_loop cs (p + 1) s1 = .ok s2)) := by
  rw [scan_loop] at h
  cases hc : scan_char p c s with
  | error e =>
    rw [hc] at h
    exact absurd h (by simp)
  | ok x =>
    obtain ⟨s1, b⟩ := x
    rw [hc] at h
    refine ⟨s1, b, rfl, ?_⟩
    cases b with
    | true =>
      simp only [Except.ok.injEq] at h
      exact Or.inl ⟨rfl, h.symm⟩
    | false => exact Or.inr ⟨rfl, h⟩

theorem scan_loop_type_ipv6 (cs : List Char) :
    ∀ (p : Nat) (s s2 : scan_state), s.type = COC_IPV6_ADDR →
      scan_loop cs p s = .ok s2 → s2.type = COC_IPV6_ADDR := by
  induction cs with
  | nil =>
    intro p s s2 hs h
    simp only [scan_loop, Except.ok.injEq] at h
    rw [← h]
    exact hs
  | cons c cs ih =>
    intro p s s2 hs h
    obtain ⟨s1, b, hc, hr⟩ := scan_loop_cons c cs p s s2 h
    have h1 := (scan_char_step p c s s1 b hc).1 hs
    rcases hr with ⟨-, rfl⟩ | ⟨-, hr⟩
    · exact h1
    · exact ih _ _ _ h1 hr

theorem scan_loop_type_glob (cs : List Char) :
    ∀ (p : Nat) (s s2 : scan_state), 1 ≤ p → s.type = COC_GLOB_ADDR →
      scan_loop cs p s = .ok s2 → s2.type = COC_GLOB_ADDR := by
  induction cs with
  | nil =>
    intro p s s2 _ hs h
    simp only [scan_loop, Except.ok.injEq] at h
    rw [← h]
    exact hs
  | cons c cs ih =>
    intro p s s2 hp hs h
    obtain ⟨s1, b, hc, hr⟩ := scan_loop_cons c cs p s s2 h
    have h1 := (scan_char_step p c s s1 b hc).2.1 hp hs
    rcases hr with ⟨-, rfl⟩ | ⟨-, hr⟩
    · exact h1
    · exact ih _ _ _ (by omega) h1 hr

theorem scan_loop_sb (cs : List Char) :
    ∀ (p : Nat) (s s2 : scan_state), (s.sb ≠ IPV6_SB_NONE → s.type = COC_IPV6_ADDR) →
      scan_loop cs p s = .ok s2 → (s2.sb ≠ IPV6_SB_NONE → s2.type = COC_IPV6_ADDR) := by
  induction cs with
  | nil =>
    intro p s s2 hs h
    simp only [scan_loop, Except.ok.injEq] at h
    rw [← h]
    exact hs
  | cons c cs ih =>
    intro p s s2 hs h
    obtain ⟨s1, b, hc, hr⟩ := scan_loop_cons c cs p s s2 h
    have h1 := (scan_char_step p c s s1 b hc).2.2.2.1 hs
    rcases hr with ⟨-, rfl⟩ | ⟨-, hr⟩
    · exact h1
    · exact ih _ _ _ h1 hr

theorem scan_loop_service (full : List Char) (cs : List Char) :
    ∀ (p : Nat) (s s2 : scan_state), full.drop p = cs →
      (∀ i, s.service = some i → 1 ≤ i ∧ i ≤ full.length ∧ full[i - 1]? = some ':') →
      scan_loop cs p s = .ok s2 →
      (∀ i, s2.service = some i → 1 ≤ i ∧ i ≤ full.length ∧ full[i - 1]? = some ':') := by
  induction cs with
  | nil =>
    intro p s s2 _ hs h
    simp only [scan_loop, Except.ok.injEq] at h
    rw [← h]
    exact hs
  | cons c cs ih =>
    intro p s s2 hfull hs h
    obtain ⟨s1, b, hc, hr⟩ := scan_loop_cons c cs p s s2 h
    have hp : p < full.length := by
      by_contra hlt
      rw [List.drop_eq_nil_of_le (by omega)] at hfull
      exact absurd hfull (by simp)
    have hget : full[p]? = some c := by
      have := List.getElem?_drop full p 0
      rw [hfull] at this
      simpa using this.symm
    have hdrop : full.drop (p + 1) = cs := by
      have := congrArg List.tail hfull
      simpa using this
    have h1 : ∀ i, s1.service = some i →
        1 ≤ i ∧ i ≤ full.length ∧ full[i - 1]? = some ':' := by
      intro i hi
      rcases (scan_char_step p c s s1 b hc).2.2.2.2.1 with hsv | hsv | ⟨hsv, hcc⟩
      · rw [hsv] at hi
        exact hs i hi
      · rw [hsv] at hi
        exact absurd hi (by simp)
      · rw [hsv] at hi
        simp only [Option.some.injEq] at hi
        subst hi
        refine ⟨by omega, by omega, ?_⟩
        simp only [Nat.add_sub_cancel]
        rw [hget, hcc]
    rcases hr with ⟨-, rfl⟩ | ⟨-, hr⟩
    · exact h1
    · exact ih _ _ _ hdrop h1 hr

theorem scan_loop_star (cs : List Char) :
    ∀ (p : Nat) (s s2 : scan_state), '*' ∈ cs → scan_loop cs p s = .ok s2 →
      s2.type = COC_GLOB_ADDR ∨ ∃ k, s2.service = some (p + k + 1) ∧ '*' ∈ cs.drop (k + 1) := by
  induction cs with
  | nil =>
    intro p s s2 hmem
    exact absurd hmem (by simp)
  | cons c cs ih =>
    intro p s s2 hmem h
    obtain ⟨s1, b, hc, hr⟩ := scan_loop_cons c cs p s s2 h
    have hstep := scan_char_step p c s s1 b hc
    rcases hr with ⟨hb, rfl⟩ | ⟨-, hr⟩
    · obtain ⟨hsv, hcc⟩ := hstep.2.2.2.2.2 hb
      right
      refine ⟨0, hsv, ?_⟩
      rcases List.mem_cons.1 hmem with h1 | h1
      · rw [← h1] at hcc
        exact absurd hcc (by decide)
      · simpa using h1
    · by_cases hcs : c = '*'
      · left
        exact scan_loop_type_glob cs (p + 1) s1 s2 (by omega) (hstep.2.2.1 hcs) hr
      · have hmem2 : '*' ∈ cs := by
          rcases List.mem_cons.1 hmem with h1 | h1
          · exact absurd h1.symm hcs
          · exact h1
        rcases ih (p + 1) s1 s2 hmem2 hr with h1 | ⟨k, hk, hk2⟩
        · exact Or.inl h1
        · right
          refine ⟨k + 1, ?_, ?_⟩
          · rw [hk]
            congr 1
            omega
          · simpa using hk2

/-! ## Tokens that start with a bracket -/

/-- The end of the scan without its local definition. -/
theorem scan_finish_eq (s : scan_state) :
    scan_finish s =
      if s.type &&& COC_IPV4_ADDR = COC_IPV4_ADDR then
        .ok ⟨COC_IPV4_ADDR, s.service, s.sb, s.colon_count, s.ipv4_segment, s.segment⟩
      else if s.type &&& COC_HOST_ADDR = COC_HOST_ADDR then
        .ok ⟨COC_HOST_ADDR, s.service, s.sb, s.colon_count, s.ipv4_segment, s.segment⟩
      else if s.type = COC_IPV6_ADDR ∧ s.sb = IPV6_SB_OPEN then .error .bracket_close_missing
      else if s.type = COC_IPV6_ADDR ∨ s.type = COC_GLOB_ADDR then .ok s
      else .error .assertion_failed := by
  unfold scan_finish
  dsimp only
  by_cases h1 : s.type &&& COC_IPV4_ADDR = COC_IPV4_ADDR
  · rw [if_pos h1, if_pos h1]
    dsimp only
    rw [if_neg (fun h => absurd h.1 (by decide)), if_pos (Or.inl rfl)]
  · rw [if_neg h1, if_neg h1]
    by_cases h2 : s.type &&& COC_HOST_ADDR = COC_HOST_ADDR
    · rw [if_pos h2, if_pos h2]
      dsimp only
      rw [if_neg (fun h => absurd h.1 (by decide)), if_pos (Or.inr (Or.inr (Or.inl rfl)))]
    · rw [if_neg h2, if_neg h2]
      by_cases h3 : s.type = COC_IPV6_ADDR ∧ s.sb = IPV6_SB_OPEN
      · rw [if_pos h3, if_pos h3]
      · rw [if_neg h3, if_neg h3]
        have h4 : s.type ≠ COC_IPV4_ADDR := by
          intro h
          rw [h] at h1
          exact h1 (by decide)
        have h5 : s.type ≠ COC_HOST_ADDR := by
          intro h
          rw [h] at h2
          exact h2 (by decide)
        by_cases h6 : s.type = COC_IPV6_ADDR ∨ s.type = COC_GLOB_ADDR
        · rw [if_pos h6, if_pos]
          rcases h6 with h6 | h6
          · exact Or.inr (Or.inl h6)
          · exact Or.inr (Or.inr (Or.inr h6))
        · rw [if_neg h6, if_neg]
          rintro (h | h | h | h)
          · exact h4 h
          · exact h6 (Or.inl h)
          · exact h5 h
          · exact h6 (Or.inr h)

theorem scan_finish_type_ipv6 (s s1 : scan_state) (hs : s.type = COC_IPV6_ADDR)
    (h : scan_finish s = .ok s1) : s1 = s := by
  rw [scan_finish_eq, hs, if_neg (by decide), if_neg (by decide)] at h
  split_ifs at h with h1
  simp only [Except.ok.injEq] at h
  exact h.symm

theorem scan_loop_bracket (rest : List Char) :
    scan_loop ('[' :: rest) 0 scan_state.init =
      scan_loop rest 1 ⟨COC_IPV6_ADDR, none, IPV6_SB_OPEN, 0, 1, 0⟩ := by
  rfl

theorem coc_rule_scan_bracket (rest : List Char) (s : scan_state)
    (h : coc_rule_scan ('[' :: rest) = .ok s) : s.type = COC_IPV6_ADDR := by
  unfold coc_rule_scan at h
  rw [scan_loop_bracket] at h
  cases hl : scan_loop rest 1 ⟨COC_IPV6_ADDR, none, IPV6_SB_OPEN, 0, 1, 0⟩ with
  | error e =>
    rw [hl] at h
    exact absurd h (by simp)
  | ok s0 =>
    rw [hl] at h
    have h0 := scan_loop_type_ipv6 rest 1 _ s0 rfl hl
    rw [scan_finish_type_ipv6 s0 s h0 h]
    exact h0

theorem coc_rule_build_ipv6 (libc : Libc) (host : List Char) (port : Nat)
    (r : coc_rule_type) (st : coc_state) :
    coc_rule_build libc COC_IPV6_ADDR host port r st =
      match libc.inet_pton6 host with
      | some a => .ok (SLIST_INSERT_HEAD st ⟨.ipv6 a, htons port, r⟩)
      | none => .error (.invalid_ipv6_literal host) := by
  rfl

/-- C13. For every token whose first character is `[`: the scan, when it
succeeds, classifies the token as IPv6, never as Hostname or Glob; rule
building either fails with an error or adds exactly one entry, of kind IPv6,
and changes nothing else; and its result does not depend on the forward name
resolution `getaddrinfo`. -/
theorem bracket_token_ipv6 (libc : Libc) (rest : List Char) (r : coc_rule_type)
    (st : coc_state) :
    (∀ s, coc_rule_scan ('[' :: rest) = .ok s → s.type = COC_IPV6_ADDR) ∧
    ((∃ e, coc_rule_add libc ('[' :: rest) r st = .error e) ∨
      (∃ a port, coc_rule_add libc ('[' :: rest) r st =
        .ok (SLIST_INSERT_HEAD st ⟨.ipv6 a, port, r⟩))) ∧
    (∀ g : List Char → Option (List sockaddr),
      coc_rule_add { libc with getaddrinfo := g } ('[' :: rest) r st =
        coc_rule_add libc ('[' :: rest) r st) := by
  refine ⟨coc_rule_scan_bracket rest, ?_, ?_⟩
  · unfold coc_rule_add
    cases hs : coc_rule_scan ('[' :: rest) with
    | error e => exact Or.inl ⟨e, rfl⟩
    | ok s =>
      simp only
      cases hp : coc_rule_port libc ('[' :: rest) s with
      | error e => exact Or.inl ⟨e, rfl⟩
      | ok port =>
        simp only
        rw [coc_rule_scan_bracket rest s hs, coc_rule_build_ipv6]
        cases libc.inet_pton6 (coc_rule_host ('[' :: rest) s) with
        | none => exact Or.inl ⟨_, rfl⟩
        | some a => exact Or.inr ⟨a, htons port, rfl⟩
  · intro g
    unfold coc_rule_add
    cases hs : coc_rule_scan ('[' :: rest) with
    | error e => rfl
    | ok s =>
      simp only
      have hport : coc_rule_port { libc with getaddrinfo := g } ('[' :: rest) s =
          coc_rule_port libc ('[' :: rest) s := rfl
      rw [hport]
      cases hp : coc_rule_port libc ('[' :: rest) s with
      | error e => rfl
      | ok port =>
        simp only
        rw [coc_rule_scan_bracket rest s hs, coc_rule_build_ipv6, coc_rule_build_ipv6]

/-- Witness for C13: the token `[::1]:80`. -/
theorem bracket_token_ipv6_witness :
    coc_rule_scan "[::1]:80".toList = .ok ⟨2, some 6, IPV6_SB_CLOSE, 3, 1, 0⟩ ∧
    (⟨2, some 6, IPV6_SB_CLOSE, 3, 1, 0⟩ : scan_state).type = COC_IPV6_ADDR ∧
    coc_rule_add libc_ref "[::1]:80".toList COC_ALLOW coc_state.initial =
      .ok (SLIST_INSERT_HEAD coc_state.initial ⟨.ipv6 in6_loopback, htons 80, COC_ALLOW⟩) :=
  ⟨by decide,
   (bracket_token_ipv6 libc_ref "::1]:80".toList COC_ALLOW coc_state.initial).1 _ (by decide),
   by decide⟩

/-! ## IPv6 literals in brackets -/

theorem and_not_ipv6_ipv4 : and_not COC_IPV6_ADDR COC_IPV4_ADDR = COC_IPV6_ADDR := by decide

theorem isxdigit_ne (c : Char) (h : isxdigit c = true) :
    c ≠ '*' ∧ c ≠ '[' ∧ c ≠ ']' ∧ c ≠ ':' ∧ c ≠ '.' := by
  refine ⟨?_, ?_, ?_, ?_, ?_⟩ <;> rintro rfl <;> exact absurd h (by decide)

theorem isdigit_isxdigit (c : Char) (h : c.isDigit = true) : isxdigit c = true := by
  simp [isxdigit, h]

theorem scan_char_hex (p : Nat) (c : Char) (sv : Option Nat) (sb : sb_state)
    (cc a b : Nat) (h : isxdigit c = true) :
    scan_char p c ⟨COC_IPV6_ADDR, sv, sb, cc, a, b⟩ =
      .ok (⟨COC_IPV6_ADDR, sv, sb, cc, a, b⟩, false) := by
  obtain ⟨h1, h2, h3, h4, h5⟩ := isxdigit_ne c h
  rw [scan_char_eq, if_neg h1, if_neg h2, if_neg h3, if_neg h4, if_neg h5]
  by_cases hd : isdigit c = true
  · rw [if_pos hd, scan_digit]
    dsimp only
    rw [if_neg (by decide)]
  · rw [if_neg hd, if_pos h, scan_xdigit]
    dsimp only
    rw [if_neg (by decide), and_not_ipv6_ipv4]

theorem scan_char_colon_open (p : Nat) (sv : Option Nat) (cc : Nat) (hcc : cc + 1 ≤ 7) :
    scan_char p ':' ⟨COC_IPV6_ADDR, sv, IPV6_SB_OPEN, cc, 1, 0⟩ =
      .ok (⟨COC_IPV6_ADDR, if cc = 0 then some (p + 1) else none, IPV6_SB_OPEN, cc + 1, 1, 0⟩,
        false) := by
  have h0 : scan_char p ':' ⟨COC_IPV6_ADDR, sv, IPV6_SB_OPEN, cc, 1, 0⟩ =
      scan_colon p ⟨COC_IPV6_ADDR, sv, IPV6_SB_OPEN, cc, 1, 0⟩ := rfl
  rw [h0, scan_colon_eq]
  dsimp only
  by_cases h1 : cc = 0
  · subst h1
    rw [if_neg (by omega), if_neg (fun h => absurd h.2 (by decide))]
    rfl
  · rw [if_pos (by omega), if_pos (by decide), if_neg, if_neg, if_neg h1]
    · rintro (h | h)
      · omega
      · exact absurd h (by decide)
    · rintro (⟨-, h⟩ | h) <;> omega

theorem scan_loop_hex (L rest : List Char) (hL : ∀ c ∈ L, isxdigit c = true ∨ c = ':') :
    ∀ (p : Nat) (sv : Option Nat) (cc : Nat), 1 ≤ p → cc + L.count ':' ≤ 7 →
      ∃ sv1, scan_loop (L ++ rest) p ⟨COC_IPV6_ADDR, sv, IPV6_SB_OPEN, cc, 1, 0⟩ =
          scan_loop rest (p + L.length)
            ⟨COC_IPV6_ADDR, sv1, IPV6_SB_OPEN, cc + L.count ':', 1, 0⟩ ∧
        (L.count ':' = 0 → sv1 = sv) ∧
        (2 ≤ cc + L.count ':' → 1 ≤ L.count ':' → sv1 = none) := by
  induction L with
  | nil =>
    intro p sv cc _ _
    exact ⟨sv, rfl, fun _ => rfl, fun _ h => absurd h (by simp)⟩
  | cons c L ih =>
    intro p sv cc hp hcc
    have hL2 : ∀ x ∈ L, isxdigit x = true ∨ x = ':' :=
      fun x hx => hL x (List.mem_cons_of_mem _ hx)
    by_cases hc : c = ':'
    · subst hc
      have hcount : (':' :: L).count ':' = L.count ':' + 1 := by simp
      obtain ⟨sv1, h1, h2, h3⟩ := ih hL2 (p + 1) (if cc = 0 then some (p + 1) else none)
        (cc + 1) (by omega) (by omega)
      have e1 : p + 1 + L.length = p + (':' :: L).length := by
        simp only [List.length_cons]
        omega
      have e2 : cc + 1 + L.count ':' = cc + (':' :: L).count ':' := by omega
      refine ⟨sv1, ?_, fun h => absurd h (by omega), ?_⟩
      · rw [List.cons_append, scan_loop, scan_char_colon_open p sv cc (by omega)]
        simp only
        rw [h1, e1, e2]
      · intro h4 _
        by_cases h5 : L.count ':' = 0
        · rw [h2 h5, if_neg (by omega)]
        · exact h3 (by omega) (by omega)
    · have hx : isxdigit c = true := by
        rcases hL c (List.mem_cons_self _ _) with h | h
        · exact h
        · exact absurd h hc
      have hcount : (c :: L).count ':' = L.count ':' := by
        rw [List.count_cons_of_ne (Ne.symm hc)]
      obtain ⟨sv1, h1, h2, h3⟩ := ih hL2 (p + 1) sv cc (by omega) (by omega)
      have e1 : p + 1 + L.length = p + (c :: L).length := by
        simp only [List.length_cons]
        omega
      refine ⟨sv1, ?_, fun h => h2 (by omega), fun h4 h5 => h3 (by omega) (by omega)⟩
      rw [List.cons_append, scan_loop, scan_char_hex p c sv _ cc 1 0 hx]
      simp only
      rw [h1, e1, hcount]

theorem scan_loop_digits (ds : List Char) (hds : ∀ c ∈ ds, c.isDigit = true) :
    ∀ (p : Nat) (sv : Option Nat) (sb : sb_state) (cc a b : Nat),
      scan_loop ds p ⟨COC_IPV6_ADDR, sv, sb, cc, a, b⟩ =
        .ok ⟨COC_IPV6_ADDR, sv, sb, cc, a, b⟩ := by
  induction ds with
  | nil =>
    intro p sv sb cc a b
    rfl
  | cons c ds ih =>
    intro p sv sb cc a b
    rw [scan_loop, scan_char_hex p c sv sb cc a b
      (isdigit_isxdigit c (hds c (List.mem_cons_self _ _)))]
    exact ih (fun x hx => hds x (List.mem_cons_of_mem _ hx)) _ _ _ _ _ _

theorem scan_char_close (q : Nat) (sv : Option Nat) (k : Nat) :
    scan_char q ']' ⟨COC_IPV6_ADDR, sv, IPV6_SB_OPEN, k, 1, 0⟩ =
      .ok (⟨COC_IPV6_ADDR, sv, IPV6_SB_CLOSE, k, 1, 0⟩, false) := by
  rfl

theorem scan_loop_close_colon (q : Nat) (sv : Option Nat) (k : Nat) (ds : List Char)
    (hk : k ≤ 7) (hds : ∀ c ∈ ds, c.isDigit = true) :
    scan_loop (']' :: ':' :: ds) q ⟨COC_IPV6_ADDR, sv, IPV6_SB_OPEN, k, 1, 0⟩ =
      .ok ⟨COC_IPV6_ADDR, some (q + 2), IPV6_SB_CLOSE, k + 1, 1, 0⟩ := by
  rw [scan_loop, scan_char_close]
  simp only
  have h0 : scan_char (q + 1) ':' ⟨COC_IPV6_ADDR, sv, IPV6_SB_CLOSE, k, 1, 0⟩ =
      scan_colon (q + 1) ⟨COC_IPV6_ADDR, sv, IPV6_SB_CLOSE, k, 1, 0⟩ := rfl
  rw [scan_loop, h0, scan_colon_eq]
  dsimp only
  by_cases h1 : k = 0
  · subst h1
    rw [if_neg (by omega), if_neg (fun h => absurd h.2 (by decide))]
    simp only
    exact scan_loop_digits ds hds _ _ _ _ _ _
  · rw [if_pos (by omega), if_pos (by decide), if_neg, if_pos (Or.inr rfl)]
    rintro (⟨h, -⟩ | h)
    · exact absurd h (by decide)
    · omega

theorem scan_finish_closed (sv : Option Nat) (k : Nat) :
    scan_finish ⟨COC_IPV6_ADDR, sv, IPV6_SB_CLOSE, k, 1, 0⟩ =
      .ok ⟨COC_IPV6_ADDR, sv, IPV6_SB_CLOSE, k, 1, 0⟩ := by
  rw [scan_finish_eq]
  dsimp only
  rw [if_neg (by decide), if_neg (by decide), if_neg (fun h => absurd h.2 (by decide)),
    if_pos (Or.inl rfl)]

theorem coc_rule_scan_bracket_port (L ds : List Char)
    (hL : ∀ c ∈ L, isxdigit c = true ∨ c = ':') (hcount : L.count ':' ≤ 7)
    (hds : ∀ c ∈ ds, c.isDigit = true) :
    coc_rule_scan ('[' :: (L ++ ']' :: ':' :: ds)) =
      .ok ⟨COC_IPV6_ADDR, some (L.length + 3), IPV6_SB_CLOSE, L.count ':' + 1, 1, 0⟩ := by
  obtain ⟨sv1, h1, -, -⟩ := scan_loop_hex L (']' :: ':' :: ds) hL 1 none 0 (by omega) (by omega)
  unfold coc_rule_scan
  rw [scan_loop_bracket, h1, scan_loop_close_colon _ _ _ ds (by omega) hds]
  simp only
  rw [scan_finish_closed, Nat.zero_add]
  congr 3
  omega

theorem bracket_port_drop (L ds : List Char) :
    ('[' :: (L ++ ']' :: ':' :: ds)).drop (L.length + 3) = ds := by
  have h : '[' :: (L ++ ']' :: ':' :: ds) = ('[' :: (L ++ [']', ':'])) ++ ds := by simp
  rw [h]
  exact List.drop_left' (by simp)

theorem bracket_port_host (L ds : List Char) :
    (('[' :: (L ++ ']' :: ':' :: ds)).drop 1).take (L.length + 3 - 1 - 2) = L := by
  have h1 : L.length + 3 - 1 - 2 = L.length := by omega
  rw [h1, List.drop_one, List.tail_cons]
  exact List.take_left' rfl

/-- C12. For every literal `L` made of hexadecimal digits and at most seven
`:` and every port field `ds` of decimal digits whose value lies in 1..65535,
rule building on the token `[L]:ds` hands exactly `L`, the text between the
brackets, to the strict conversion; when the conversion accepts `L` the token
builds exactly one entry, of kind IPv6, whose address is the value of `L`
and whose port is the value of `ds`, and otherwise it fails. -/
theorem bracket_port_token (libc : Libc) (L ds : List Char) (r : coc_rule_type)
    (st : coc_state) (hL : ∀ c ∈ L, isxdigit c = true ∨ c = ':') (hcount : L.count ':' ≤ 7)
    (hds : ∀ c ∈ ds, c.isDigit = true)
    (hv1 : 1 ≤ decimal_value ds) (hv2 : decimal_value ds ≤ 65535) :
    (coc_rule_add libc ('[' :: (L ++ ']' :: ':' :: ds)) r st =
      match libc.inet_pton6 L with
      | some a => .ok (SLIST_INSERT_HEAD st ⟨.ipv6 a, htons (decimal_value ds), r⟩)
      | none => .error (.invalid_ipv6_literal L)) ∧
    (∀ a, libc.inet_pton6 L = some a →
      coc_rule_add libc ('[' :: (L ++ ']' :: ':' :: ds)) r st =
        .ok (SLIST_INSERT_HEAD st ⟨.ipv6 a, htons (decimal_value ds), r⟩)) ∧
    ntohs (htons (decimal_value ds)) = decimal_value ds := by
  have hne : ds ≠ [] := by
    rintro rfl
    simp [decimal_value] at hv1
  have hport : port_parse libc ds = .ok (decimal_value ds) := by
    rw [port_parse_digits_eq libc ds hds, if_neg hne, if_neg (by omega), if_neg (by omega)]
  have hadd : coc_rule_add libc ('[' :: (L ++ ']' :: ':' :: ds)) r st =
      match libc.inet_pton6 L with
      | some a => .ok (SLIST_INSERT_HEAD st ⟨.ipv6 a, htons (decimal_value ds), r⟩)
      | none => .error (.invalid_ipv6_literal L) := by
    unfold coc_rule_add
    rw [coc_rule_scan_bracket_port L ds hL hcount hds]
    simp only [coc_rule_port, bracket_port_drop, hport, coc_rule_host, if_true,
      bracket_port_host]
    rw [coc_rule_build_ipv6]
  refine ⟨hadd, ?_, ?_⟩
  · intro a ha
    rw [hadd, ha]
  · rw [ntohs_htons]
    omega

/-- Witness for C12: the token `[::1]:80`. -/
theorem bracket_port_token_witness :
    libc_ref.inet_pton6 "::1".toList = some in6_loopback ∧
    decimal_value "80".toList = 80 ∧
    coc_rule_add libc_ref "[::1]:80".toList COC_ALLOW coc_state.initial =
      .ok (SLIST_INSERT_HEAD coc_state.initial ⟨.ipv6 in6_loopback, htons 80, COC_ALLOW⟩) :=
  ⟨by decide, by decide,
   (bracket_port_token libc_ref "::1".toList "80".toList COC_ALLOW coc_state.initial
      (by decide) (by decide) (by decide) (by decide) (by decide)).2.1 in6_loopback
      (by decide)⟩

theorem coc_rule_scan_bracket_only (L : List Char)
    (hL : ∀ c ∈ L, isxdigit c = true ∨ c = ':') (hcount : L.count ':' ≤ 7)
    (hne1 : L.count ':' ≠ 1) :
    coc_rule_scan ('[' :: (L ++ [']'])) =
      .ok ⟨COC_IPV6_ADDR, none, IPV6_SB_CLOSE, L.count ':', 1, 0⟩ := by
  obtain ⟨sv1, h1, h2, h3⟩ := scan_loop_hex L [']'] hL 1 none 0 (by omega) (by omega)
  have hsv : sv1 = none := by
    by_cases h0 : L.count ':' = 0
    · exact h2 h0
    · exact h3 (by omega) (by omega)
  subst hsv
  unfold coc_rule_scan
  rw [scan_loop_bracket, h1, scan_loop, scan_char_close]
  simp only [scan_loop]
  rw [scan_finish_closed, Nat.zero_add]

/-- C11, what the code does. For every literal `L` made of hexadecimal digits
and at most seven `:`, not exactly one, rule building on the token `[L]`
without port hands the text `L]`, closing bracket included, to the strict
conversion: it builds an entry only if the conversion accepts `L]`, and
fails otherwise. -/
theorem bracket_token_no_port (libc : Libc) (L : List Char) (r : coc_rule_type)
    (st : coc_state) (hL : ∀ c ∈ L, isxdigit c = true ∨ c = ':') (hcount : L.count ':' ≤ 7)
    (hne1 : L.count ':' ≠ 1) :
    coc_rule_add libc ('[' :: (L ++ [']'])) r st =
      match libc.inet_pton6 (L ++ [']']) with
      | some a => .ok (SLIST_INSERT_HEAD st ⟨.ipv6 a, htons 0, r⟩)
      | none => .error (.invalid_ipv6_literal (L ++ [']'])) := by
  unfold coc_rule_add
  rw [coc_rule_scan_bracket_only L hL hcount hne1]
  simp only [coc_rule_port, coc_rule_host, if_true, List.drop_one, List.tail_cons]
  rw [coc_rule_build_ipv6]

/-- Witness for C11: the token `[::1]`, with a conversion that accepts `::1`;
rule building fails on the text `::1]`. -/
theorem bracket_token_no_port_witness :
    libc_ref.inet_pton6 "::1".toList = some in6_loopback ∧
    libc_ref.inet_pton6 "::1]".toList = none ∧
    coc_rule_add libc_ref "[::1]".toList COC_ALLOW coc_state.initial =
      .error (.invalid_ipv6_literal "::1]".toList) :=
  ⟨by decide, by decide,
   bracket_token_no_port libc_ref "::1".toList COC_ALLOW coc_state.initial
     (by decide) (by decide) (by decide)⟩

/-! ## Glob tokens and the flag `needs_dns_lookup` -/

theorem coc_rule_add_inv (libc : Libc) (str : List Char) (r : coc_rule_type)
    (st st1 : coc_state) (h : coc_rule_add libc str r st = .ok st1) :
    ∃ s0 s port, scan_loop str 0 scan_state.init = .ok s0 ∧ scan_finish s0 = .ok s ∧
      coc_rule_port libc str s = .ok port ∧
      coc_rule_build libc s.type (coc_rule_host str s) port r st = .ok st1 := by
  unfold coc_rule_add coc_rule_scan at h
  cases h0 : scan_loop str 0 scan_state.init with
  | error e =>
    rw [h0] at h
    exact absurd h (by simp)
  | ok s0 =>
    rw [h0] at h
    simp only at h
    cases h1 : scan_finish s0 with
    | error e =>
      rw [h1] at h
      exact absurd h (by simp)
    | ok s =>
      rw [h1] at h
      simp only at h
      cases h2 : coc_rule_port libc str s with
      | error e =>
        rw [h2] at h
        exact absurd h (by simp)
      | ok port =>
        rw [h2] at h
        exact ⟨s0, s, port, rfl, h1, h2, h⟩

theorem port_loop_chars (field : List Char) :
    ∀ (p : Nat) (b : Bool) (x : Nat × Bool), port_loop field p b = .ok x →
      ∀ c ∈ field, isdigit c = true ∨ isalnum c = true ∨ c = '-' := by
  induction field with
  | nil =>
    intro p b x _ c hc
    exact absurd hc (by simp)
  | cons u us ih =>
    intro p b x h c hc
    rw [port_loop] at h
    split_ifs at h with h1 h2 h3
    · rcases List.mem_cons.1 hc with rfl | hc
      · exact Or.inl h1
      · exact ih _ _ _ h c hc
    · rcases List.mem_cons.1 hc with rfl | hc
      · exact Or.inr h3
      · exact ih _ _ _ h c hc

theorem port_parse_chars (libc : Libc) (field : List Char) (port : Nat)
    (h : port_parse libc field = .ok port) :
    ∀ c ∈ field, isdigit c = true ∨ isalnum c = true ∨ c = '-' := by
  unfold port_parse at h
  split_ifs at h with h1
  unfold port_eval at h
  cases hl : port_loop field 0 false with
  | error e =>
    rw [hl] at h
    exact absurd h (by simp)
  | ok x => exact port_loop_chars field 0 false x hl

theorem port_parse_no_star (libc : Libc) (field : List Char) (port : Nat)
    (h : port_parse libc field = .ok port) : '*' ∉ field := by
  intro hmem
  rcases port_parse_chars libc field port h '*' hmem with h1 | h1 | h1 <;>
    exact absurd h1 (by decide)

theorem scan_finish_type_glob (s s1 : scan_state) (hs : s.type = COC_GLOB_ADDR)
    (h : scan_finish s = .ok s1) : s1 = s := by
  rw [scan_finish_eq, hs, if_neg (by decide), if_neg (by decide),
    if_neg (fun h => absurd h.1 (by decide)), if_pos (Or.inr rfl)] at h
  simp only [Except.ok.injEq] at h
  exact h.symm

theorem scan_init_sb : scan_state.init.sb ≠ IPV6_SB_NONE → scan_state.init.type = COC_IPV6_ADDR :=
  fun h => absurd rfl h

/-- An accepted token that contains `*` is classified as Glob, outside
brackets. -/
theorem star_token_glob (libc : Libc) (str : List Char) (s0 s : scan_state) (port : Nat)
    (hstar : '*' ∈ str) (h0 : scan_loop str 0 scan_state.init = .ok s0)
    (h1 : scan_finish s0 = .ok s) (h2 : coc_rule_port libc str s = .ok port) :
    s = s0 ∧ s.type = COC_GLOB_ADDR ∧ s.sb = IPV6_SB_NONE := by
  have hty : s0.type = COC_GLOB_ADDR := by
    rcases scan_loop_star str 0 scan_state.init s0 hstar h0 with h | ⟨k, hk, hmem⟩
    · exact h
    · exfalso
      have hsv : s.service = some (0 + k + 1) := by
        rw [scan_finish_service s0 s h1, hk]
      simp only [coc_rule_port, hsv] at h2
      have := port_parse_no_star libc _ port h2
      rw [Nat.zero_add] at this
      exact this hmem
  have hs := scan_finish_type_glob s0 s hty h1
  subst hs
  refine ⟨rfl, hty, ?_⟩
  by_contra hsb
  have := scan_loop_sb str 0 scan_state.init s scan_init_sb h0 hsb
  rw [hty] at this
  exact absurd this (by decide)

theorem scan_char_glob_service (p : Nat) (c : Char) (s s1 : scan_state) (b : Bool)
    (hs : s.type = COC_GLOB_ADDR) (hcc : 1 ≤ s.colon_count)
    (h : scan_char p c s = .ok (s1, b)) :
    s1.service = s.service ∧ 1 ≤ s1.colon_count := by
  rw [scan_char_eq] at h
  split_ifs at h with c1 c2 c3 c4 c5 c6 c7 c8 c9
  · obtain ⟨-, hsv, -, hc, -⟩ := scan_star_spec s s1 b h
    exact ⟨hsv, by omega⟩
  · obtain ⟨-, -, hsv, -, hc, -⟩ := scan_open_spec p s s1 b h
    exact ⟨hsv, by omega⟩
  · obtain ⟨-, -, -, hsv, -, hc, -⟩ := scan_close_spec s s1 b h
    exact ⟨hsv, by omega⟩
  · exfalso
    rw [scan_colon_eq, if_pos (by omega), hs, if_neg (by decide)] at h
    exact absurd h (by simp)
  · obtain ⟨-, hsv, -, hc, -⟩ := scan_dot_spec s s1 b h
    exact ⟨hsv, by omega⟩
  · obtain ⟨-, hsv, -, hc, -⟩ := scan_digit_spec c s s1 b h
    exact ⟨hsv, by omega⟩
  · obtain ⟨-, hsv, -, hc, -⟩ := scan_xdigit_spec s s1 b h
    exact ⟨hsv, by omega⟩
  · obtain ⟨-, hsv, -, hc, -⟩ := scan_alnum_spec c s s1 b h
    exact ⟨hsv, by omega⟩
  · obtain ⟨-, hsv, -, hc, -⟩ := scan_dash_spec p c s s1 b h
    exact ⟨hsv, by omega⟩

theorem scan_loop_glob_service (cs : List Char) :
    ∀ (p : Nat) (s s2 : scan_state), 1 ≤ p → s.type = COC_GLOB_ADDR → 1 ≤ s.colon_count →
      scan_loop cs p s = .ok s2 → s2.service = s.service := by
  induction cs with
  | nil =>
    intro p s s2 _ _ _ h
    simp only [scan_loop, Except.ok.injEq] at h
    rw [← h]
  | cons c cs ih =>
    intro p s s2 hp hs hcc h
    obtain ⟨s1, b, hc, hr⟩ := scan_loop_cons c cs p s s2 h
    obtain ⟨hsv, hcc1⟩ := scan_char_glob_service p c s s1 b hs hcc hc
    have hty := (scan_char_step p c s s1 b hc).2.1 hp hs
    rcases hr with ⟨-, rfl⟩ | ⟨-, hr⟩
    · exact hsv
    · rw [ih (p + 1) s1 s2 (by omega) hty hcc1 hr, hsv]

theorem scan_loop_star_colon (rest : List Char) (s0 : scan_state)
    (h : scan_loop ('*' :: ':' :: rest) 0 scan_state.init = .ok s0) :
    s0.service = some 2 := by
  have ha : scan_char 0 '*' scan_state.init =
      .ok (⟨COC_GLOB_ADDR, none, IPV6_SB_NONE, 0, 1, 0⟩, false) := by decide
  have hb : scan_char 1 ':' ⟨COC_GLOB_ADDR, none, IPV6_SB_NONE, 0, 1, 0⟩ =
      .ok (⟨COC_GLOB_ADDR, some 2, IPV6_SB_NONE, 1, 1, 0⟩, false) := by decide
  rw [scan_loop, ha] at h
  simp only at h
  rw [scan_loop, hb] at h
  simp only at h
  exact scan_loop_glob_service rest 2 _ s0 (by omega) rfl (by decide) h

theorem coc_rule_build_glob (libc : Libc) (host : List Char) (port : Nat)
    (r : coc_rule_type) (st : coc_state) :
    coc_rule_build libc COC_GLOB_ADDR host port r st =
      if host ≠ ['*'] then
        .ok ⟨⟨.glob host, htons port, r⟩ :: st.coc_list_head, true, st.initialized⟩
      else .ok (SLIST_INSERT_HEAD st ⟨.glob host, htons port, r⟩) := by
  rfl

theorem take_eq_star (str : List Char) (i : Nat) (hi1 : 1 ≤ i) (hi2 : i ≤ str.length)
    (hc : str[i - 1]? = some ':') (ht : str.take (i - 1) = ['*']) :
    ∃ rest, str = '*' :: ':' :: rest := by
  have hlen := congrArg List.length ht
  simp only [List.length_take, List.length_singleton] at hlen
  have hi : i - 1 = 1 := by omega
  rw [hi] at hc ht
  match str, hc, ht with
  | [a, b], hc, ht =>
    simp only [List.take, List.cons.injEq, and_true] at ht
    simp at hc
    exact ⟨[], by rw [ht, hc]⟩
  | a :: b :: c :: rest, hc, ht =>
    simp only [List.take, List.cons.injEq, and_true] at ht
    simp at hc
    exact ⟨c :: rest, by rw [ht, hc]⟩
  | [a], hc, _ => simp at hc
  | [], hc, _ => simp at hc

/-- C15, amended. Building a rule from the token `*` leaves the flag
`needs_dns_lookup` unchanged, and so does building a rule from an accepted
token `*:port`; building a rule from any other accepted token that contains
`*` sets the flag to true. -/
theorem glob_flag (libc : Libc) (str : List Char) (r : coc_rule_type) (st st1 : coc_state)
    (hstar : '*' ∈ str) (hadd : coc_rule_add libc str r st = .ok st1) :
    coc_rule_add libc ['*'] r st = .ok (SLIST_INSERT_HEAD st (star_entry r)) ∧
    ((str = ['*'] ∨ ∃ port, str = '*' :: ':' :: port) →
      st1.needs_dns_lookup = st.needs_dns_lookup) ∧
    (¬ (str = ['*'] ∨ ∃ port, str = '*' :: ':' :: port) →
      st1.needs_dns_lookup = true) := by
  obtain ⟨s0, s, port, h0, h1, h2, h3⟩ := coc_rule_add_inv libc str r st st1 hadd
  obtain ⟨hs0, hty, hsb⟩ := star_token_glob libc str s0 s port hstar h0 h1 h2
  subst hs0
  rw [hty, coc_rule_build_glob] at h3
  have hsvc := scan_loop_service str str 0 scan_state.init s rfl
    (fun i hi => absurd hi (by simp [scan_state.init])) h0
  have hhost : coc_rule_host str s =
      match s.service with
      | some i => str.take (i - 1)
      | none => str := by
    unfold coc_rule_host
    simp only [hsb, reduceCtorEq, if_false, Nat.sub_zero]
  refine ⟨rfl, ?_, ?_⟩
  · intro hform
    have hh : coc_rule_host str s = ['*'] := by
      rw [hhost]
      rcases hform with rfl | ⟨rest, rfl⟩
      · have : s.service = none := by
          have hd : scan_loop ['*'] 0 scan_state.init =
              .ok ⟨COC_GLOB_ADDR, none, IPV6_SB_NONE, 0, 1, 0⟩ := by decide
          rw [hd] at h0
          simp only [Except.ok.injEq] at h0
          rw [← h0]
        rw [this]
      · rw [scan_loop_star_colon rest s h0]
        rfl
    rw [hh] at h3
    simp only [ne_eq, not_true_eq_false, if_false, Except.ok.injEq] at h3
    rw [← h3]
    rfl
  · intro hform
    have hh : coc_rule_host str s ≠ ['*'] := by
      intro hh
      rw [hhost] at hh
      apply hform
      cases hsv : s.service with
      | none =>
        rw [hsv] at hh
        exact Or.inl hh
      | some i =>
        rw [hsv] at hh
        obtain ⟨hi1, hi2, hc⟩ := hsvc i hsv
        exact Or.inr (take_eq_star str i hi1 hi2 hc hh)
    rw [if_pos hh] at h3
    simp only [Except.ok.injEq] at h3
    rw [← h3]

/-- Witness for C15, amended: the token `*.example.com` sets the flag. -/
theorem glob_flag_witness :
    coc_rule_add libc_ref "*.example.com".toList COC_ALLOW coc_state.initial =
      .ok ⟨[example_glob_entry COC_ALLOW], true, false⟩ ∧
    (⟨[example_glob_entry COC_ALLOW], true, false⟩ : coc_state).needs_dns_lookup = true :=
  ⟨by decide,
   (glob_flag libc_ref "*.example.com".toList COC_ALLOW coc_state.initial
      ⟨[example_glob_entry COC_ALLOW], true, false⟩ (by decide) (by decide)).2.2
     (by
       rintro (h | ⟨port, h⟩)
       · exact absurd h (by decide)
       · have h2 := congrArg (fun l => l.drop 1 |>.head?) h
         simp at h2)⟩

/-- Counterexample to C15 as stated: the token `*:80` is accepted, is not the
token `*` and contains `*`, yet building a rule from it leaves the flag
`needs_dns_lookup` false. -/
theorem glob_flag_counterexample :
    '*' ∈ "*:80".toList ∧ "*:80".toList ≠ ['*'] ∧
    coc_rule_add libc_ref "*:80".toList COC_BLOCK coc_state.initial =
      .ok ⟨[⟨.glob ['*'], htons 80, COC_BLOCK⟩], false, false⟩ ∧
    coc_state.initial.needs_dns_lookup = false :=
  ⟨by decide, by decide, by decide, rfl⟩

/-! ## IPv4 tokens and their dotted-decimal text -/

theorem isDigit_digit_char (c : Char) (h : c.isDigit = true) :
    c.toNat - 48 < 10 ∧ digit_char (c.toNat - 48) = c := by
  have h1 : 48 ≤ c.toNat ∧ c.toNat ≤ 57 := by
    simp only [Char.isDigit, Bool.and_eq_true, decide_eq_true_eq] at h
    exact ⟨h.1, h.2⟩
  refine ⟨by omega, ?_⟩
  unfold digit_char
  rw [show 48 + (c.toNat - 48) = c.toNat by omega]
  exact Char.ofNat_toNat c

theorem render_octet_digit (d : Nat) (h : d < 10) : render_octet d = [digit_char d] := by
  unfold render_octet
  rw [if_pos h]

theorem render_octet_snoc (v d : Nat) (hv : v ≠ 0) (hd : d < 10) (hb : v * 10 + d ≤ 255) :
    render_octet (v * 10 + d) = render_octet v ++ [digit_char d] := by
  by_cases h : v < 10
  · unfold render_octet
    rw [if_neg (by omega), if_pos (by omega), if_pos h]
    rw [show (v * 10 + d) / 10 = v by omega, show (v * 10 + d) % 10 = d by omega]
    rfl
  · unfold render_octet
    rw [if_neg (by omega), if_neg (by omega), if_neg h, if_pos (by omega)]
    rw [show (v * 10 + d) / 100 = v / 10 by omega,
      show (v * 10 + d) / 10 % 10 = v % 10 by omega, show (v * 10 + d) % 10 = d by omega]
    rfl

theorem inet_pton4_loop_text (cs : List Char) :
    ∀ (acc : List Nat) (cur : Option Nat) (res : List Nat),
      inet_pton4_loop cs acc cur = some res →
      ∃ v rest, res = v :: rest ∧
        render_acc rest ++ render_octet v =
          render_acc acc ++ ((match cur with | some w => render_octet w | none => []) ++ cs) := by
  induction cs with
  | nil =>
    intro acc cur res h
    cases cur with
    | none => simp [inet_pton4_loop] at h
    | some v =>
      simp only [inet_pton4_loop, Option.some.injEq] at h
      exact ⟨v, acc, h.symm, by simp⟩
  | cons c cs ih =>
    intro acc cur res h
    rw [inet_pton4_loop.eq_def] at h
    dsimp only at h
    by_cases hd : c.isDigit = true
    · rw [if_pos hd] at h
      obtain ⟨hlt, hch⟩ := isDigit_digit_char c hd
      cases cur with
      | none =>
        simp only at h
        obtain ⟨v, rest, hres, htxt⟩ := ih acc _ res h
        refine ⟨v, rest, hres, ?_⟩
        rw [htxt]
        simp only [render_octet_digit _ hlt, hch, List.nil_append, List.singleton_append]
      | some w =>
        simp only at h
        by_cases hw : w = 0 ∨ w * 10 + (c.toNat - 48) > 255
        · rw [if_pos hw] at h
          exact absurd h (by simp)
        · rw [if_neg hw] at h
          obtain ⟨v, rest, hres, htxt⟩ := ih acc _ res h
          refine ⟨v, rest, hres, ?_⟩
          rw [htxt]
          simp only [render_octet_snoc w _ (fun h0 => hw (Or.inl h0)) hlt (by omega), hch,
            List.append_assoc, List.singleton_append]
    · rw [if_neg hd] at h
      by_cases hdot : c = '.'
      · rw [if_pos hdot] at h
        cases cur with
        | none => exact absurd h (by simp)
        | some w =>
          simp only at h
          obtain ⟨v, rest, hres, htxt⟩ := ih (w :: acc) none res h
          refine ⟨v, rest, hres, ?_⟩
          rw [htxt, hdot]
          simp only [render_acc, List.nil_append, List.append_assoc, List.singleton_append]
      · rw [if_neg hdot] at h
        exact absurd h (by simp)

theorem inet_pton4_loop_bound (cs : List Char) :
    ∀ (acc : List Nat) (cur : Option Nat) (res : List Nat),
      (∀ v ∈ acc, v ≤ 255) → (∀ w, cur = some w → w ≤ 255) →
      inet_pton4_loop cs acc cur = some res → ∀ v ∈ res, v ≤ 255 := by
  induction cs with
  | nil =>
    intro acc cur res hacc hcur h
    cases cur with
    | none => simp [inet_pton4_loop] at h
    | some v =>
      simp only [inet_pton4_loop, Option.some.injEq] at h
      rw [← h]
      intro x hx
      rcases List.mem_cons.1 hx with rfl | hx
      · exact hcur _ rfl
      · exact hacc x hx
  | cons c cs ih =>
    intro acc cur res hacc hcur h
    rw [inet_pton4_loop.eq_def] at h
    dsimp only at h
    by_cases hd : c.isDigit = true
    · rw [if_pos hd] at h
      obtain ⟨hlt, -⟩ := isDigit_digit_char c hd
      cases cur with
      | none =>
        simp only at h
        exact ih acc _ res hacc (fun w hw => by
          simp only [Option.some.injEq] at hw
          omega) h
      | some w =>
        simp only at h
        by_cases hw : w = 0 ∨ w * 10 + (c.toNat - 48) > 255
        · rw [if_pos hw] at h
          exact absurd h (by simp)
        · rw [if_neg hw] at h
          exact ih acc _ res hacc (fun x hx => by
            simp only [Option.some.injEq] at hx
            omega) h
    · rw [if_neg hd] at h
      by_cases hdot : c = '.'
      · rw [if_pos hdot] at h
        cases cur with
        | none => exact absurd h (by simp)
        | some w =>
          simp only at h
          refine ih (w :: acc) none res ?_ (fun x hx => absurd hx (by simp)) h
          intro x hx
          rcases List.mem_cons.1 hx with rfl | hx
          · exact hcur _ rfl
          · exact hacc x hx
      · rw [if_neg hdot] at h
        exact absurd h (by simp)

/-- The strict conversion accepts only the dotted-decimal text of its
result. -/
theorem inet_pton4_ref_text (s : List Char) (a : in_addr) (h : inet_pton4_ref s = some a) :
    dotted_decimal a = s := by
  unfold inet_pton4_ref at h
  cases hl : inet_pton4_loop s [] none with
  | none =>
    rw [hl] at h
    exact absurd h (by simp)
  | some res =>
    rw [hl] at h
    have hb := inet_pton4_loop_bound s [] none res (fun v hv => absurd hv (by simp))
      (fun w hw => absurd hw (by simp)) hl
    obtain ⟨v, rest, hres, htxt⟩ := inet_pton4_loop_text s [] none res hl
    match res, h, hb, hres with
    | [d, c, b, a0], h, hb, hres =>
      simp only [Option.some.injEq] at h
      have hd : d ≤ 255 := hb d (by simp)
      have hc : c ≤ 255 := hb c (by simp)
      have hb1 : b ≤ 255 := hb b (by simp)
      have ha : a0 ≤ 255 := hb a0 (by simp)
      simp only [List.cons.injEq] at hres
      obtain ⟨rfl, rfl⟩ := hres
      simp only [render_acc, List.nil_append, List.append_assoc, List.singleton_append] at htxt
      rw [← htxt, ← h]
      unfold dotted_decimal
      simp only [Fin.ofNat, Nat.mod_eq_of_lt (Nat.lt_succ_of_le hd),
        Nat.mod_eq_of_lt (Nat.lt_succ_of_le hc), Nat.mod_eq_of_lt (Nat.lt_succ_of_le hb1),
        Nat.mod_eq_of_lt (Nat.lt_succ_of_le ha)]
      simp

theorem digit_char_ne_colon (d : Nat) (h : d < 10) : digit_char d ≠ ':' := by
  interval_cases d <;> decide

theorem render_octet_no_colon (n : Nat) (h : n ≤ 255) : ':' ∉ render_octet n := by
  unfold render_octet
  intro hm
  split_ifs at hm with h1 h2
  · simp only [List.mem_singleton] at hm
    exact digit_char_ne_colon n h1 hm.symm
  · simp only [List.mem_cons, List.mem_singleton, List.not_mem_nil, or_false] at hm
    rcases hm with hm | hm
    · exact digit_char_ne_colon _ (by omega) hm.symm
    · exact digit_char_ne_colon _ (by omega) hm.symm
  · simp only [List.mem_cons, List.mem_singleton, List.not_mem_nil, or_false] at hm
    rcases hm with hm | hm | hm
    · exact digit_char_ne_colon _ (by omega) hm.symm
    · exact digit_char_ne_colon _ (by omega) hm.symm
    · exact digit_char_ne_colon _ (by omega) hm.symm

theorem dotted_decimal_no_colon (a : in_addr) : ':' ∉ dotted_decimal a := by
  unfold dotted_decimal
  have h0 := render_octet_no_colon a.b0.val (by omega)
  have h1 := render_octet_no_colon a.b1.val (by omega)
  have h2 := render_octet_no_colon a.b2.val (by omega)
  have h3 := render_octet_no_colon a.b3.val (by omega)
  simp only [List.mem_append, List.mem_cons, not_or]
  exact ⟨h0, by decide, h1, by decide, h2, by decide, h3⟩

theorem address_part_self (l : List Char) (h : ':' ∉ l) : address_part l = l := by
  unfold address_part
  rw [List.takeWhile_eq_self_iff]
  intro c hc
  simp only [ne_eq, decide_not, Bool.not_eq_true', decide_eq_false_iff_not]
  intro hcc
  exact h (hcc ▸ hc)

theorem address_part_append (l rest : List Char) (h : ':' ∉ l) :
    address_part (l ++ ':' :: rest) = l := by
  unfold address_part
  induction l with
  | nil => simp [List.takeWhile]
  | cons c l ih =>
    have hc : c ≠ ':' := fun hcc => h (by simp [hcc])
    have hl : ':' ∉ l := fun hm => h (List.mem_cons_of_mem c hm)
    have e : List.takeWhile (fun c => decide (c ≠ ':')) (c :: (l ++ ':' :: rest)) =
        c :: List.takeWhile (fun c => decide (c ≠ ':')) (l ++ ':' :: rest) := by
      rw [List.takeWhile_cons, if_pos (by simpa using hc)]
    rw [List.cons_append, e, ih hl]

theorem take_colon_split (str : List Char) (i : Nat) (hi1 : 1 ≤ i)
    (hc : str[i - 1]? = some ':') : str = str.take (i - 1) ++ ':' :: str.drop i := by
  obtain ⟨hlt, hget⟩ := List.getElem?_eq_some_iff.1 hc
  have h := List.drop_eq_getElem_cons hlt
  rw [hget, show i - 1 + 1 = i by omega] at h
  rw [← h, List.take_append_drop]

theorem scan_finish_type_ipv4 (s0 s : scan_state) (h : scan_finish s0 = .ok s)
    (hty : s.type = COC_IPV4_ADDR) :
    s0.type &&& COC_IPV4_ADDR = COC_IPV4_ADDR ∧ s.service = s0.service ∧ s.sb = s0.sb := by
  rw [scan_finish_eq] at h
  by_cases h1 : s0.type &&& COC_IPV4_ADDR = COC_IPV4_ADDR
  · rw [if_pos h1] at h
    simp only [Except.ok.injEq] at h
    rw [← h]
    exact ⟨h1, rfl, rfl⟩
  · exfalso
    rw [if_neg h1] at h
    split_ifs at h with h2 h3 h4
    · simp only [Except.ok.injEq] at h
      rw [← h] at hty
      have h8 : COC_HOST_ADDR = COC_IPV4_ADDR := hty
      exact absurd h8 (by decide)
    · simp only [Except.ok.injEq] at h
      rw [← h] at hty
      rw [hty] at h1
      exact h1 (by decide)

theorem coc_rule_build_ipv4 (libc : Libc) (host : List Char) (port : Nat)
    (r : coc_rule_type) (st : coc_state) :
    coc_rule_build libc COC_IPV4_ADDR host port r st =
      match libc.inet_pton4 host with
      | some a => .ok (SLIST_INSERT_HEAD st ⟨.ipv4 a, htons port, r⟩)
      | none => .error (.invalid_ipv4_literal host) := by
  rfl

/-- C14. With a C library whose `inet_pton (AF_INET, ...)` is the strict
conversion, every token that is accepted and classified as IPv4 inserts one
IPv4 entry, and the dotted-decimal text of the stored address is exactly the
address part of the token, the text before the first colon. -/
theorem ipv4_round_trip (libc : Libc) (str : List Char) (s : scan_state)
    (r : coc_rule_type) (st st1 : coc_state)
    (hstrict : ∀ t a, libc.inet_pton4 t = some a → inet_pton4_ref t = some a)
    (hscan : coc_rule_scan str = .ok s) (hty : s.type = COC_IPV4_ADDR)
    (hadd : coc_rule_add libc str r st = .ok st1) :
    ∃ a port, st1 = SLIST_INSERT_HEAD st ⟨.ipv4 a, port, r⟩ ∧
      dotted_decimal a = address_part str := by
  obtain ⟨s0, s2, port, h0, h1, h2, h3⟩ := coc_rule_add_inv libc str r st st1 hadd
  have hs : s2 = s := by
    unfold coc_rule_scan at hscan
    rw [h0] at hscan
    simp only at hscan
    rw [h1] at hscan
    simp only [Except.ok.injEq] at hscan
    exact hscan
  subst hs
  obtain ⟨hand, hsv, hsb⟩ := scan_finish_type_ipv4 s0 s2 h1 hty
  have hsb0 : s2.sb = IPV6_SB_NONE := by
    rw [hsb]
    by_contra hne
    have h6 := scan_loop_sb str 0 scan_state.init s0 scan_init_sb h0 hne
    rw [h6] at hand
    exact absurd hand (by decide)
  have hsvc := scan_loop_service str str 0 scan_state.init s0 rfl
    (fun i hi => absurd hi (by simp [scan_state.init])) h0
  have hhost : coc_rule_host str s2 =
      match s2.service with
      | some i => str.take (i - 1)
      | none => str := by
    unfold coc_rule_host
    simp only [hsb0, reduceCtorEq, if_false, Nat.sub_zero]
  rw [hty, coc_rule_build_ipv4] at h3
  cases hp : libc.inet_pton4 (coc_rule_host str s2) with
  | none =>
    rw [hp] at h3
    exact absurd h3 (by simp)
  | some a =>
    rw [hp] at h3
    simp only [Except.ok.injEq] at h3
    refine ⟨a, htons port, h3.symm, ?_⟩
    have htxt := inet_pton4_ref_text _ a (hstrict _ a hp)
    have hnc : ':' ∉ coc_rule_host str s2 := htxt ▸ dotted_decimal_no_colon a
    rw [htxt]
    rw [hhost] at hnc ⊢
    cases hs : s2.service with
    | none =>
      rw [hs] at hnc
      exact (address_part_self str hnc).symm
    | some i =>
      rw [hs] at hnc
      obtain ⟨hi1, -, hc⟩ := hsvc i (hsv ▸ hs)
      have hsplit := take_colon_split str i hi1 hc
      simp only
      conv_rhs => rw [hsplit]
      exact (address_part_append _ _ hnc).symm

/-- Witness for C14: the token `10.0.0.1:22` with the strict conversion. -/
theorem ipv4_round_trip_witness :
    (∀ t a, libc_ref.inet_pton4 t = some a → inet_pton4_ref t = some a) ∧
    coc_rule_scan "10.0.0.1:22".toList = .ok ⟨COC_IPV4_ADDR, some 9, IPV6_SB_NONE, 1, 4, 1⟩ ∧
    coc_rule_add libc_ref "10.0.0.1:22".toList COC_ALLOW coc_state.initial =
      .ok ⟨[⟨.ipv4 ⟨10, 0, 0, 1⟩, htons 22, COC_ALLOW⟩], false, false⟩ ∧
    dotted_decimal ⟨10, 0, 0, 1⟩ = "10.0.0.1".toList ∧
    address_part "10.0.0.1:22".toList = "10.0.0.1".toList ∧
    ∃ a port, (⟨[⟨.ipv4 ⟨10, 0, 0, 1⟩, htons 22, COC_ALLOW⟩], false, false⟩ : coc_state) =
        SLIST_INSERT_HEAD coc_state.initial ⟨.ipv4 a, port, COC_ALLOW⟩ ∧
      dotted_decimal a = address_part "10.0.0.1:22".toList :=
  ⟨fun _ _ h => h, by decide, by decide, by decide, by decide,
   ipv4_round_trip libc_ref "10.0.0.1:22".toList ⟨COC_IPV4_ADDR, some 9, IPV6_SB_NONE, 1, 4, 1⟩
     COC_ALLOW coc_state.initial ⟨[⟨.ipv4 ⟨10, 0, 0, 1⟩, htons 22, COC_ALLOW⟩], false, false⟩
     (fun _ _ h => h) (by decide) rfl (by decide)⟩

/-- The scan alone does not reject a leading zero: a C library whose
conversion reads `010.0.0.1` as `10.0.0.1` makes the token an accepted IPv4
token whose stored address has another dotted-decimal text. -/
theorem leading_zero_token (libc : Libc) (r : coc_rule_type) (st : coc_state)
    (h : libc.inet_pton4 "010.0.0.1".toList = some ⟨10, 0, 0, 1⟩) :
    coc_rule_scan "010.0.0.1".toList = .ok ⟨COC_IPV4_ADDR, none, IPV6_SB_NONE, 0, 4, 1⟩ ∧
    coc_rule_add libc "010.0.0.1".toList r st =
      .ok (SLIST_INSERT_HEAD st ⟨.ipv4 ⟨10, 0, 0, 1⟩, htons 0, r⟩) ∧
    dotted_decimal ⟨10, 0, 0, 1⟩ ≠ address_part "010.0.0.1".toList := by
  refine ⟨by decide, ?_, by decide⟩
  exact coc_rule_add_ipv4 libc _ ⟨COC_IPV4_ADDR, none, IPV6_SB_NONE, 0, 4, 1⟩ ⟨10, 0, 0, 1⟩ r st
    (by decide) rfl rfl rfl h

/-! ## The reverse lookup: failure and independence -/

theorem connect_loop_failed (libc : Libc) (addr : sockaddr)
    (hfail : ∀ k, libc.getnameinfo k addr = none) (l : List coc_entry) :
    ∀ (hbuf : List Char) (n : Nat),
      (connect_loop libc addr l hbuf false n).decision =
        verdict_of ((l.filter (fun e => !e.isGlob)).find?
          (fun e => coc_rule_match libc e addr hbuf)) := by
  induction l with
  | nil =>
    intro hbuf n
    rfl
  | cons e l ih =>
    intro hbuf n
    by_cases hg : e.isGlob = true
    · rw [connect_loop]
      simp only [hg, Bool.not_false, Bool.and_self, if_true, hfail n]
      rw [ih hbuf (n + 1)]
      simp [hg]
    · have hg2 : e.isGlob = false := by simpa using hg
      rw [connect_loop]
      simp only [hg2, Bool.false_and, Bool.false_eq_true, if_false]
      by_cases hm : coc_rule_match libc e addr hbuf = true
      · simp [hg2, hm, verdict_of]
      · simp [hg2, hm, ih hbuf n]

theorem connect_loop_no_globs (libc : Libc) (addr : sockaddr) (l : List coc_entry)
    (hl : ∀ e ∈ l, e.isGlob = false) :
    ∀ (hbuf : List Char) (done : Bool) (n : Nat),
      connect_loop libc addr l hbuf done n =
        ⟨verdict_of (l.find? (fun e => coc_rule_match libc e addr hbuf)), n⟩ := by
  induction l with
  | nil =>
    intro hbuf done n
    rfl
  | cons e l ih =>
    intro hbuf done n
    have hg2 : e.isGlob = false := hl e (by simp)
    have hl2 : ∀ x ∈ l, x.isGlob = false := fun x hx => hl x (List.mem_cons_of_mem e hx)
    rw [connect_loop]
    simp only [hg2, Bool.false_and, Bool.false_eq_true, if_false]
    by_cases hm : coc_rule_match libc e addr hbuf = true
    · simp [hm, verdict_of]
    · simp [hm, ih hl2 hbuf done n]

/-- C22. When `needs_dns_lookup` is set and every call of `getnameinfo` for
the destination fails, every Glob entry is skipped, a universal `*` entry
included: the decision is the decision made on the store with all Glob
entries removed, that is the verdict of the first entry of kind IPv4 or IPv6
that matches, and Allow when no such entry matches. -/
theorem glob_entries_skipped (libc : Libc) (st : coc_state) (addr : sockaddr)
    (hn : st.needs_dns_lookup = true) (hfail : ∀ k, libc.getnameinfo k addr = none) :
    (connect libc st (some addr)).decision =
      (connect libc (drop_globs st) (some addr)).decision ∧
    (st.initialized = true → addr.isInet = true →
      (connect libc st (some addr)).decision =
        verdict_of ((st.coc_list_head.filter (fun e => !e.isGlob)).find?
          (fun e => coc_rule_match libc e addr ['*']))) ∧
    ((∀ e ∈ st.coc_list_head, e.isGlob = false → coc_rule_match libc e addr ['*'] = false) →
      (connect libc st (some addr)).decision = .Allow) := by
  have hfilt : ∀ e ∈ st.coc_list_head.filter (fun e => !e.isGlob), e.isGlob = false := by
    intro e he
    simpa using (List.mem_filter.1 he).2
  have key : st.initialized = true → addr.isInet = true →
      (connect libc st (some addr)).decision =
        verdict_of ((st.coc_list_head.filter (fun e => !e.isGlob)).find?
          (fun e => coc_rule_match libc e addr ['*'])) := by
    intro hi hin
    simp only [connect, hi, hin, hn, Bool.not_true, Bool.false_eq_true, if_false, if_true]
    exact connect_loop_failed libc addr hfail _ _ _
  refine ⟨?_, key, ?_⟩
  · by_cases hi : st.initialized = true
    · by_cases hin : addr.isInet = true
      · rw [key hi hin]
        simp only [connect, drop_globs, hi, hin, Bool.not_true, Bool.false_eq_true, if_false,
          if_true]
        rw [connect_loop_no_globs libc addr _ hfilt]
      · simp [connect, drop_globs, hin]
    · simp [connect, drop_globs, hi]
  · intro hno
    by_cases hi : st.initialized = true
    · by_cases hin : addr.isInet = true
      · rw [key hi hin]
        have : (st.coc_list_head.filter (fun e => !e.isGlob)).find?
            (fun e => coc_rule_match libc e addr ['*']) = none := by
          rw [List.find?_eq_none]
          intro e he
          have := List.mem_filter.1 he
          rw [hno e this.1 (by simpa using this.2)]
          simp
        rw [this]
        rfl
      · simp [connect, hin]
    · simp [connect, hi]

/-- Witness for C22: with the store of `COC_BLOCK="*;*.evil.com"` and
`COC_ALLOW="8.8.8.8"` and a reverse lookup that fails, the universal `*` is
skipped and 1.2.3.4:80 is allowed, as on the store without Glob entries. -/
theorem glob_entries_skipped_witness :
    st_block_star.needs_dns_lookup = true ∧
    (∀ k, libc_ref.getnameinfo k dest_1234_80 = none) ∧
    drop_globs st_block_star = ⟨[⟨.ipv4 ⟨8, 8, 8, 8⟩, htons 0, COC_ALLOW⟩], true, true⟩ ∧
    (connect libc_ref st_block_star (some dest_1234_80)).decision = .Allow ∧
    (connect libc_ref st_block_star (some dest_1234_80)).decision =
      (connect libc_ref (drop_globs st_block_star) (some dest_1234_80)).decision :=
  ⟨rfl, fun _ => rfl, by decide, by decide,
   (glob_entries_skipped libc_ref st_block_star dest_1234_80 rfl (fun _ => rfl)).1⟩

/-- C23. When `needs_dns_lookup` is false the outcome of `connect`, for
every store and every destination, is the same for any two behaviours of
`getnameinfo`, and `getnameinfo` is never called. -/
theorem decision_without_lookup (libc : Libc) (st : coc_state) (addr : Option sockaddr)
    (g1 g2 : Nat → sockaddr → Option (List Char)) (hn : st.needs_dns_lookup = false) :
    connect (with_getnameinfo libc g1) st addr = connect (with_getnameinfo libc g2) st addr ∧
    (connect (with_getnameinfo libc g1) st addr).decision =
      (connect (with_getnameinfo libc g2) st addr).decision ∧
    (connect libc st addr).lookups = 0 := by
  have h : ∀ lc : Libc, ∀ g, connect (with_getnameinfo lc g) st addr = connect lc st addr := by
    intro lc g
    cases addr with
    | none => rfl
    | some a =>
      by_cases hi : st.initialized = true
      · by_cases hin : a.isInet = true
        · simp only [connect, hi, hin, hn, Bool.not_true, Bool.not_false, Bool.false_eq_true,
            if_false, if_true, connect_loop_done]
          rfl
        · simp [connect, hin]
      · simp [connect, hi]
  refine ⟨by rw [h, h], by rw [h, h], ?_⟩
  cases addr with
  | none => simp [connect]
  | some a =>
    by_cases hi : st.initialized = true
    · by_cases hin : a.isInet = true
      · simp [connect, hi, hin, hn, connect_loop_done]
      · simp [connect, hin]
    · simp [connect, hi]

/-- Witness for C23: the store of `COC_ALLOW="10.0.0.1:22"` with a reverse
lookup that fails and with one that answers. -/
theorem decision_without_lookup_witness :
    st_ssh.needs_dns_lookup = false ∧
    connect (with_getnameinfo libc_ref (fun _ _ => none)) st_ssh (some dest_1234_80) =
      connect (with_getnameinfo libc_ref (fun _ _ => some "evil.com".toList)) st_ssh
        (some dest_1234_80) ∧
    (connect libc_ref st_ssh (some dest_1234_80)).lookups = 0 :=
  ⟨rfl,
   (decision_without_lookup libc_ref st_ssh (some dest_1234_80) (fun _ _ => none)
      (fun _ _ => some "evil.com".toList) rfl).1,
   by decide⟩

/-! ## The candidate set during and after the scan -/

theorem candidates_ok_lt (t : Nat) (h : candidates_ok t = true) : t < 16 := by
  unfold candidates_ok at h
  simp only [Bool.or_eq_true, beq_iff_eq, Bool.and_eq_true, decide_eq_true_eq] at h
  rcases h with ((h | h) | h) | h
  · rw [h]; decide
  · rw [h]; decide
  · rw [h]; decide
  · exact h.2

theorem candidates_ok_table :
    ∀ t, t < 16 → candidates_ok t = true →
      t ≠ 0 ∧
      (t ≠ COC_IPV6_ADDR → candidates_ok (and_not t COC_IPV6_ADDR) = true) ∧
      (t ≠ COC_IPV6_ADDR → and_not t COC_IPV6_ADDR ≠ COC_IPV4_ADDR →
        candidates_ok (and_not (and_not t COC_IPV6_ADDR) COC_IPV4_ADDR) = true) ∧
      (t ≠ COC_IPV4_ADDR → candidates_ok (and_not t COC_IPV4_ADDR) = true) ∧
      (and_not t (COC_IPV4_ADDR ||| COC_IPV6_ADDR) ≠ 0 →
        candidates_ok (and_not t (COC_IPV4_ADDR ||| COC_IPV6_ADDR)) = true) ∧
      (resolved_type t = COC_IPV4_ADDR ∨ resolved_type t = COC_IPV6_ADDR ∨
        resolved_type t = COC_HOST_ADDR ∨ resolved_type t = COC_GLOB_ADDR) := by
  intro t ht
  interval_cases t <;> decide

theorem scan_char_candidates (p : Nat) (c : Char) (s s1 : scan_state) (b : Bool)
    (hv : candidates_ok s.type = true) (h : scan_char p c s = .ok (s1, b)) :
    candidates_ok s1.type = true := by
  obtain ⟨-, h2, h3, h4, h5, -⟩ := candidates_ok_table s.type (candidates_ok_lt _ hv) hv
  rw [scan_char_eq] at h
  split_ifs at h with c1 c2 c3 c4 c5 c6 c7 c8 c9
  · rw [(scan_star_spec s s1 b h).2.2.2.2.1]
    decide
  · rw [(scan_open_spec p s s1 b h).2.2.2.2.2]
    decide
  · rw [(scan_close_spec s s1 b h).2.2.2.2.2.2]
    decide
  · rw [scan_colon_eq] at h
    split_ifs at h with d1 d2 d3 d4 d5
    all_goals
      simp only [Except.ok.injEq, Prod.mk.injEq] at h
      obtain ⟨rfl, -⟩ := h
      first
        | exact hv
        | exact (by decide : candidates_ok COC_IPV6_ADDR = true)
  · unfold scan_dot at h
    dsimp only at h
    split_ifs at h with d1 d2 d3
    · simp only [Except.ok.injEq, Prod.mk.injEq] at h
      obtain ⟨rfl, -⟩ := h
      exact h3 d1 d3
    · simp only [Except.ok.injEq, Prod.mk.injEq] at h
      obtain ⟨rfl, -⟩ := h
      exact h2 d1
  · unfold scan_digit at h
    dsimp only at h
    split_ifs at h with d1 d2 d3 d4
    · simp only [Except.ok.injEq, Prod.mk.injEq] at h
      obtain ⟨rfl, -⟩ := h
      exact h4 d4
    · simp only [Except.ok.injEq, Prod.mk.injEq] at h
      obtain ⟨rfl, -⟩ := h
      exact hv
    · simp only [Except.ok.injEq, Prod.mk.injEq] at h
      obtain ⟨rfl, -⟩ := h
      exact hv
  · unfold scan_xdigit at h
    split_ifs at h with d1
    simp only [Except.ok.injEq, Prod.mk.injEq] at h
    obtain ⟨rfl, -⟩ := h
    exact h4 d1
  · unfold scan_alnum at h
    split_ifs at h with d1
    simp only [Except.ok.injEq, Prod.mk.injEq] at h
    obtain ⟨rfl, -⟩ := h
    exact h5 d1
  · unfold scan_dash at h
    split_ifs at h with d1
    simp only [Except.ok.injEq, Prod.mk.injEq] at h
    obtain ⟨rfl, -⟩ := h
    exact h5 (fun h0 => d1 (Or.inl h0))

theorem scan_loop_candidates (cs : List Char) :
    ∀ (p : Nat) (s s2 : scan_state), candidates_ok s.type = true →
      scan_loop cs p s = .ok s2 → candidates_ok s2.type = true := by
  induction cs with
  | nil =>
    intro p s s2 hv h
    simp only [scan_loop, Except.ok.injEq] at h
    rw [← h]
    exact hv
  | cons c cs ih =>
    intro p s s2 hv h
    obtain ⟨s1, b, hc, hr⟩ := scan_loop_cons c cs p s s2 h
    have hv1 := scan_char_candidates p c s s1 b hv hc
    rcases hr with ⟨-, rfl⟩ | ⟨-, hr⟩
    · exact hv1
    · exact ih (p + 1) s1 s2 hv1 hr

theorem scan_finish_resolved (s : scan_state) :
    scan_finish s =
      if resolved_type s.type = COC_IPV6_ADDR ∧ s.sb = IPV6_SB_OPEN then
        .error .bracket_close_missing
      else if resolved_type s.type = COC_IPV4_ADDR ∨ resolved_type s.type = COC_IPV6_ADDR ∨
          resolved_type s.type = COC_HOST_ADDR ∨ resolved_type s.type = COC_GLOB_ADDR then
        .ok ⟨resolved_type s.type, s.service, s.sb, s.colon_count, s.ipv4_segment, s.segment⟩
      else .error .assertion_failed := by
  unfold scan_finish resolved_type
  dsimp only
  by_cases h1 : s.type &&& COC_IPV4_ADDR = COC_IPV4_ADDR
  · simp only [if_pos h1]
  · simp only [if_neg h1]
    by_cases h2 : s.type &&& COC_HOST_ADDR = COC_HOST_ADDR
    · simp only [if_pos h2]
    · simp only [if_neg h2]

theorem scan_init_candidates : candidates_ok scan_state.init.type = true := by
  decide

/-- C24. For every token on which the scanning loop ends without error, the
candidate set `type` is never empty, neither at the end nor after any prefix
of the token, and the end-of-scan resolution leaves exactly one of IPv4,
IPv6, Hostname and Glob: `scan_finish` either reports the missing `]` or
returns the locals with the resolved kind, and the assertion never fails. -/
theorem scan_assertion_holds (str : List Char) (s0 : scan_state)
    (h : scan_loop str 0 scan_state.init = .ok s0) :
    s0.type ≠ 0 ∧
    (∀ pre s, pre <+: str → scan_loop pre 0 scan_state.init = .ok s → s.type ≠ 0) ∧
    (resolved_type s0.type = COC_IPV4_ADDR ∨ resolved_type s0.type = COC_IPV6_ADDR ∨
      resolved_type s0.type = COC_HOST_ADDR ∨ resolved_type s0.type = COC_GLOB_ADDR) ∧
    (scan_finish s0 = .error .bracket_close_missing ∨
      scan_finish s0 = .ok ⟨resolved_type s0.type, s0.service, s0.sb, s0.colon_count,
        s0.ipv4_segment, s0.segment⟩) ∧
    scan_finish s0 ≠ .error .assertion_failed ∧
    coc_rule_scan str ≠ .error .assertion_failed := by
  have hv := scan_loop_candidates str 0 scan_state.init s0 scan_init_candidates h
  obtain ⟨hne, -, -, -, -, hres⟩ := candidates_ok_table s0.type (candidates_ok_lt _ hv) hv
  have hfin : scan_finish s0 = .error .bracket_close_missing ∨
      scan_finish s0 = .ok ⟨resolved_type s0.type, s0.service, s0.sb, s0.colon_count,
        s0.ipv4_segment, s0.segment⟩ := by
    rw [scan_finish_resolved]
    by_cases h1 : resolved_type s0.type = COC_IPV6_ADDR ∧ s0.sb = IPV6_SB_OPEN
    · exact Or.inl (if_pos h1)
    · rw [if_neg h1, if_pos hres]
      exact Or.inr rfl
  have hna : scan_finish s0 ≠ .error .assertion_failed := by
    rcases hfin with hf | hf <;> rw [hf] <;> simp
  refine ⟨hne, ?_, hres, hfin, hna, ?_⟩
  · intro pre s _ hs
    have hvs := scan_loop_candidates pre 0 scan_state.init s scan_init_candidates hs
    exact (candidates_ok_table s.type (candidates_ok_lt _ hvs) hvs).1
  · unfold coc_rule_scan
    rw [h]
    exact hna

/-- Witness for C24: the token `dead:beef`, on which the candidate set is
still IPv6, Glob and Hostname when the loop ends, resolves to Hostname. -/
theorem scan_assertion_holds_witness :
    scan_loop "dead:beef".toList 0 scan_state.init =
      .ok ⟨14, some 5, IPV6_SB_NONE, 1, 1, 0⟩ ∧
    resolved_type 14 = COC_HOST_ADDR ∧
    scan_finish ⟨14, some 5, IPV6_SB_NONE, 1, 1, 0⟩ =
      .ok ⟨COC_HOST_ADDR, some 5, IPV6_SB_NONE, 1, 1, 0⟩ ∧
    coc_rule_scan "dead:beef".toList ≠ .error .assertion_failed :=
  ⟨by decide, by decide, by decide,
   (scan_assertion_holds "dead:beef".toList ⟨14, some 5, IPV6_SB_NONE, 1, 1, 0⟩
      (by decide)).2.2.2.2.2⟩

/-! ## The pattern of a Glob entry -/

theorem isAlpha_bounds (c : Char) (h : c.isAlpha = true) : 32 < c.toNat ∧ c.toNat < 127 := by
  simp only [Char.isAlpha, Char.isUpper, Char.isLower, Bool.or_eq_true, Bool.and_eq_true,
    decide_eq_true_eq] at h
  rcases h with ⟨h1, h2⟩ | ⟨h1, h2⟩
  · have a : 65 ≤ c.toNat := h1
    have b : c.toNat ≤ 90 := h2
    omega
  · have a : 97 ≤ c.toNat := h1
    have b : c.toNat ≤ 122 := h2
    omega

theorem glob_char_printable (c : Char) (h : glob_char c = true) :
    32 < c.toNat ∧ c.toNat < 127 := by
  unfold glob_char at h
  simp only [Bool.or_eq_true, beq_iff_eq] at h
  rcases h with ((((h | h) | h) | h) | h) | h
  · exact isAlpha_bounds c h
  · have := (isDigit_digit_char c h).1
    simp only [Char.isDigit, Bool.and_eq_true, decide_eq_true_eq] at h
    have a : 48 ≤ c.toNat := h.1
    have b : c.toNat ≤ 57 := h.2
    omega
  · rw [h]; decide
  · rw [h]; decide
  · rw [h]; decide
  · rw [h]; decide

theorem isxdigit_glob_char (c : Char) (h : isxdigit c = true) : glob_char c = true := by
  unfold isxdigit at h
  simp only [Bool.or_eq_true, Bool.and_eq_true, decide_eq_true_eq] at h
  unfold glob_char
  rcases h with (h | ⟨h1, h2⟩) | ⟨h1, h2⟩
  · simp [h]
  · have a : 97 ≤ c.toNat := h1
    have b : c.toNat ≤ 102 := h2
    have : c.isAlpha = true := by
      simp only [Char.isAlpha, Char.isUpper, Char.isLower, Bool.or_eq_true, Bool.and_eq_true,
        decide_eq_true_eq]
      right
      constructor
      · show 97 ≤ c.toNat
        omega
      · show c.toNat ≤ 122
        omega
    simp [this]
  · have a : 65 ≤ c.toNat := h1
    have b : c.toNat ≤ 70 := h2
    have : c.isAlpha = true := by
      simp only [Char.isAlpha, Char.isUpper, Char.isLower, Bool.or_eq_true, Bool.and_eq_true,
        decide_eq_true_eq]
      left
      constructor
      · show 65 ≤ c.toNat
        omega
      · show c.toNat ≤ 90
        omega
    simp [this]

theorem isalnum_glob_char (c : Char) (h : isalnum c = true) : glob_char c = true := by
  unfold isalnum at h
  simp only [Char.isAlphanum, Bool.or_eq_true] at h
  unfold glob_char
  rcases h with h | h <;> simp [h]

/-- What one turn of the loop that does not die tells about its character,
about `break`, and about the brackets. -/
theorem scan_char_class (p : Nat) (c : Char) (s s1 : scan_state) (b : Bool)
    (h : scan_char p c s = .ok (s1, b)) :
    (glob_char c = true ∨ c = ':' ∨ c = '[' ∨ c = ']') ∧
    (c = '[' ∨ c = ']' → s1.type = COC_IPV6_ADDR) ∧
    (b = true → s1.type = COC_IPV4_ADDR ∨ s1.type = COC_IPV6_ADDR) ∧
    (c ≠ ':' → s1.service = s.service ∧ s1.colon_count = s.colon_count) ∧
    (p = 0 → c ≠ '-' ∧ c ≠ '_') := by
  rw [scan_char_eq] at h
  split_ifs at h with c1 c2 c3 c4 c5 c6 c7 c8 c9
  · obtain ⟨hb, hsv, -, hcc, -, -⟩ := scan_star_spec s s1 b h
    subst c1
    refine ⟨Or.inl (by decide), ?_, ?_, fun _ => ⟨hsv, hcc⟩, fun _ => by decide⟩
    · rintro (h0 | h0) <;> exact absurd h0 (by decide)
    · intro hb2
      rw [hb] at hb2
      exact absurd hb2 (by simp)
  · obtain ⟨hb, -, hsv, -, hcc, hty⟩ := scan_open_spec p s s1 b h
    subst c2
    refine ⟨Or.inr (Or.inr (Or.inl rfl)), fun _ => hty, ?_, fun _ => ⟨hsv, hcc⟩,
      fun _ => by decide⟩
    intro hb2
    rw [hb] at hb2
    exact absurd hb2 (by simp)
  · obtain ⟨hb, -, -, hsv, -, hcc, hty⟩ := scan_close_spec s s1 b h
    subst c3
    refine ⟨Or.inr (Or.inr (Or.inr rfl)), fun _ => hty, ?_, fun _ => ⟨hsv, hcc⟩,
      fun _ => by decide⟩
    intro hb2
    rw [hb] at hb2
    exact absurd hb2 (by simp)
  · subst c4
    refine ⟨Or.inr (Or.inl rfl), ?_, ?_, fun h0 => absurd rfl h0, fun _ => by decide⟩
    · rintro (h0 | h0) <;> exact absurd h0 (by decide)
    · intro hb2
      rw [scan_colon_eq] at h
      split_ifs at h with d1 d2 d3 d4 d5
      all_goals
        simp only [Except.ok.injEq, Prod.mk.injEq] at h
        obtain ⟨rfl, hb3⟩ := h
        first
          | exact Or.inr rfl
          | exact Or.inl rfl
          | (rw [← hb3] at hb2; exact absurd hb2 (by simp))
  · obtain ⟨hb, hsv, -, hcc, -, -⟩ := scan_dot_spec s s1 b h
    subst c5
    refine ⟨Or.inl (by decide), ?_, ?_, fun _ => ⟨hsv, hcc⟩, fun _ => by decide⟩
    · rintro (h0 | h0) <;> exact absurd h0 (by decide)
    · intro hb2
      rw [hb] at hb2
      exact absurd hb2 (by simp)
  · obtain ⟨hb, hsv, -, hcc, -, -⟩ := scan_digit_spec c s s1 b h
    refine ⟨Or.inl (isxdigit_glob_char c (isdigit_isxdigit c c6)), ?_, ?_,
      fun _ => ⟨hsv, hcc⟩, fun _ => ?_⟩
    · rintro (h0 | h0)
      · exact absurd h0 c2
      · exact absurd h0 c3
    · intro hb2
      rw [hb] at hb2
      exact absurd hb2 (by simp)
    · constructor <;> rintro rfl <;> exact absurd c6 (by decide)
  · obtain ⟨hb, hsv, -, hcc, -, -⟩ := scan_xdigit_spec s s1 b h
    refine ⟨Or.inl (isxdigit_glob_char c c7), ?_, ?_, fun _ => ⟨hsv, hcc⟩, fun _ => ?_⟩
    · rintro (h0 | h0)
      · exact absurd h0 c2
      · exact absurd h0 c3
    · intro hb2
      rw [hb] at hb2
      exact absurd hb2 (by simp)
    · constructor <;> rintro rfl <;> exact absurd c7 (by decide)
  · obtain ⟨hb, hsv, -, hcc, -, -⟩ := scan_alnum_spec c s s1 b h
    refine ⟨Or.inl (isalnum_glob_char c c8), ?_, ?_, fun _ => ⟨hsv, hcc⟩, fun _ => ?_⟩
    · rintro (h0 | h0)
      · exact absurd h0 c2
      · exact absurd h0 c3
    · intro hb2
      rw [hb] at hb2
      exact absurd hb2 (by simp)
    · constructor <;> rintro rfl <;> exact absurd c8 (by decide)
  · obtain ⟨hb, hsv, -, hcc, -, -⟩ := scan_dash_spec p c s s1 b h
    have hp : p ≠ 0 := by
      intro hp0
      unfold scan_dash at h
      rw [if_pos (Or.inr hp0)] at h
      exact absurd h (by simp)
    refine ⟨Or.inl ?_, ?_, ?_, fun _ => ⟨hsv, hcc⟩, fun h0 => absurd h0 hp⟩
    · rcases c9 with rfl | rfl <;> decide
    · rintro (h0 | h0)
      · exact absurd h0 c2
      · exact absurd h0 c3
    · intro hb2
      rw [hb] at hb2
      exact absurd hb2 (by simp)

theorem candidates_glob_table :
    ∀ t, t < 16 → candidates_ok t = true →
      (and_not t COC_IPV6_ADDR = COC_GLOB_ADDR → t = COC_GLOB_ADDR) ∧
      (and_not (and_not t COC_IPV6_ADDR) COC_IPV4_ADDR = COC_GLOB_ADDR → t = COC_GLOB_ADDR) ∧
      (and_not t COC_IPV4_ADDR = COC_GLOB_ADDR → t = COC_GLOB_ADDR) ∧
      (and_not t (COC_IPV4_ADDR ||| COC_IPV6_ADDR) = COC_GLOB_ADDR → t = COC_GLOB_ADDR) ∧
      (resolved_type t = COC_GLOB_ADDR → t = COC_GLOB_ADDR) := by
  intro t ht
  interval_cases t <;> decide

/-- The candidate set becomes Glob alone only at a `*`. -/
theorem scan_char_glob_origin (p : Nat) (c : Char) (s s1 : scan_state) (b : Bool)
    (hv : candidates_ok s.type = true) (h : scan_char p c s = .ok (s1, b))
    (hg : s1.type = COC_GLOB_ADDR) : s.type = COC_GLOB_ADDR ∨ c = '*' := by
  obtain ⟨h2, h3, h4, h5, -⟩ := candidates_glob_table s.type (candidates_ok_lt _ hv) hv
  rw [scan_char_eq] at h
  split_ifs at h with c1 c2 c3 c4 c5 c6 c7 c8 c9
  · exact Or.inr c1
  · rw [(scan_open_spec p s s1 b h).2.2.2.2.2] at hg
    exact absurd hg (by decide)
  · rw [(scan_close_spec s s1 b h).2.2.2.2.2.2] at hg
    exact absurd hg (by decide)
  · rw [scan_colon_eq] at h
    split_ifs at h with d1 d2 d3 d4 d5
    all_goals
      simp only [Except.ok.injEq, Prod.mk.injEq] at h
      obtain ⟨rfl, -⟩ := h
      first
        | exact Or.inl hg
        | exact absurd (show COC_IPV6_ADDR = COC_GLOB_ADDR from hg) (by decide)
        | exact absurd (show COC_IPV4_ADDR = COC_GLOB_ADDR from hg) (by decide)
  · unfold scan_dot at h
    dsimp only at h
    split_ifs at h with d1 d2 d3
    · simp only [Except.ok.injEq, Prod.mk.injEq] at h
      obtain ⟨rfl, -⟩ := h
      exact Or.inl (h3 hg)
    · simp only [Except.ok.injEq, Prod.mk.injEq] at h
      obtain ⟨rfl, -⟩ := h
      exact Or.inl (h2 hg)
  · unfold scan_digit at h
    dsimp only at h
    split_ifs at h with d1 d2 d3 d4
    · simp only [Except.ok.injEq, Prod.mk.injEq] at h
      obtain ⟨rfl, -⟩ := h
      exact Or.inl (h4 hg)
    · simp only [Except.ok.injEq, Prod.mk.injEq] at h
      obtain ⟨rfl, -⟩ := h
      exact Or.inl hg
    · simp only [Except.ok.injEq, Prod.mk.injEq] at h
      obtain ⟨rfl, -⟩ := h
      exact Or.inl hg
  · unfold scan_xdigit at h
    split_ifs at h with d1
    simp only [Except.ok.injEq, Prod.mk.injEq] at h
    obtain ⟨rfl, -⟩ := h
    exact Or.inl (h4 hg)
  · unfold scan_alnum at h
    split_ifs at h with d1
    simp only [Except.ok.injEq, Prod.mk.injEq] at h
    obtain ⟨rfl, -⟩ := h
    exact Or.inl (h5 hg)
  · unfold scan_dash at h
    split_ifs at h with d1
    simp only [Except.ok.injEq, Prod.mk.injEq] at h
    obtain ⟨rfl, -⟩ := h
    exact Or.inl (h5 hg)

theorem scan_loop_glob_origin (cs : List Char) :
    ∀ (p : Nat) (s s2 : scan_state), candidates_ok s.type = true →
      scan_loop cs p s = .ok s2 → s2.type = COC_GLOB_ADDR →
      s.type = COC_GLOB_ADDR ∨ '*' ∈ cs := by
  induction cs with
  | nil =>
    intro p s s2 _ h hg
    simp only [scan_loop, Except.ok.injEq] at h
    rw [← h] at hg
    exact Or.inl hg
  | cons c cs ih =>
    intro p s s2 hv h hg
    obtain ⟨s1, b, hc, hr⟩ := scan_loop_cons c cs p s s2 h
    have hv1 := scan_char_candidates p c s s1 b hv hc
    have hs1 : s1.type = COC_GLOB_ADDR ∨ '*' ∈ cs := by
      rcases hr with ⟨-, rfl⟩ | ⟨-, hr⟩
      · exact Or.inl hg
      · exact ih (p + 1) s1 s2 hv1 hr hg
    rcases hs1 with hs1 | hs1
    · rcases scan_char_glob_origin p c s s1 b hv hc hs1 with h0 | h0
      · exact Or.inl h0
      · exact Or.inr (by simp [h0])
    · exact Or.inr (List.mem_cons_of_mem c hs1)

/-- A scan that ends with the candidate set Glob has read every character of
the token, and each of them is a character of a glob pattern or a colon. -/
theorem scan_loop_glob_chars (cs : List Char) :
    ∀ (p : Nat) (s s2 : scan_state), scan_loop cs p s = .ok s2 →
      s2.type = COC_GLOB_ADDR → ∀ c ∈ cs, glob_char c = true ∨ c = ':' := by
  induction cs with
  | nil =>
    intro p s s2 _ _ c hc
    exact absurd hc (by simp)
  | cons c cs ih =>
    intro p s s2 h hg x hx
    obtain ⟨s1, b, hc, hr⟩ := scan_loop_cons c cs p s s2 h
    obtain ⟨hcl, hbr, hbk, -, -⟩ := scan_char_class p c s s1 b hc
    rcases hr with ⟨hb, rfl⟩ | ⟨-, hr⟩
    · rcases hbk hb with h0 | h0 <;> rw [h0] at hg <;> exact absurd hg (by decide)
    · rcases List.mem_cons.1 hx with rfl | hx
      · rcases hcl with h0 | h0 | h0 | h0
        · exact Or.inl h0
        · exact Or.inr h0
        · have := scan_loop_type_ipv6 cs (p + 1) s1 s2 (hbr (Or.inl h0)) hr
          rw [this] at hg
          exact absurd hg (by decide)
        · have := scan_loop_type_ipv6 cs (p + 1) s1 s2 (hbr (Or.inr h0)) hr
          rw [this] at hg
          exact absurd hg (by decide)
      · exact ih (p + 1) s1 s2 hr hg x hx

theorem scan_char_colon_count (p : Nat) (s s1 : scan_state) (b : Bool)
    (h : scan_char p ':' s = .ok (s1, b)) :
    (s.colon_count = 0 → s1.service = some (p + 1) ∧ s1.colon_count = 1) ∧
    (1 ≤ s.colon_count → s1.type = COC_IPV6_ADDR) := by
  rw [scan_char_eq, if_neg (by decide), if_neg (by decide), if_neg (by decide),
    if_pos rfl, scan_colon_eq] at h
  split_ifs at h with d1 d2 d3 d4 d5
  all_goals
    simp only [Except.ok.injEq, Prod.mk.injEq] at h
    obtain ⟨rfl, -⟩ := h
    constructor
    · intro h0
      first
        | exact ⟨rfl, by simp only [h0]⟩
        | (exfalso; omega)
    · intro h0
      first
        | rfl
        | (exfalso; omega)

/-- While the candidate set is not IPv6 alone, the token has no colon before
the one that `service` follows, and none at all when `service` is null. -/
theorem scan_loop_host_colon (full : List Char) (cs : List Char) :
    ∀ (p : Nat) (s s2 : scan_state), full.drop p = cs →
      (s.type ≠ COC_IPV6_ADDR →
        (s.service = none ∧ s.colon_count = 0 ∧ ':' ∉ full.take p) ∨
        (∃ i, s.service = some i ∧ 1 ≤ s.colon_count ∧ ':' ∉ full.take (i - 1))) →
      scan_loop cs p s = .ok s2 → s2.type ≠ COC_IPV6_ADDR →
        (s2.service = none ∧ ':' ∉ full) ∨
        (∃ i, s2.service = some i ∧ ':' ∉ full.take (i - 1)) := by
  induction cs with
  | nil =>
    intro p s s2 hfull hs h hne
    simp only [scan_loop, Except.ok.injEq] at h
    subst h
    have hp : full.length ≤ p := by
      by_contra hlt
      have := congrArg List.length hfull
      simp only [List.length_drop, List.length_nil] at this
      omega
    rcases hs hne with ⟨h1, -, h3⟩ | ⟨i, h1, -, h3⟩
    · rw [List.take_of_length_le hp] at h3
      exact Or.inl ⟨h1, h3⟩
    · exact Or.inr ⟨i, h1, h3⟩
  | cons c cs ih =>
    intro p s s2 hfull hs h hne
    obtain ⟨s1, b, hc, hr⟩ := scan_loop_cons c cs p s s2 h
    have hget : full[p]? = some c := by
      have := List.getElem?_drop full p 0
      rw [hfull] at this
      simpa using this.symm
    have hdrop : full.drop (p + 1) = cs := by
      have := congrArg List.tail hfull
      simpa using this
    have htake : full.take (p + 1) = full.take p ++ [c] := by
      rw [List.take_succ, hget]
      rfl
    have hstep := scan_char_step p c s s1 b hc
    have hs1 : s1.type ≠ COC_IPV6_ADDR →
        (s1.service = none ∧ s1.colon_count = 0 ∧ ':' ∉ full.take (p + 1)) ∨
        (∃ i, s1.service = some i ∧ 1 ≤ s1.colon_count ∧ ':' ∉ full.take (i - 1)) := by
      intro hne1
      have hne0 : s.type ≠ COC_IPV6_ADDR := fun h0 => hne1 (hstep.1 h0)
      by_cases hcol : c = ':'
      · subst hcol
        obtain ⟨hc0, hc1⟩ := scan_char_colon_count p s s1 b hc
        rcases hs hne0 with ⟨-, h2, h3⟩ | ⟨i, -, h2, -⟩
        · obtain ⟨ha, hb⟩ := hc0 h2
          exact Or.inr ⟨p + 1, ha, by omega, by simpa using h3⟩
        · exact absurd (hc1 h2) hne1
      · obtain ⟨hsv, hcc⟩ := (scan_char_class p c s s1 b hc).2.2.2.1 hcol
        rcases hs hne0 with ⟨h1, h2, h3⟩ | ⟨i, h1, h2, h3⟩
        · refine Or.inl ⟨by rw [hsv, h1], by rw [hcc, h2], ?_⟩
          rw [htake]
          simp only [List.mem_append, List.mem_singleton, not_or]
          exact ⟨h3, fun h0 => hcol h0.symm⟩
        · exact Or.inr ⟨i, by rw [hsv, h1], by rw [hcc]; exact h2, h3⟩
    rcases hr with ⟨hb, rfl⟩ | ⟨-, hr⟩
    · obtain ⟨hsv, -⟩ := hstep.2.2.2.2.2 hb
      rcases hs1 hne with ⟨h1, -, -⟩ | ⟨i, h1, -, h3⟩
      · rw [hsv] at h1
        exact absurd h1 (by simp)
      · exact Or.inr ⟨i, h1, h3⟩
    · exact ih (p + 1) s1 s2 hdrop hs1 hr hne

theorem host_entries_globs (port : Nat) (r : coc_rule_type) (l : List sockaddr) :
    ∀ (st : coc_state), ∀ e ∈ (host_entries port r l st).coc_list_head, ∀ g,
      e.addr = .glob g → e ∈ st.coc_list_head := by
  induction l with
  | nil =>
    intro st e he g _
    exact he
  | cons a l ih =>
    intro st e he g hg
    cases a with
    | inet q a =>
      have := ih _ e he g hg
      simp only [SLIST_INSERT_HEAD, List.mem_cons] at this
      rcases this with rfl | h0
      · exact absurd hg (by simp)
      · exact h0
    | inet6 q a =>
      have := ih _ e he g hg
      simp only [SLIST_INSERT_HEAD, List.mem_cons] at this
      rcases this with rfl | h0
      · exact absurd hg (by simp)
      · exact h0
    | other f d => exact ih _ e he g hg

/-- The Glob entries after `switch (type)`: those of before and, in the case
`COC_GLOB_ADDR`, one entry whose pattern is `host`. -/
theorem coc_rule_build_globs (libc : Libc) (type : Nat) (host : List Char) (port : Nat)
    (r : coc_rule_type) (st st1 : coc_state)
    (h : coc_rule_build libc type host port r st = .ok st1) :
    ∀ e ∈ st1.coc_list_head, ∀ g, e.addr = .glob g →
      e ∈ st.coc_list_head ∨ (type = COC_GLOB_ADDR ∧ g = host) := by
  intro e he g hg
  unfold coc_rule_build at h
  split at h
  · split at h
    · injection h with h
      subst h
      simp only [SLIST_INSERT_HEAD, List.mem_cons] at he
      rcases he with rfl | h0
      · exact absurd hg (by simp)
      · exact Or.inl h0
    · exact absurd h (by simp)
  · split at h
    · split at h
      · injection h with h
        subst h
        simp only [SLIST_INSERT_HEAD, List.mem_cons] at he
        rcases he with rfl | h0
        · exact absurd hg (by simp)
        · exact Or.inl h0
      · exact absurd h (by simp)
    · split at h
      · rename_i hty
        split at h
        · injection h with h
          subst h
          simp only [SLIST_INSERT_HEAD, List.mem_cons] at he
          rcases he with rfl | h0
          · simp only [coc_addr.glob.injEq] at hg
            exact Or.inr ⟨hty, hg.symm⟩
          · exact Or.inl h0
        · injection h with h
          subst h
          simp only [SLIST_INSERT_HEAD, List.mem_cons] at he
          rcases he with rfl | h0
          · simp only [coc_addr.glob.injEq] at hg
            exact Or.inr ⟨hty, hg.symm⟩
          · exact Or.inl h0
      · split at h
        · split at h
          · injection h with h
            subst h
            exact Or.inl (host_entries_globs port r _ st e he g hg)
          · exact absurd h (by simp)
        · injection h with h
          subst h
          exact Or.inl he

/-- The pattern stored for an accepted token classified as Glob. -/
theorem glob_host_ok (libc : Libc) (str : List Char) (s0 s : scan_state) (port : Nat)
    (h0 : scan_loop str 0 scan_state.init = .ok s0) (h1 : scan_finish s0 = .ok s)
    (h2 : coc_rule_port libc str s = .ok port) (hty : s.type = COC_GLOB_ADDR) :
    glob_pattern_ok (coc_rule_host str s) := by
  have hv := scan_loop_candidates str 0 scan_state.init s0 scan_init_candidates h0
  have hs0 : s0.type = COC_GLOB_ADDR := by
    have hres := (candidates_glob_table s0.type (candidates_ok_lt _ hv) hv).2.2.2.2
    rw [scan_finish_resolved] at h1
    split_ifs at h1 with d1 d2
    simp only [Except.ok.injEq] at h1
    rw [← h1] at hty
    exact hres hty
  have hs : s = s0 := scan_finish_type_glob s0 s hs0 h1
  subst hs
  have hsb : s.sb = IPV6_SB_NONE := by
    by_contra hne
    have h6 := scan_loop_sb str 0 scan_state.init s scan_init_sb h0 hne
    rw [h6] at hty
    exact absurd hty (by decide)
  have hhost : coc_rule_host str s =
      match s.service with
      | some i => str.take (i - 1)
      | none => str := by
    unfold coc_rule_host
    simp only [hsb, reduceCtorEq, if_false, Nat.sub_zero]
  have hstar : '*' ∈ str := by
    rcases scan_loop_glob_origin str 0 scan_state.init s scan_init_candidates h0 hty with h | h
    · exact absurd h (by decide)
    · exact h
  have hchars := scan_loop_glob_chars str 0 scan_state.init s h0 hty
  have hsvc := scan_loop_service str str 0 scan_state.init s rfl
    (fun i hi => absurd hi (by simp [scan_state.init])) h0
  have hcolon := scan_loop_host_colon str str 0 scan_state.init s rfl
    (fun _ => Or.inl ⟨rfl, rfl, by simp⟩) h0 (by rw [hty]; decide)
  have hsub : ∀ c ∈ coc_rule_host str s, c ∈ str := by
    intro c hc
    rw [hhost] at hc
    cases hsv : s.service with
    | none =>
      rw [hsv] at hc
      exact hc
    | some i =>
      rw [hsv] at hc
      exact List.mem_of_mem_take hc
  have hnocolon : ':' ∉ coc_rule_host str s := by
    rw [hhost]
    rcases hcolon with ⟨hsv, hn⟩ | ⟨i, hsv, hn⟩
    · rw [hsv]
      exact hn
    · rw [hsv]
      exact hn
  have hstarh : '*' ∈ coc_rule_host str s := by
    rw [hhost]
    cases hsv : s.service with
    | none => exact hstar
    | some i =>
      obtain ⟨hi1, -, hc⟩ := hsvc i hsv
      have hsplit := take_colon_split str i hi1 hc
      rw [hsplit] at hstar
      simp only [List.mem_append, List.mem_cons] at hstar
      rcases hstar with h | h | h
      · exact h
      · exact absurd h (by decide)
      · exfalso
        simp only [coc_rule_port, hsv] at h2
        exact port_parse_no_star libc _ port h2 h
  have hgc : ∀ c ∈ coc_rule_host str s, glob_char c = true := by
    intro c hc
    rcases hchars c (hsub c hc) with h | h
    · exact h
    · rw [h] at hc
      exact absurd hc hnocolon
  have hne : coc_rule_host str s ≠ [] := by
    intro h
    rw [h] at hstarh
    exact absurd hstarh (by simp)
  have hhead : ∀ d, (coc_rule_host str s).head? = some d → d ≠ '-' ∧ d ≠ '_' := by
    intro d hd
    match str, h0, hhost with
    | [], _, hhost =>
      exfalso
      apply hne
      rw [hhost]
      cases s.service <;> simp
    | c :: cs, h0, hhost =>
      obtain ⟨s1, b, hc, -⟩ := scan_loop_cons c cs 0 scan_state.init s h0
      have hc0 := (scan_char_class 0 c scan_state.init s1 b hc).2.2.2.2 rfl
      have : d = c := by
        rw [hhost] at hd
        cases hsv : s.service with
        | none =>
          rw [hsv] at hd
          simpa using hd.symm
        | some i =>
          rw [hsv] at hd
          dsimp only at hd
          cases hk : i - 1 with
          | zero =>
            rw [hk] at hd
            simp at hd
          | succ k =>
            rw [hk] at hd
            simpa using hd.symm
      rw [this]
      exact hc0
  refine ⟨hne, hstarh, hgc, fun c hc => glob_char_printable c (hgc c hc), ?_, ?_⟩
  · intro hd
    exact (hhead _ hd).1 rfl
  · intro hd
    exact (hhead _ hd).2 rfl

theorem coc_rule_add_globs (libc : Libc) (str : List Char) (r : coc_rule_type)
    (st st1 : coc_state) (hst : glob_entries_ok st.coc_list_head)
    (hadd : coc_rule_add libc str r st = .ok st1) : glob_entries_ok st1.coc_list_head := by
  obtain ⟨s0, s, port, h0, h1, h2, h3⟩ := coc_rule_add_inv libc str r st st1 hadd
  intro e he g hg
  rcases coc_rule_build_globs libc _ _ _ r st st1 h3 e he g hg with h | ⟨hty, rfl⟩
  · exact hst e h g hg
  · exact glob_host_ok libc str s0 s port h0 h1 h2 hty

theorem rules_loop_globs (libc : Libc) (rules : List Char) (r : coc_rule_type) (n : Nat) :
    ∀ (len count : Nat) (st : coc_state) (len1 count1 : Nat) (st1 : coc_state),
      glob_entries_ok st.coc_list_head →
      rules_loop libc rules r n len count st = .ok (len1, count1, st1) →
      glob_entries_ok st1.coc_list_head := by
  induction n with
  | zero =>
    intro len count st len1 count1 st1 hst h
    simp only [rules_loop, Except.ok.injEq, Prod.mk.injEq] at h
    obtain ⟨-, -, rfl⟩ := h
    exact hst
  | succ k ih =>
    intro len count st len1 count1 st1 hst h
    unfold rules_loop at h
    split at h
    · split at h
      · exact absurd h (by simp)
      · rename_i st2 hst2
        refine ih _ _ _ _ _ _ ?_ h
        split at hst2
        · exact coc_rule_add_globs libc _ r st st2 hst hst2
        · injection hst2 with hst2
          subst hst2
          exact hst
    · exact ih _ _ _ _ _ _ hst h

theorem coc_rules_add_globs (libc : Libc) (rules : Option (List Char)) (r : coc_rule_type)
    (st st1 : coc_state) (n : Nat) (hst : glob_entries_ok st.coc_list_head)
    (h : coc_rules_add libc rules r st = .ok (n, st1)) :
    glob_entries_ok st1.coc_list_head := by
  unfold coc_rules_add at h
  split at h
  · simp only [Except.ok.injEq, Prod.mk.injEq] at h
    obtain ⟨-, rfl⟩ := h
    exact hst
  · split at h
    · exact absurd h (by simp)
    · rename_i len count st2 hl
      have h2 := rules_loop_globs libc _ r _ _ _ _ _ _ _ hst hl
      split at h
      · split at h
        · exact absurd h (by simp)
        · rename_i st3 hst3
          simp only [Except.ok.injEq, Prod.mk.injEq] at h
          obtain ⟨-, rfl⟩ := h
          exact coc_rule_add_globs libc _ r st2 st3 h2 hst3
      · simp only [Except.ok.injEq, Prod.mk.injEq] at h
        obtain ⟨-, rfl⟩ := h
        exact h2

theorem add_all_globs (libc : Libc) (r : coc_rule_type) (toks : List (List Char)) :
    ∀ (st st1 : coc_state), glob_entries_ok st.coc_list_head →
      add_all libc r toks st = .ok st1 → glob_entries_ok st1.coc_list_head := by
  induction toks with
  | nil =>
    intro st st1 hst h
    simp only [add_all, Except.ok.injEq] at h
    rw [← h]
    exact hst
  | cons t ts ih =>
    intro st st1 hst h
    rw [add_all] at h
    cases h1 : coc_rule_add libc t r st with
    | error e =>
      rw [h1] at h
      exact absurd h (by simp)
    | ok st2 =>
      rw [h1] at h
      exact ih st2 st1 (coc_rule_add_globs libc t r st st2 hst h1) h

/-- C21. Every Glob entry of a store built by `coc_rule_add` has a pattern
that is not empty, holds at least one `*`, is made only of ASCII letters,
digits, `.`, `*`, `-` and `_`, all of them printable, and does not begin with
`-` or `_`: `coc_rule_add` keeps this true of the store, so it holds after any
sequence of tokens added to the empty store and after `coc_init`. -/
theorem glob_entries_valid (libc : Libc) :
    (∀ (str : List Char) (r : coc_rule_type) (st st1 : coc_state),
      glob_entries_ok st.coc_list_head → coc_rule_add libc str r st = .ok st1 →
      glob_entries_ok st1.coc_list_head) ∧
    (∀ (r : coc_rule_type) (toks : List (List Char)) (st1 : coc_state),
      add_all libc r toks coc_state.initial = .ok st1 →
      glob_entries_ok st1.coc_list_head) ∧
    (∀ (env : coc_environ) (st st1 : coc_state), coc_init libc env st = .ok st1 →
      glob_entries_ok st1.coc_list_head) := by
  have hnil : glob_entries_ok [] := fun e he => absurd he (by simp)
  refine ⟨coc_rule_add_globs libc, ?_, ?_⟩
  · intro r toks st1 h
    exact add_all_globs libc r toks coc_state.initial st1 hnil h
  · intro env st st1 h
    unfold coc_init at h
    dsimp only at h
    cases hb : coc_rules_add libc env.COC_BLOCK COC_BLOCK { st with coc_list_head := [] } with
    | error e =>
      rw [hb] at h
      exact absurd h (by simp)
    | ok x =>
      obtain ⟨n1, sb⟩ := x
      rw [hb] at h
      dsimp only at h
      have h1 := coc_rules_add_globs libc _ COC_BLOCK _ sb n1 hnil hb
      cases ha : coc_rules_add libc env.COC_ALLOW COC_ALLOW sb with
      | error e =>
        rw [ha] at h
        exact absurd h (by simp)
      | ok y =>
        obtain ⟨n2, sa⟩ := y
        rw [ha] at h
        dsimp only at h
        have h2 := coc_rules_add_globs libc _ COC_ALLOW sb sa n2 h1 ha
        split_ifs at h with d1 d2
        · cases hr : coc_read_resolv libc env.resolv_conf with
          | error e =>
            rw [hr] at h
            exact absurd h (by simp)
          | ok dns =>
            rw [hr] at h
            dsimp only at h
            split_ifs at h with d3
            simp only [Except.ok.injEq] at h
            rw [← h]
            exact h2
        · simp only [Except.ok.injEq] at h
          rw [← h]
          exact h2

/-- Witness for C21: the store after start-up with `COC_BLOCK="*"` and
`COC_ALLOW="*.example.com:443;8.8.8.8"` holds the patterns `*.example.com`
and `*`. -/
theorem glob_entries_valid_witness :
    coc_init libc_ref env_glob coc_state.initial = .ok st_glob ∧
    glob_entries_ok st_glob.coc_list_head ∧
    glob_pattern_ok "*.example.com".toList ∧ glob_pattern_ok ['*'] :=
  have h : coc_init libc_ref env_glob coc_state.initial = .ok st_glob := by decide
  have hall := (glob_entries_valid libc_ref).2.2 env_glob coc_state.initial st_glob h
  ⟨h, hall,
   hall ⟨.glob "*.example.com".toList, htons 443, COC_ALLOW⟩ (by simp [st_glob]) _ rfl,
   hall (star_entry COC_BLOCK) (by simp [st_glob]) _ rfl⟩

end ConnectOrCut
